import Mathlib

/-!
# idevicesyslog: filter registry, trigger state machine, legacy and trace parsers

A shallow embedding of `src/tools/idevicesyslog.c`.

Modelling conventions.

* A byte (`char`) is a `Nat`; a C string is the list of its bytes before the
  terminating NUL.  `bytes "abc"` is the byte list of a string literal.
* A buffer in memory is a `List Nat`, a pointer into it is an index; reading
  an index is `List.getD _ _ 0`.  `cstr mem p` is the C string that starts at
  index `p`.
* The file-scope filter variables of the C file are the fields of `Config`
  (`num_x` is the length of the list `x`); the session variables `triggered`,
  `quit_flag`, `line`, `line_buffer_size` and `lp` are the fields of `Session`.
* `int lp` and `int line_buffer_size` are modelled as `Nat`: the model is exact
  as long as the buffer stays below `2^31` bytes.  The `(int)` conversion of a
  `long` or `uint32_t` is modelled by `toInt32` (two's complement wrap).
* Writes to `stdout` are recorded as a list of `Out` events; `cprintf` of a
  colour constant is the event `Out.color`, which renders as an escape
  sequence, or as nothing when colours are disabled.
* `realloc` is taken to succeed, and diagnostics on `stderr` are not recorded.
-/

namespace Idevicesyslog

/-! ## Bytes and libc primitives -/

/-- Byte list of a string literal. -/
def bytes (s : String) : List Nat := s.toList.map Char.toNat

/-- The C string stored in `mem` from index `p` on: the bytes before the first NUL. -/
def cstr (mem : List Nat) (p : Nat) : List Nat := (mem.drop p).takeWhile (fun b => b != 0)

/-- Length of the C string at the start of `mem` (`strlen`). -/
def strlen (mem : List Nat) : Nat := (cstr mem 0).length

/-- Whether `needle` starts `haystack` (the inner comparison loop of `strstr`). -/
def starts_with : List Nat → List Nat → Bool
  | _, [] => true
  | [], _ :: _ => false
  | a :: h, b :: n => a == b && starts_with h n

/-- Truth value of `strstr(haystack, needle)`: `true` when a non-NULL pointer is
returned, that is when `needle` occurs in `haystack` at some offset. -/
def strstr : List Nat → List Nat → Bool
  | [], needle => starts_with [] needle
  | a :: h, needle => starts_with (a :: h) needle || strstr h needle

/-- Result of `strncmp(s1, s2, n)` on two C strings: the difference of the first
differing bytes among the first `n`, the terminating NUL counting as byte 0. -/
def strncmp : List Nat → List Nat → Nat → Int
  | _, _, 0 => 0
  | [], [], _ + 1 => 0
  | [], b :: _, _ + 1 => 0 - (b : Int)
  | a :: _, [], _ + 1 => (a : Int)
  | a :: s, b :: t, n + 1 => if a = b then strncmp s t n else (a : Int) - (b : Int)

/-- Largest `long` (LP64). -/
def LONG_MAX : Int := 9223372036854775807

/-- Smallest `long` (LP64). -/
def LONG_MIN : Int := -9223372036854775808

/-- Conversion of an integer to `int`: two's complement wrap to 32 bits. -/
def toInt32 (v : Int) : Int := (v + 2147483648) % 4294967296 - 2147483648

/-- The `isspace` test of the C locale. -/
def isspace (c : Nat) : Bool := c == 32 || (9 ≤ c && c ≤ 13)

/-- The `isdigit` test. -/
def isdigit (c : Nat) : Bool := 48 ≤ c && c ≤ 57

/-- Digit accumulation of `strtol` in base 10: returns the magnitude read and
the number of digits consumed. -/
def strtol_digits : List Nat → Nat → Nat → Nat × Nat
  | [], acc, k => (acc, k)
  | c :: s, acc, k => if isdigit c then strtol_digits s (acc * 10 + (c - 48)) (k + 1) else (acc, k)

/-- The call `strtol(nptr, &endp, 10)`: skips white space, reads an optional sign
and the decimal digits, clamps to the range of `long`.  Returns the value and the
offset of `endp` from `nptr`; with no digit the value is 0 and the offset is 0. -/
def strtol (nptr : List Nat) : Int × Nat :=
  let ws := (nptr.takeWhile isspace).length
  let s := nptr.drop ws
  let neg := s.head? == some 45
  let sg := if s.head? == some 45 || s.head? == some 43 then 1 else 0
  let r := strtol_digits (s.drop sg) 0 0
  if r.2 = 0 then (0, 0)
  else
    let v : Int := if neg then 0 - (r.1 : Int) else (r.1 : Int)
    (max LONG_MIN (min LONG_MAX v), ws + sg + r.2)

/-! ## Filter registry -/

/-- The file-scope filter configuration.  An entry of `proc_filters` is `none`
when it has been set to `NULL` (the `-k` option combined with an exclude filter). -/
structure Config where
  proc_filters : List (Option (List Nat))
  proc_filter_excluding : Bool
  pid_filters : List Int
  msg_filters : List (List Nat)
  msg_reverse_filters : List (List Nat)
  trigger_filters : List (List Nat)
  untrigger_filters : List (List Nat)
  show_device_name : Bool
deriving DecidableEq, Repr

/-- The configuration before option processing: every list empty, flags off. -/
def Config.initial : Config :=
  ⟨[], false, [], [], [], [], [], false⟩

/-- Body of the `if (p-start > 0)` block of `add_filter`: the token
`filterstr[start..p)` is copied to `procn`, parsed with `strtol`, and appended to
`pid_filters` when `*endp == 0` and to `proc_filters` otherwise. -/
def add_filter_token (cfg : Config) (procn : List Nat) : Config :=
  let r := strtol procn
  let pid_value := toInt32 r.1
  if procn.getD r.2 0 == 0 then
    { cfg with pid_filters := cfg.pid_filters ++ [pid_value] }
  else
    { cfg with proc_filters := cfg.proc_filters ++ [some procn] }

/-- The `while (p <= end)` loop of `add_filter`; the first argument is the number of
iterations left, `end + 1 - p`. -/
def add_filter_loop (filterstr : List Nat) : Nat → Nat → Nat → Config → Config
  | 0, _, _, cfg => cfg
  | fuel + 1, start, p, cfg =>
    if filterstr.getD p 0 == 124 || filterstr.getD p 0 == 0 then
      let cfg1 :=
        if p - start > 0 then add_filter_token cfg ((filterstr.drop start).take (p - start))
        else cfg
      add_filter_loop filterstr fuel (p + 1) (p + 1) cfg1
    else
      add_filter_loop filterstr fuel start (p + 1) cfg

/-- The function `add_filter(filterstr)`.  `filterstr` is the memory at the pointer
passed; a read at or after its end gives the terminating NUL. -/
def add_filter (cfg : Config) (filterstr : List Nat) : Config :=
  let filter_len := strlen filterstr
  add_filter_loop filterstr (filter_len + 1) 0 0 cfg

/-- The function `message_filter_matching(message)`. -/
def message_filter_matching (cfg : Config) (message : List Nat) : Bool :=
  if cfg.msg_filters.length > 0 && !(cfg.msg_filters.any (fun f => strstr message f)) then
    false
  else if cfg.msg_reverse_filters.length > 0
      && cfg.msg_reverse_filters.any (fun f => strstr message f) then
    false
  else
    true

/-- The function `process_filter_matching(pid, process_name, process_name_length)`;
`process_name` is the C string at the pointer passed. -/
def process_filter_matching (cfg : Config) (pid : Int) (process_name : List Nat)
    (process_name_length : Nat) : Bool :=
  let proc_matched :=
    if cfg.pid_filters.length > 0 then
      let found :=
        if cfg.pid_filters.any (fun f => pid == f) then !cfg.proc_filter_excluding
        else cfg.proc_filter_excluding
      found
    else false
  if cfg.proc_filters.length > 0 && !proc_matched then
    let found :=
      if cfg.proc_filters.any (fun f =>
          match f with
          | none => false
          | some s => strncmp s process_name process_name_length == 0)
      then !cfg.proc_filter_excluding
      else cfg.proc_filter_excluding
    if found then true else proc_matched
  else proc_matched

/-- The check both callers make around `process_filter_matching` (lines 305-312
and 458-464): the record passes when the function returns 1, or when it returns 0
and neither pid nor process filters are configured. -/
def process_filter_passes (cfg : Config) (pid : Int) (process_name : List Nat)
    (process_name_length : Nat) : Bool :=
  if process_filter_matching cfg pid process_name process_name_length then true
  else if cfg.pid_filters.length > 0 || cfg.proc_filters.length > 0 then false
  else true


/-! ## Output events and session state -/

/-- The colour constants of `termcolors.h` used by the tool. -/
inductive Color
  | FG_WHITE | FG_LIGHT_GRAY | FG_DARK_YELLOW | FG_BRIGHT_CYAN | FG_CYAN
  | FG_GREEN | FG_RED | FG_YELLOW | FG_MAGENTA | COLOR_RESET
deriving DecidableEq, Repr

/-- One write to `stdout`: a colour escape (`cprintf` of a colour constant), a run
of bytes (`fwrite`, or literal text and `%s` arguments of `cprintf`), the date
string rendered from `time_sec` and `time_usec` by `strftime` and `snprintf`, or
an integer printed with `%d`. -/
inductive Out
  | color (c : Color)
  | write (data : List Nat)
  | date (time_sec : Nat) (time_usec : Nat)
  | decimal (n : Int)
deriving DecidableEq, Repr

/-- The bytes of the `write` events of an output, in order: the text that reaches
`stdout` when colours are disabled, dates and `%d` numbers left out. -/
def written : List Out → List Nat
  | [] => []
  | Out.write d :: r => d ++ written r
  | _ :: r => written r

/-- The bytes `mem[a .. a+n)`, the argument of `fwrite(mem + a, 1, n, stdout)`. -/
def slice (mem : List Nat) (a n : Nat) : List Nat := (mem.drop a).take n

/-- The session variables `triggered`, `quit_flag`, `line`, `line_buffer_size`, `lp`. -/
structure Session where
  triggered : Bool
  quit_flag : Nat
  line : List Nat
  line_buffer_size : Nat
  lp : Nat
deriving DecidableEq, Repr

/-- Lines 71 and 1156-1158 of `main`: `triggered` starts at 0 and is set to 1 after
option processing when an untrigger is configured and no trigger is. -/
def initial_triggered (cfg : Config) : Bool :=
  if cfg.untrigger_filters.length > 0 && cfg.trigger_filters.length == 0 then true else false

/-- Memory obtained from the allocator: `n` bytes starting at index `base`, with the
indeterminate contents given by `heap`. -/
def fresh (heap : Nat → Nat) (base n : Nat) : List Nat :=
  (List.range n).map (fun i => heap (base + i))

/-- The session when the first byte arrives: lines 1243-1244 of `main` allocate a
line buffer of 1024 bytes. -/
def Session.initial (cfg : Config) (heap : Nat → Nat) : Session :=
  ⟨initial_triggered cfg, 0, fresh heap 0 1024, 1024, 0⟩

/-! ## Legacy record parser -/

/-- The loop of `find_char`; the first argument is `end - p`, the number of
positions left before `end`. -/
def find_char_loop (mem : List Nat) (c : Nat) : Nat → Nat → Nat
  | 0, p => p
  | fuel + 1, p => if mem.getD p 0 != c then find_char_loop mem c fuel (p + 1) else p

/-- The function `find_char(c, &p, end)`: returns the new value of `p` and the
result `**p == c`. -/
def find_char (mem : List Nat) (c p end_ : Nat) : Nat × Bool :=
  let q := find_char_loop mem c (end_ - p) p
  (q, mem.getD q 0 == c)

/-- The field variables of the structured branch of `syslog_callback`, as they stand
when the branch runs to its end: pointers are offsets into `line`. -/
structure Parsed where
  device_name_start : Nat
  device_name_end : Nat
  process_name_start : Nat
  process_name_end : Nat
  proc_name_end : Nat
  pid_value : Int
  level_start : Nat
  level_end : Nat
  level_color : Color
deriving DecidableEq, Repr

/-- The local variables of `syslog_callback` that are live when its `do` block is
left, together with the writes made inside the block; `parsed` holds the field
variables when the structured branch ran to its end, and is `none` otherwise. -/
structure Block where
  shall_print : Bool
  trigger_off : Bool
  triggered : Bool
  quit_flag : Nat
  out : List Out
  linep : Nat
  lp : Nat
  parsed : Option Parsed
deriving DecidableEq, Repr

/-- A `break` out of the structured branch: nothing written, `linep` and `lp` untouched. -/
def Block.brk (shall_print trigger_off triggered : Bool) (quit_flag lp : Nat) : Block :=
  ⟨shall_print, trigger_off, triggered, quit_flag, [], 0, lp, none⟩

/-- Lines 314-361 of `syslog_callback`: level token recognition and the writes of
the date, device name, process name, pid and level; `p` points after the `"] "`. -/
def legacy_emit (cfg : Config) (line : List Nat) (lp : Nat) (trigger_off triggered : Bool)
    (quit_flag device_name_start device_name_end process_name_start process_name_end
      proc_name_end p : Nat) (pid_value : Int) : Block :=
  let level_start := p
  let lv : Nat × Color :=
    if strncmp (cstr line p) (bytes "<Notice>:") 9 == 0 then (p + 9, Color.FG_GREEN)
    else if strncmp (cstr line p) (bytes "<Error>:") 8 == 0 then (p + 8, Color.FG_RED)
    else if strncmp (cstr line p) (bytes "<Warning>:") 10 == 0 then (p + 10, Color.FG_YELLOW)
    else if strncmp (cstr line p) (bytes "<Debug>:") 8 == 0 then (p + 8, Color.FG_MAGENTA)
    else (p, Color.FG_WHITE)
  let level_end := lv.1
  let out :=
    [Out.color Color.FG_LIGHT_GRAY, Out.write (slice line 0 16)]
    ++ (if cfg.show_device_name then
          [Out.color Color.FG_DARK_YELLOW,
           Out.write (slice line device_name_start (device_name_end - device_name_start + 1)),
           Out.color Color.COLOR_RESET]
        else [])
    ++ [Out.color Color.FG_BRIGHT_CYAN,
        Out.write (slice line process_name_start (process_name_end - process_name_start)),
        Out.color Color.FG_CYAN,
        Out.write (slice line process_name_end (proc_name_end - process_name_end + 1)),
        Out.color lv.2]
    ++ (if level_end > level_start then
          [Out.write (slice line level_start (level_end - level_start))]
        else [])
    ++ [Out.color Color.FG_WHITE]
  let p1 := if level_end > level_start then level_end else p
  ⟨true, trigger_off, triggered, quit_flag, out, p1, lp - p1,
    some ⟨device_name_start, device_name_end, process_name_start, process_name_end,
      proc_name_end, pid_value, level_start, level_end, lv.2⟩⟩

/-- Lines 279-312 of `syslog_callback`: message filters, the scans for the process
name, the pid and the space after `]`, and the process filters; `p` points after
the space that ends the device name. -/
def legacy_fields (cfg : Config) (line : List Nat) (lp : Nat) (trigger_off triggered : Bool)
    (quit_flag device_name_start device_name_end p : Nat) : Block :=
  let end_ := lp
  let shall_print := message_filter_matching cfg (cstr line (device_name_end + 1))
  if !shall_print then Block.brk shall_print trigger_off triggered quit_flag lp
  else
    let process_name_start := p
    let r1 := find_char line 91 p end_
    if !r1.2 then Block.brk shall_print trigger_off triggered quit_flag lp
    else
      let p1 := r1.1
      let pid_start := p1 + 1
      let r2 := find_char line 40 process_name_start p1
      let process_name_end := if r2.2 then r2.1 else p1
      let r3 := find_char line 93 p1 end_
      if !r3.2 then Block.brk shall_print trigger_off triggered quit_flag lp
      else
        let p2 := r3.1 + 1
        if line.getD p2 0 != 32 then Block.brk shall_print trigger_off triggered quit_flag lp
        else
          let proc_name_end := p2
          let p3 := p2 + 1
          let pid_value := toInt32 (strtol (cstr line pid_start)).1
          if process_filter_matching cfg pid_value (cstr line process_name_start)
              (process_name_end - process_name_start) then
            legacy_emit cfg line lp trigger_off triggered quit_flag device_name_start
              device_name_end process_name_start process_name_end proc_name_end p3 pid_value
          else if cfg.pid_filters.length > 0 || cfg.proc_filters.length > 0 then
            Block.brk false trigger_off triggered quit_flag lp
          else
            legacy_emit cfg line lp trigger_off triggered quit_flag device_name_start
              device_name_end process_name_start process_name_end proc_name_end p3 pid_value

/-- The `do { ... } while (0)` block of `syslog_callback` (lines 224-367), run on the
completed record `line[0 .. lp)` with `line[lp] = 0`. -/
def legacy_block (cfg : Config) (triggered : Bool) (quit_flag : Nat) (line : List Nat)
    (lp : Nat) : Block :=
  if lp < 16 then ⟨true, false, triggered, quit_flag, [Out.color Color.FG_WHITE], 0, lp, none⟩
  else if line.getD 3 0 == 32 && line.getD 6 0 == 32 && line.getD 15 0 == 32 then
    let end_ := lp
    let device_name_start := 16
    let r0 := find_char line 32 16 end_
    if !r0.2 then Block.brk false false triggered quit_flag lp
    else
      let device_name_end := r0.1
      let p := r0.1 + 1
      if cfg.untrigger_filters.length > 0 && triggered then
        let found := cfg.untrigger_filters.any (fun f => strstr (cstr line (device_name_end + 1)) f)
        legacy_fields cfg line lp found triggered quit_flag device_name_start device_name_end p
      else if cfg.trigger_filters.length > 0 && !triggered then
        let found := cfg.trigger_filters.any (fun f => strstr (cstr line (device_name_end + 1)) f)
        if !found then Block.brk false false triggered quit_flag lp
        else legacy_fields cfg line lp false true quit_flag device_name_start device_name_end p
      else if cfg.trigger_filters.length == 0 && cfg.untrigger_filters.length > 0
          && !triggered then
        Block.brk false false triggered (quit_flag + 1) lp
      else
        legacy_fields cfg line lp false triggered quit_flag device_name_start device_name_end p
  else ⟨true, false, triggered, quit_flag, [Out.color Color.FG_WHITE], 0, lp, none⟩

/-- The condition of line 369 that no filter of any kind is configured. -/
def no_filters (cfg : Config) : Bool :=
  cfg.msg_filters.length == 0 && cfg.msg_reverse_filters.length == 0
    && cfg.proc_filters.length == 0 && cfg.pid_filters.length == 0
    && cfg.trigger_filters.length == 0 && cfg.untrigger_filters.length == 0

/-- Lines 219-380 of `syslog_callback`: what happens once the NUL byte has been
stored at `line[lp]` (`lp` already decremented). -/
def legacy_record (cfg : Config) (s : Session) (line : List Nat) (lp : Nat) :
    Session × List Out :=
  let b := legacy_block cfg s.triggered s.quit_flag line lp
  if no_filters cfg || b.shall_print then
    ({ triggered := if b.trigger_off then false else b.triggered,
       quit_flag := b.quit_flag,
       line := line.set 0 0,
       line_buffer_size := s.line_buffer_size,
       lp := 0 },
     b.out ++ [Out.write (slice line b.linep b.lp), Out.color Color.COLOR_RESET])
  else
    ({ triggered := b.triggered,
       quit_flag := b.quit_flag,
       line := line.set 0 0,
       line_buffer_size := s.line_buffer_size,
       lp := 0 },
     b.out)

/-- The function `syslog_callback(c, user_data)`: grows the buffer when the cursor
has reached its last byte, stores `c`, and processes the record when `c` is NUL.
`realloc` is taken to succeed; the bytes it adds come from `heap`. -/
def syslog_callback (cfg : Config) (heap : Nat → Nat) (s : Session) (c : Nat) :
    Session × List Out :=
  let s1 : Session :=
    if s.lp + 1 ≥ s.line_buffer_size then
      { s with line_buffer_size := s.line_buffer_size + 1024,
               line := s.line ++ fresh heap s.line.length 1024 }
    else s
  let line := s1.line.set s1.lp c
  if c == 0 then legacy_record cfg s1 line s1.lp
  else ({ s1 with line := line, lp := s1.lp + 1 }, [])

/-- The transport calling `syslog_callback` once per received byte. -/
def feed (cfg : Config) (heap : Nat → Nat) : Session → List Nat → Session × List Out
  | s, [] => (s, [])
  | s, c :: cs =>
    let r := syslog_callback cfg heap s c
    let r2 := feed cfg heap r.1 cs
    (r2.1, r.2 ++ r2.2)

/-! ## Trace packet parser -/

/-- The fields of `struct ostrace_packet_header_t` that `ostrace_syslog_callback`
reads.  The packed layout of the structure is declared in `ostrace.h`; the decoded
header is passed next to the buffer it was read from. -/
structure ostrace_packet_header_t where
  marker : Nat
  type : Nat
  header_size : Nat
  pid : Nat
  procpath_len : Nat
  imagepath_len : Nat
  message_len : Nat
  level : Nat
  time_sec : Nat
  time_usec : Nat
deriving DecidableEq, Repr

/-- The scan of `strrchr(s, c)` for `c` other than NUL: the offset of the last
occurrence of `c` seen so far, `i` being the offset of the head of the list. -/
def strrchr_loop (c : Nat) : List Nat → Nat → Option Nat → Option Nat
  | [], _, last => last
  | a :: s, i, last => strrchr_loop c s (i + 1) (if a == c then some i else last)

/-- The call `strrchr(s, c)` for `c` other than NUL: the offset of the last `c` in
the C string `s`, or `none` for a NULL result. -/
def strrchr (s : List Nat) (c : Nat) : Option Nat := strrchr_loop c s 0 none

/-- Result of `strcmp(s1, s2)` on two C strings. -/
def strcmp : List Nat → List Nat → Int
  | [], [] => 0
  | [], b :: _ => 0 - (b : Int)
  | a :: _, [] => (a : Int)
  | a :: s, b :: t => if a = b then strcmp s t else (a : Int) - (b : Int)

/-- The `switch (trace_hdr->level)` of lines 474-498: level label and colour.  The
case `0x11` has no `break` and falls into the empty `default`. -/
def trace_level (level : Nat) : List Nat × Color :=
  if level = 0 then (bytes "Notice", Color.FG_GREEN)
  else if level = 1 then (bytes "Info", Color.FG_WHITE)
  else if level = 2 then (bytes "Debug", Color.FG_MAGENTA)
  else if level = 16 then (bytes "Error", Color.FG_RED)
  else if level = 17 then (bytes "Fault", Color.FG_RED)
  else (bytes "Unknown", Color.FG_YELLOW)

/-- Lines 405-406: the process short name. -/
def trace_process_name_short (process_name : List Nat) : List Nat :=
  match strrchr process_name 47 with
  | some i => process_name.drop (i + 1)
  | none => process_name

/-- Lines 407-411: the image short name, `none` when it is set to NULL. -/
def trace_image_name_short (process_name : List Nat) (image_name : Option (List Nat)) :
    Option (List Nat) :=
  let found : Option (List Nat) :=
    match image_name with
    | some im =>
      match strrchr im 47 with
      | some i => some (im.drop (i + 1))
      | none => none
    | none => none
  let image_name_short : List Nat :=
    match found with
    | some x => x
    | none => process_name
  if strcmp image_name_short (trace_process_name_short process_name) == 0 then none
  else some image_name_short

/-- Lines 474-542 of `ostrace_syslog_callback`: the writes for a packet that is
printed.  `none` stands for undefined behaviour: a NULL `message` passed to `%s`. -/
def trace_emit (hdr : ostrace_packet_header_t) (process_name_short : List Nat)
    (image_name_short : Option (List Nat)) (message : Option (List Nat)) :
    Option (List Out) :=
  match message with
  | none => none
  | some msg =>
    some (
      [Out.color Color.FG_LIGHT_GRAY, Out.date hdr.time_sec hdr.time_usec, Out.write (bytes " "),
       Out.color Color.FG_BRIGHT_CYAN, Out.write process_name_short, Out.color Color.FG_CYAN]
      ++ (match image_name_short with
          | some im => [Out.write (bytes "("), Out.write im, Out.write (bytes ")")]
          | none => [])
      ++ [Out.write (bytes "["), Out.decimal (toInt32 hdr.pid), Out.write (bytes "]"),
          Out.color Color.COLOR_RESET, Out.write (bytes " "),
          Out.color (trace_level hdr.level).2,
          Out.write (bytes "<"), Out.write (trace_level hdr.level).1, Out.write (bytes ">:"),
          Out.color Color.COLOR_RESET, Out.write (bytes " "),
          Out.color Color.FG_WHITE,
          Out.write msg, Out.color Color.COLOR_RESET, Out.write [10]])

/-- The loop `for (i...) if (strstr(message, filters[i])) ...` on a `message` that
may be NULL: `none` (undefined behaviour) when the first iteration passes NULL to
`strstr`. -/
def trace_any_strstr (message : Option (List Nat)) (filters : List (List Nat)) : Option Bool :=
  match message with
  | some m => some (filters.any (fun f => strstr m f))
  | none => if filters.length > 0 then none else some false

/-- The call `message_filter_matching(message)` with a `message` that may be NULL. -/
def trace_message_filter_matching (cfg : Config) (message : Option (List Nat)) : Option Bool :=
  match message with
  | some m => some (message_filter_matching cfg m)
  | none =>
    if cfg.msg_filters.length > 0 || cfg.msg_reverse_filters.length > 0 then none
    else some true

/-- Lines 451-472 and 474-542: message filters, process filters and emission, with
`trigger_off` and `triggered` as left by the trigger evaluation. -/
def trace_filters (cfg : Config) (s : Session) (hdr : ostrace_packet_header_t)
    (process_name : List Nat) (image_name message : Option (List Nat))
    (trigger_off triggered : Bool) : Option (Session × List Out) :=
  match trace_message_filter_matching cfg message with
  | none => none
  | some false => some ({ s with triggered := triggered }, [])
  | some true =>
    let process_name_short := trace_process_name_short process_name
    let shall_print :=
      if process_filter_matching cfg (toInt32 hdr.pid) process_name_short
          process_name_short.length then true
      else if cfg.pid_filters.length > 0 || cfg.proc_filters.length > 0 then false
      else true
    if !shall_print then some ({ s with triggered := triggered }, [])
    else
      match trace_emit hdr process_name_short
          (trace_image_name_short process_name image_name) message with
      | none => none
      | some out =>
        some ({ s with triggered := if trigger_off then false else triggered }, out)

/-- The function `ostrace_syslog_callback(buf, len, user_data)`.  `buf` is the memory
from the pointer passed on, of which the first `len` bytes are the packet, and
`hdr` the header decoded from its start.  `none` stands for undefined behaviour
(a NULL `message` passed to `strstr` or to `%s`). -/
def ostrace_syslog_callback (cfg : Config) (s : Session) (hdr : ostrace_packet_header_t)
    (buf : List Nat) (len : Nat) : Option (Session × List Out) :=
  if len < 129 then some (s, [])
  else
    let dataptr := hdr.header_size
    let process_name := cstr buf dataptr
    let image_name : Option (List Nat) :=
      if hdr.imagepath_len > 0 then some (cstr buf (dataptr + hdr.procpath_len)) else none
    let message : Option (List Nat) :=
      if hdr.message_len > 0 then
        some (cstr buf (dataptr + hdr.procpath_len + hdr.imagepath_len))
      else none
    if cfg.untrigger_filters.length > 0 && s.triggered then
      match trace_any_strstr message cfg.untrigger_filters with
      | none => none
      | some found =>
        trace_filters cfg s hdr process_name image_name message found s.triggered
    else if cfg.trigger_filters.length > 0 && !s.triggered then
      match trace_any_strstr message cfg.trigger_filters with
      | none => none
      | some false => some (s, [])
      | some true => trace_filters cfg s hdr process_name image_name message false true
    else if cfg.trigger_filters.length == 0 && cfg.untrigger_filters.length > 0
        && !s.triggered then
      some ({ s with quit_flag := s.quit_flag + 1 }, [])
    else
      trace_filters cfg s hdr process_name image_name message false s.triggered

/-! ## Specification-level notions and sample inputs -/

/-- The configuration built by the options `-e 10 -K`: an exclude filter holding the
pid 10, to which `main` adds the process name `kernel`. -/
def cfg_exclude_pid_and_kernel : Config :=
  { add_filter (add_filter Config.initial (bytes "10")) (bytes "kernel") with
    proc_filter_excluding := true }

/-- A heap whose indeterminate bytes all read as `0x55`. -/
def heap_55 : Nat → Nat := fun _ => 85

/-- The buffer invariant between two calls of `syslog_callback`: `line` has
`line_buffer_size` bytes and the cursor is inside it. -/
def Session.inv (s : Session) : Prop :=
  s.line.length = s.line_buffer_size ∧ s.lp < s.line_buffer_size

/-- The configuration built by the option `-e SpringBoard`. -/
def cfg_exclude_springboard : Config :=
  { add_filter Config.initial (bytes "SpringBoard") with proc_filter_excluding := true }

/-- The text that follows the first occurrence of `c` in `l` (empty when `c` does not
occur). -/
def after_first (c : Nat) (l : List Nat) : List Nat := (l.dropWhile (fun b => b != c)).drop 1

/-- The text of a legacy record against which triggers and message filters are
matched: what follows the space that ends the device name. -/
def record_text (w : List Nat) : List Nat := after_first 32 (w.drop 16)

/-- A well-formed legacy record: no NUL byte, at least 16 bytes, a space at positions
3, 6 and 15, a space ending the device name, then a `[`, a `]` after it, and a space
right after that `]`. -/
def well_formed (w : List Nat) : Bool :=
  !w.contains 0 && decide (16 ≤ w.length)
    && w.getD 3 0 == 32 && w.getD 6 0 == 32 && w.getD 15 0 == 32
    && (w.drop 16).contains 32
    && (record_text w).contains 91
    && (after_first 91 (record_text w)).contains 93
    && (after_first 93 (after_first 91 (record_text w))).head? == some 32

/-- Whether a record's output put bytes on `stdout`: the record was printed. -/
def printed (out : List Out) : Bool := !(written out).isEmpty

/-- The transport delivering a sequence of records, each followed by its NUL; for each
record the verdict: whether it was printed, and the value of `triggered` after it. -/
def feed_records (cfg : Config) (heap : Nat → Nat) :
    Session → List (List Nat) → List (Bool × Bool)
  | _, [] => []
  | s, w :: ws =>
    (printed (feed cfg heap s (w ++ [0])).2, (feed cfg heap s (w ++ [0])).1.triggered)
      :: feed_records cfg heap (feed cfg heap s (w ++ [0])).1 ws

/-- The trigger state machine as the specification words it, run on the texts of a
sequence of records from the state `armed`.  A record evaluated while disarmed is
suppressed unless its text contains a trigger string, in which case it is printed and
the state becomes armed; a record evaluated while armed is printed, and the state
becomes disarmed after it when its text contains an untrigger string. -/
def trigger_spec (cfg : Config) : Bool → List (List Nat) → List (Bool × Bool)
  | _, [] => []
  | true, text :: rest =>
    if ∃ s ∈ cfg.untrigger_filters, s <:+: text then (true, false) :: trigger_spec cfg false rest
    else (true, true) :: trigger_spec cfg true rest
  | false, text :: rest =>
    if ∃ s ∈ cfg.trigger_filters, s <:+: text then (true, true) :: trigger_spec cfg true rest
    else (false, false) :: trigger_spec cfg false rest

/-- The configuration built by the options `-t START -T STOP`. -/
def cfg_start_stop : Config :=
  { Config.initial with trigger_filters := [bytes "START"], untrigger_filters := [bytes "STOP"] }

/-- Four well-formed legacy records with the messages `noise`, `START now`, `STOP now`
and `noise2`. -/
def records_start_stop : List (List Nat) :=
  [bytes "Jan  1 00:00:00 iPhone kernel[0] <Notice>: noise",
   bytes "Jan  1 00:00:01 iPhone kernel[0] <Notice>: START now",
   bytes "Jan  1 00:00:02 iPhone kernel[0] <Notice>: STOP now",
   bytes "Jan  1 00:00:03 iPhone kernel[0] <Notice>: noise2"]

/-- A required scan of the structured branch fails on the record `w`: no space ends the
device name, or no `[` follows it, or no `]` follows that `[`, or the byte right after
that `]` is not a space. -/
def scan_fails (w : List Nat) : Bool :=
  !(w.drop 16).contains 32
    || !(record_text w).contains 91
    || !(after_first 91 (record_text w)).contains 93
    || (after_first 93 (after_first 91 (record_text w))).head? != some 32

/-- Whether the trigger evaluation lets a record with the given text go on to the
message filters, in the state `triggered`. -/
def trigger_passes (cfg : Config) (triggered : Bool) (text : List Nat) : Bool :=
  if cfg.untrigger_filters.length > 0 && triggered then true
  else if cfg.trigger_filters.length > 0 && !triggered then
    cfg.trigger_filters.any (fun f => strstr text f)
  else if cfg.trigger_filters.length == 0 && cfg.untrigger_filters.length > 0 && !triggered then
    false
  else true

/-- The fields of a legacy record as byte strings: the device name, the process name,
the pid, the level token and the message text that is written after it. -/
structure Fields where
  device_name : List Nat
  process_name : List Nat
  pid : Int
  level : List Nat
  message : List Nat
deriving DecidableEq, Repr

/-- The fields a `do` block has split the record in `line` into: the spans between the
field variables of `Parsed`, and the span `line[linep .. linep+lp)` that line 370
writes as the message.  `none` when the structured branch did not run to its end. -/
def Block.fields (line : List Nat) (b : Block) : Option Fields :=
  match b.parsed with
  | none => none
  | some f =>
    some ⟨slice line f.device_name_start (f.device_name_end - f.device_name_start),
          slice line f.process_name_start (f.process_name_end - f.process_name_start),
          f.pid_value,
          slice line f.level_start (f.level_end - f.level_start),
          slice line b.linep b.lp⟩

/-- The number denoted by a string of decimal digits. -/
def decimal_value (ds : List Nat) : Nat := ds.foldl (fun acc c => acc * 10 + (c - 48)) 0

/-- The level names of the legacy format. -/
def level_names : List (List Nat) :=
  [bytes "Notice", bytes "Error", bytes "Warning", bytes "Debug"]

/-- The legacy record `timestamp + d + " " + n + "[" + ds + "] <" + L + ">: " + m`. -/
def legacy_layout (ts d n ds L m : List Nat) : List Nat :=
  ts ++ (d ++ 32 :: (n ++ 91 :: (ds ++ 93 :: 32 :: (60 :: (L ++ 62 :: 58 :: 32 :: m)))))

/-- A trace header that declares a 10-byte process path and a 7-byte message after a
header of 129 bytes: 146 bytes in all. -/
def hdr_overlong : ostrace_packet_header_t :=
  ⟨2, 8, 129, 77, 10, 0, 7, 0, 1700000000, 0⟩

/-- Memory that holds a 129-byte packet and, after its end, the bytes of `tail`. -/
def mem_after_packet (tail : List Nat) : List Nat := List.replicate 129 0 ++ tail

/-- A session of the trace parser: armed, no quit request, no line buffer. -/
def trace_session : Session := ⟨true, 0, [], 0, 0⟩

/-- The tokens of a filter string: the pieces between `|` delimiters, empty pieces
left out, in left-to-right order. -/
def filter_tokens (s : List Nat) : List (List Nat) :=
  (s.splitOn 124).filter (fun t => !t.isEmpty)

/-- The digits of a token once leading white space and one optional sign are removed. -/
def token_digits (tok : List Nat) : List Nat :=
  let s := tok.dropWhile isspace
  if s.head? == some 45 || s.head? == some 43 then s.drop 1 else s

/-- Whether the whole token parses as a decimal integer: optional white space, an
optional sign, then one or more digits up to the end of the token. -/
def integer_token (tok : List Nat) : Bool :=
  !(token_digits tok).isEmpty && (token_digits tok).all isdigit

/-- The integer a token denotes. -/
def integer_token_value (tok : List Nat) : Int :=
  if (tok.dropWhile isspace).head? == some 45 then 0 - (decimal_value (token_digits tok) : Int)
  else (decimal_value (token_digits tok) : Int)

/-- The value `add_filter` stores for an integer token: the value clamped to `long` by
`strtol`, then converted to `int`. -/
def token_pid (tok : List Nat) : Int :=
  toInt32 (max LONG_MIN (min LONG_MAX (integer_token_value tok)))

/-! ## Specification-level notions and sample inputs: decision procedure and levels -/

/-- The process name span of a well-formed legacy record: the text after the device
name up to the first `[`, cut at the first `(` when it has one. -/
def record_name (w : List Nat) : List Nat :=
  ((record_text w).takeWhile (fun b => b != 91)).takeWhile (fun b => b != 40)

/-- The pid of a well-formed legacy record: `(int)strtol` of the text after the `[`. -/
def record_pid (w : List Nat) : Int :=
  toInt32 (strtol (after_first 91 (record_text w))).1

/-- The text of a well-formed legacy record after the `"] "` that ends the process
name and pid: the level token, if any, and the message. -/
def record_tail (w : List Nat) : List Nat :=
  (after_first 93 (after_first 91 (record_text w))).drop 1

/-- The position of the space that ends the device name of a well-formed record. -/
def record_dne (w : List Nat) : Nat := 16 + (w.drop 16).indexOf 32

/-- The position of the `]` that ends the pid of a well-formed record. -/
def record_rbr (w : List Nat) : Nat :=
  record_dne w + 1 + (record_text w).indexOf 91 + 1 + (after_first 91 (record_text w)).indexOf 93

/-- The decision procedure as the specification orders it: trigger and untrigger
evaluation against the text, then the message filters, then the process filters.
Returns whether the record is printed, the value of `triggered` and the value of
`quit_flag` after the record. -/
def decision (cfg : Config) (triggered : Bool) (quit_flag : Nat) (text : List Nat) (pid : Int)
    (name : List Nat) : Bool × Bool × Nat :=
  if cfg.untrigger_filters.length > 0 && triggered then
    if message_filter_matching cfg text && process_filter_passes cfg pid name name.length then
      (true, !(cfg.untrigger_filters.any (fun f => strstr text f)), quit_flag)
    else (false, true, quit_flag)
  else if cfg.trigger_filters.length > 0 && !triggered then
    if cfg.trigger_filters.any (fun f => strstr text f) then
      (message_filter_matching cfg text && process_filter_passes cfg pid name name.length,
       true, quit_flag)
    else (false, false, quit_flag)
  else if cfg.trigger_filters.length == 0 && cfg.untrigger_filters.length > 0
      && !triggered then
    (false, false, quit_flag + 1)
  else
    (message_filter_matching cfg text && process_filter_passes cfg pid name name.length,
     triggered, quit_flag)

/-- The configuration built by the option `-T STOP`: an untrigger and no trigger. -/
def cfg_untrigger_only : Config :=
  { Config.initial with untrigger_filters := [bytes "STOP"] }

/-- A session between two records: disarmed, no quit request, a line buffer of 1024
bytes with the cursor at 0. -/
def session_disarmed : Session := ⟨false, 0, fresh heap_55 0 1024, 1024, 0⟩

/-- A trace header for a packet with the process path `/kernel`, no image path and a
message of 27 bytes, sent by pid 0. -/
def hdr_kernel : ostrace_packet_header_t :=
  ⟨2, 8, 129, 0, 8, 0, 28, 0, 1700000000, 0⟩

/-- A trace packet for `hdr_kernel`: 129 header bytes, the process path and the message
`kernel[0] <Notice>: boot ok`. -/
def packet_kernel : List Nat :=
  List.replicate 129 0 ++ bytes "/kernel" ++ [0] ++ bytes "kernel[0] <Notice>: boot ok" ++ [0]

/-- The level table of the specification for trace packets: level byte, label, colour. -/
def level_table_trace : List (Nat × (List Nat × Color)) :=
  [(0, (bytes "Notice", Color.FG_GREEN)), (1, (bytes "Info", Color.FG_WHITE)),
   (2, (bytes "Debug", Color.FG_MAGENTA)), (16, (bytes "Error", Color.FG_RED)),
   (17, (bytes "Fault", Color.FG_RED))]

/-- Label and colour of a level byte by the table; `Unknown` and yellow for a byte that
is not in it. -/
def level_of_table (level : Nat) : List Nat × Color :=
  (level_table_trace.lookup level).getD (bytes "Unknown", Color.FG_YELLOW)


/-- The configuration of `-T STOP -M now`: one untrigger and one excluded message
string. -/
def cfg_untrigger_exclude : Config :=
  { Config.initial with untrigger_filters := [bytes "STOP"], msg_reverse_filters := [bytes "now"] }

/-- A well-formed legacy record with the message `STOP now`. -/
def record_stop : List Nat := bytes "Jan  1 00:00:02 iPhone kernel[0] <Notice>: STOP now"

/-- The final `/`-delimited component of a path: what follows its last `/`, the whole
path when it has none. -/
def short_name (path : List Nat) : List Nat :=
  (path.reverse.takeWhile (fun b => b != 47)).reverse

/-- A trace header that declares a 10-byte process path, a 7-byte image path and a
3-byte message after a header of 129 bytes. -/
def hdr_image : ostrace_packet_header_t := ⟨2, 8, 129, 77, 10, 7, 3, 0, 1700000000, 0⟩

/-- A packet for `hdr_image`: process path `/bin/proc`, image path `libfoo`, message
`hi`. -/
def packet_image : List Nat :=
  List.replicate 129 0 ++ bytes "/bin/proc" ++ [0] ++ bytes "libfoo" ++ [0] ++ bytes "hi" ++ [0]

/-- The level tokens of the legacy format with their colours. -/
def level_tokens : List (List Nat × Color) :=
  [(bytes "<Notice>:", Color.FG_GREEN), (bytes "<Error>:", Color.FG_RED),
   (bytes "<Warning>:", Color.FG_YELLOW), (bytes "<Debug>:", Color.FG_MAGENTA)]

/-- The level token that starts `text` and its colour; the empty token and white when
`text` starts with none of the level tokens. -/
def level_token (text : List Nat) : List Nat × Color :=
  match level_tokens.find? (fun t => t.1.isPrefixOf text) with
  | some t => t
  | none => ([], Color.FG_WHITE)

/-- A well-formed legacy record with the level token `<Notice>:`. -/
def record_notice : List Nat := bytes "Jan  1 00:00:00 iPhone kernel[0] <Notice>: boot ok"

/-- A well-formed legacy record without a level token. -/
def record_plain : List Nat := bytes "Jan  1 00:00:00 iPhone kernel[0] <notice>: boot ok"

/-! ## The sorted pid list -/

/-- What `print_sorted_pidlist` looks at in a value of the pid dictionary: a dictionary
node, with the string stored under `ProcessName` when there is one
(`PLIST_IS_DICT`, `PLIST_IS_STRING`), or a node of any other type. -/
inductive pid_node
  | dict (ProcessName : Option (List Nat))
  | other
deriving DecidableEq, Repr

/-- The call `plist_dict_get_item(list, key)` of libplist on a dictionary given by its
items in iteration order: the value stored under `key`, `none` for NULL. -/
def plist_dict_get_item (list : List (List Nat × pid_node)) (key : List Nat) : Option pid_node :=
  list.lookup key

/-- The text `snprintf(pidstr, 16, "%d", val)` leaves in `pidstr`: a minus sign for a
negative value, then the decimal digits (at most 11 bytes for an `int`). -/
def snprintf_d (val : Int) : List Nat :=
  (if val < 0 then [45] else []) ++ (Nat.toDigits 10 val.natAbs).map Char.toNat

/-- The insertion of lines 790-803 of `print_sorted_pidlist`: the walk
`while (curr && pidval > curr->val)` and the link of the new element before `curr`. -/
def sortedlist_insert (pidval : Int) : List Int → List Int
  | [] => [pidval]
  | curr :: next => if pidval > curr then curr :: sortedlist_insert pidval next
                    else pidval :: curr :: next

/-- The loop `while (listp)` of lines 809-822: for each value of the sorted list the
line `"%d %s\n"` when the dictionary holds, under the decimal rendering of the value,
a dictionary with a string `ProcessName`. -/
def print_sorted_pidlist_loop (list : List (List Nat × pid_node)) : List Int → List Out
  | [] => []
  | val :: next =>
    (match plist_dict_get_item list (snprintf_d val) with
      | some (pid_node.dict (some pname)) =>
        [Out.decimal val, Out.write (bytes " "), Out.write pname, Out.write [10]]
      | _ => [])
    ++ print_sorted_pidlist_loop list next

/-- The function `print_sorted_pidlist(list)`: every key of the dictionary, converted
with `(int)strtol(key, NULL, 10)`, is inserted into the sorted list, which is then
printed. -/
def print_sorted_pidlist (list : List (List Nat × pid_node)) : List Out :=
  let sortedlist :=
    list.foldl (fun sortedlist item => sortedlist_insert (toInt32 (strtol item.1).1) sortedlist) []
  print_sorted_pidlist_loop list sortedlist

/-- The numbers printed with `%d`, in print order. -/
def printed_pids : List Out → List Int
  | [] => []
  | Out.decimal n :: r => n :: printed_pids r
  | _ :: r => printed_pids r

/-- A pid dictionary in the order the device reports it: pids 10, 2, 7 and 33, of which
7 is not a dictionary and 33 has no process name. -/
def pidlist_sample : List (List Nat × pid_node) :=
  [(bytes "10", pid_node.dict (some (bytes "launchd"))),
   (bytes "2", pid_node.dict (some (bytes "kernel_task"))),
   (bytes "7", pid_node.other),
   (bytes "33", pid_node.dict none)]

/-! ## Further sample inputs and the growth step of the line buffer -/

/-- The configuration whose only filter is the process-name filter `f`. -/
def cfg_single_name (f : List Nat) : Config :=
  { Config.initial with proc_filters := [some f] }

/-- The configuration with `show_device_name` on and no filter. -/
def cfg_show_device : Config := { Config.initial with show_device_name := true }

/-- The configuration of `-t START -M now`: one trigger and one excluded message
string. -/
def cfg_trigger_exclude : Config :=
  { Config.initial with trigger_filters := [bytes "START"], msg_reverse_filters := [bytes "now"] }

/-- A well-formed legacy record with the message `START now`. -/
def record_start : List Nat := bytes "Jan  1 00:00:01 iPhone kernel[0] <Notice>: START now"

/-- A trace header that declares an 8-byte process path, no image path and a 10-byte
message after a header of 129 bytes. -/
def hdr_start : ostrace_packet_header_t := ⟨2, 8, 129, 0, 8, 0, 10, 0, 1700000000, 0⟩

/-- A packet for `hdr_start`: process path `/kernel`, message `START now`. -/
def packet_start : List Nat :=
  List.replicate 129 0 ++ bytes "/kernel" ++ [0] ++ bytes "START now" ++ [0]

/-- Lines 209-217 of `syslog_callback`: the growth of the line buffer by 1024 bytes when
the cursor has reached its last byte, before the byte is stored at `line[lp]`. -/
def syslog_callback_grow (heap : Nat → Nat) (s : Session) : Session :=
  if s.lp + 1 ≥ s.line_buffer_size then
    { s with line_buffer_size := s.line_buffer_size + 1024,
             line := s.line ++ fresh heap s.line.length 1024 }
  else s

/-! ## Theorems: libc primitives and message filters -/

theorem starts_with_iff (h n : List Nat) : starts_with h n = true ↔ n <+: h := by
  induction h generalizing n with
  | nil =>
    cases n with
    | nil => simp [starts_with]
    | cons b n => simp [starts_with]
  | cons a h ih =>
    cases n with
    | nil => simp [starts_with]
    | cons b n =>
      simp only [starts_with, Bool.and_eq_true, beq_iff_eq, ih, List.cons_prefix_cons]
      constructor
      · rintro ⟨rfl, h2⟩; exact ⟨rfl, h2⟩
      · rintro ⟨rfl, h2⟩; exact ⟨rfl, h2⟩

theorem strstr_iff (h n : List Nat) : strstr h n = true ↔ n <:+: h := by
  induction h with
  | nil =>
    simp only [strstr, starts_with_iff]
    constructor
    · intro h1; exact h1.isInfix
    · intro h1
      have := List.eq_nil_of_infix_nil h1
      subst this; exact List.prefix_rfl
  | cons a h ih =>
    simp only [strstr, Bool.or_eq_true, starts_with_iff, ih, List.infix_cons_iff]

theorem any_strstr_iff (fs : List (List Nat)) (m : List Nat) :
    fs.any (fun f => strstr m f) = true ↔ ∃ s ∈ fs, s <:+: m := by
  simp [List.any_eq_true, strstr_iff]

/-- C1. `message_filter_matching` returns 1 exactly when the include list is empty or
one of its strings occurs in the message, and no string of the reverse list occurs in
the message. -/
theorem message_filter_matching_iff (cfg : Config) (m : List Nat) :
    message_filter_matching cfg m = true ↔
      ((cfg.msg_filters = [] ∨ ∃ s ∈ cfg.msg_filters, s <:+: m)
        ∧ ¬ ∃ r ∈ cfg.msg_reverse_filters, r <:+: m) := by
  unfold message_filter_matching
  by_cases hM : cfg.msg_filters = []
  · by_cases hR : cfg.msg_reverse_filters.any (fun f => strstr m f) = true
    · have hR2 := (any_strstr_iff _ _).1 hR
      have hlen : cfg.msg_reverse_filters.length > 0 := by
        obtain ⟨r, hr, _⟩ := hR2
        exact List.length_pos_of_mem hr
      simp [hM, hR, hlen, hR2]
    · have hR2 : ¬ ∃ r ∈ cfg.msg_reverse_filters, r <:+: m := fun h => hR ((any_strstr_iff _ _).2 h)
      simp [hM, hR, hR2]
  · have hlenM : cfg.msg_filters.length > 0 := List.length_pos.2 hM
    by_cases hA : cfg.msg_filters.any (fun f => strstr m f) = true
    · have hA2 := (any_strstr_iff _ _).1 hA
      by_cases hR : cfg.msg_reverse_filters.any (fun f => strstr m f) = true
      · have hR2 := (any_strstr_iff _ _).1 hR
        have hlen : cfg.msg_reverse_filters.length > 0 := by
          obtain ⟨r, hr, _⟩ := hR2
          exact List.length_pos_of_mem hr
        simp [hM, hA, hR, hlen, hR2, hlenM]
      · have hR2 : ¬ ∃ r ∈ cfg.msg_reverse_filters, r <:+: m := fun h => hR ((any_strstr_iff _ _).2 h)
        simp [hM, hA, hR, hR2, hlenM, hA2]
    · have hA2 : ¬ ∃ s ∈ cfg.msg_filters, s <:+: m := fun h => hA ((any_strstr_iff _ _).2 h)
      simp [hM, hA, hA2, hlenM]


/-! ## Theorems: memory primitives -/

theorem getD_append_length (pre rest : List Nat) (a : Nat) :
    (pre ++ a :: rest).getD pre.length 0 = a := by
  induction pre with
  | nil => rfl
  | cons b t ih => simpa [List.getD_cons_succ] using ih

theorem getD_append_lt (w rest : List Nat) (i : Nat) (h : i < w.length) :
    (w ++ rest).getD i 0 = w.getD i 0 := by
  induction w generalizing i with
  | nil => simp at h
  | cons b t ih =>
    cases i with
    | zero => rfl
    | succ j =>
      have hj : j < t.length := by simpa using h
      simpa [List.getD_cons_succ] using ih j hj

theorem getD_drop_indexOf (l : List Nat) (c : Nat) (h : c ∈ l) :
    l.getD (l.indexOf c) 0 = c := by
  induction l with
  | nil => simp at h
  | cons a t ih =>
    by_cases hac : a = c
    · subst hac; simp
    · have ht : c ∈ t := by
        rcases List.mem_cons.1 h with h1 | h1
        · exact absurd h1.symm hac
        · exact h1
      rw [List.indexOf_cons_ne _ hac]
      simpa [List.getD_cons_succ] using ih ht

theorem getD_add_drop (w : List Nat) (p i : Nat) :
    w.getD (p + i) 0 = (w.drop p).getD i 0 := by
  induction w generalizing p with
  | nil => simp
  | cons a t ih =>
    cases p with
    | zero => simp
    | succ q =>
      have : q + 1 + i = (q + i) + 1 := by omega
      rw [this, List.getD_cons_succ, List.drop_succ_cons]
      exact ih q

theorem getD_record_lt (w junk : List Nat) (i : Nat) (h : i < w.length) :
    (w ++ 0 :: junk).getD i 0 = w.getD i 0 := getD_append_lt w _ i h

theorem getD_record_end (w junk : List Nat) : (w ++ 0 :: junk).getD w.length 0 = 0 :=
  getD_append_length w junk 0

theorem takeWhile_nonzero (w rest : List Nat) (hw : 0 ∉ w) :
    (w ++ 0 :: rest).takeWhile (fun b => b != 0) = w := by
  induction w with
  | nil => simp
  | cons a t ih =>
    have ha : a ≠ 0 := fun h => hw (by simp [h])
    have ht : 0 ∉ t := fun h => hw (List.mem_cons_of_mem _ h)
    simp [List.takeWhile_cons, ha, ih ht]

theorem cstr_record (w junk : List Nat) (p : Nat) (hw : 0 ∉ w) (hp : p ≤ w.length) :
    cstr (w ++ 0 :: junk) p = w.drop p := by
  unfold cstr
  rw [List.drop_append_of_le_length hp]
  exact takeWhile_nonzero _ _ (fun h => hw (List.mem_of_mem_drop h))

theorem find_char_loop_eq (c : Nat) (l : List Nat) :
    ∀ (pre rest : List Nat),
      find_char_loop (pre ++ (l ++ rest)) c l.length pre.length = pre.length + l.indexOf c := by
  induction l with
  | nil => intro pre rest; simp [find_char_loop]
  | cons a t ih =>
    intro pre rest
    have hget : (pre ++ (a :: t ++ rest)).getD pre.length 0 = a := by
      simpa using getD_append_length pre (t ++ rest) a
    simp only [List.length_cons, find_char_loop, hget]
    by_cases hac : a = c
    · subst hac; simp
    · have h1 := ih (pre ++ [a]) rest
      simp only [List.append_assoc, List.singleton_append, List.length_append,
        List.length_singleton] at h1
      have hne : (a != c) = true := by simp [hac]
      simp only [hne, if_true, List.cons_append]
      rw [h1, List.indexOf_cons_ne _ hac]
      omega

theorem find_char_record (w junk : List Nat) (c p : Nat) (hc : c ≠ 0) (hp : p ≤ w.length) :
    find_char (w ++ 0 :: junk) c p w.length
      = (p + (w.drop p).indexOf c, decide (c ∈ w.drop p)) := by
  have hsplit : w ++ 0 :: junk = w.take p ++ (w.drop p ++ (0 :: junk)) := by
    rw [← List.append_assoc, List.take_append_drop]
  have hlen : (w.take p).length = p := by simp [hp]
  have hl : (w.drop p).length = w.length - p := by simp
  have hloop : find_char_loop (w ++ 0 :: junk) c (w.length - p) p = p + (w.drop p).indexOf c := by
    have := find_char_loop_eq c (w.drop p) (w.take p) (0 :: junk)
    rw [hlen, hl, ← hsplit] at this
    exact this
  unfold find_char
  simp only [hloop]
  by_cases hmem : c ∈ w.drop p
  · have hidx : (w.drop p).indexOf c < (w.drop p).length := List.indexOf_lt_length.2 hmem
    have hlt : p + (w.drop p).indexOf c < w.length := by rw [hl] at hidx; omega
    rw [getD_record_lt _ _ _ hlt, getD_add_drop, getD_drop_indexOf _ _ hmem]
    simp [hmem]
  · have hidx : (w.drop p).indexOf c = (w.drop p).length := List.indexOf_eq_length.2 hmem
    have : p + (w.drop p).indexOf c = w.length := by rw [hidx, hl]; omega
    rw [this, getD_record_end]
    simp [hmem, Ne.symm hc]

/-! ## Theorems: byte feeding -/

theorem take_succ_set (l : List Nat) (n a : Nat) (h : n < l.length) :
    (l.set n a).take (n + 1) = l.take n ++ [a] := by
  rw [List.set_eq_take_cons_drop a h]
  have hlen : (l.take n).length = n := by simp; omega
  have := @List.take_append _ (l.take n) (a :: l.drop (n + 1)) 1
  rw [hlen] at this
  rw [this]; simp

theorem Session.initial_inv (cfg : Config) (heap : Nat → Nat) :
    (Session.initial cfg heap).inv ∧ (Session.initial cfg heap).lp = 0 := by
  simp [Session.initial, Session.inv, fresh]

theorem syslog_callback_nonzero (cfg : Config) (heap : Nat → Nat) (s : Session) (c : Nat)
    (hc : c ≠ 0) (hs : s.inv) :
    (syslog_callback cfg heap s c).2 = []
    ∧ (syslog_callback cfg heap s c).1.inv
    ∧ (syslog_callback cfg heap s c).1.lp = s.lp + 1
    ∧ (syslog_callback cfg heap s c).1.line.take (s.lp + 1) = s.line.take s.lp ++ [c]
    ∧ (syslog_callback cfg heap s c).1.triggered = s.triggered
    ∧ (syslog_callback cfg heap s c).1.quit_flag = s.quit_flag := by
  obtain ⟨h1, h2⟩ := hs
  have hc2 : (c == 0) = false := by simp [hc]
  have hlt : s.lp < s.line.length := by omega
  unfold syslog_callback
  by_cases hg : s.lp + 1 ≥ s.line_buffer_size
  · have hlt2 : s.lp < (s.line ++ fresh heap s.line.length 1024).length := by
      simp; omega
    simp only [hg, if_true, hc2, Bool.false_eq_true, if_false]
    refine ⟨trivial, ?_, trivial, ?_, trivial, trivial⟩
    · constructor
      · simp [fresh]; omega
      · show s.lp + 1 < s.line_buffer_size + 1024
        omega
    · show ((s.line ++ fresh heap s.line.length 1024).set s.lp c).take (s.lp + 1) = _
      rw [take_succ_set _ _ _ hlt2, List.take_append_of_le_length (le_of_lt hlt)]
  · simp only [hg, if_false, hc2, Bool.false_eq_true]
    refine ⟨trivial, ?_, trivial, ?_, trivial, trivial⟩
    · constructor
      · simpa using h1
      · show s.lp + 1 < s.line_buffer_size
        omega
    · show (s.line.set s.lp c).take (s.lp + 1) = _
      rw [take_succ_set _ _ _ hlt]

theorem feed_nonzero (cfg : Config) (heap : Nat → Nat) (w : List Nat) :
    ∀ s : Session, 0 ∉ w → s.inv →
      (feed cfg heap s w).2 = []
      ∧ (feed cfg heap s w).1.inv
      ∧ (feed cfg heap s w).1.lp = s.lp + w.length
      ∧ (feed cfg heap s w).1.line.take (s.lp + w.length) = s.line.take s.lp ++ w
      ∧ (feed cfg heap s w).1.triggered = s.triggered
      ∧ (feed cfg heap s w).1.quit_flag = s.quit_flag := by
  induction w with
  | nil =>
    intro s _ hs
    simp [feed, hs]
  | cons c t ih =>
    intro s hw hs
    have hc : c ≠ 0 := fun h => hw (by simp [h])
    have ht : 0 ∉ t := fun h => hw (List.mem_cons_of_mem _ h)
    obtain ⟨a1, a2, a3, a4, a5, a6⟩ := syslog_callback_nonzero cfg heap s c hc hs
    obtain ⟨b1, b2, b3, b4, b5, b6⟩ := ih (syslog_callback cfg heap s c).1 ht a2
    simp only [feed, a1, b1, List.append_nil, List.length_cons]
    refine ⟨trivial, b2, ?_, ?_, ?_, ?_⟩
    · rw [b3, a3]; omega
    · have : s.lp + (t.length + 1) = (syslog_callback cfg heap s c).1.lp + t.length := by
        rw [a3]; omega
      rw [this, b4, a3, a4]; simp
    · rw [b5, a5]
    · rw [b6, a6]

theorem feed_append (cfg : Config) (heap : Nat → Nat) (a b : List Nat) :
    ∀ s : Session, feed cfg heap s (a ++ b)
      = ((feed cfg heap (feed cfg heap s a).1 b).1,
         (feed cfg heap s a).2 ++ (feed cfg heap (feed cfg heap s a).1 b).2) := by
  induction a with
  | nil => intro s; simp [feed]
  | cons c t ih => intro s; simp [feed, ih, List.append_assoc]

theorem syslog_callback_nul (cfg : Config) (heap : Nat → Nat) (s : Session) (hs : s.inv) :
    ∃ (s1 : Session) (junk : List Nat),
      syslog_callback cfg heap s 0 = legacy_record cfg s1 (s.line.take s.lp ++ 0 :: junk) s.lp
      ∧ s1.triggered = s.triggered ∧ s1.quit_flag = s.quit_flag
      ∧ s1.line_buffer_size = (s.line.take s.lp ++ 0 :: junk).length := by
  obtain ⟨h1, h2⟩ := hs
  have hlt : s.lp < s.line.length := by omega
  unfold syslog_callback
  by_cases hg : s.lp + 1 ≥ s.line_buffer_size
  · have hlt2 : s.lp < (s.line ++ fresh heap s.line.length 1024).length := by
      simp; omega
    refine ⟨{ s with line_buffer_size := s.line_buffer_size + 1024,
                     line := s.line ++ fresh heap s.line.length 1024 },
            (s.line ++ fresh heap s.line.length 1024).drop (s.lp + 1), ?_, rfl, rfl, ?_⟩
    · simp only [hg, if_true, beq_self_eq_true]
      rw [List.set_eq_take_cons_drop 0 hlt2, List.take_append_of_le_length (le_of_lt hlt)]
    · simp [fresh]; omega
  · refine ⟨s, s.line.drop (s.lp + 1), ?_, rfl, rfl, ?_⟩
    · simp only [hg, if_false, beq_self_eq_true, if_true]
      rw [List.set_eq_take_cons_drop 0 hlt]
    · simp; omega

/-- Feeding a complete record `w` and its NUL terminator, from a session whose cursor is
at 0, runs the record processing on a buffer that holds `w`, the NUL, and
indeterminate bytes after it. -/
theorem feed_record (cfg : Config) (heap : Nat → Nat) (s : Session) (w : List Nat)
    (hs : s.inv) (hlp : s.lp = 0) (hw : 0 ∉ w) :
    ∃ (s1 : Session) (junk : List Nat),
      feed cfg heap s (w ++ [0]) = legacy_record cfg s1 (w ++ 0 :: junk) w.length
      ∧ s1.triggered = s.triggered ∧ s1.quit_flag = s.quit_flag
      ∧ s1.line_buffer_size = (w ++ 0 :: junk).length := by
  obtain ⟨b1, b2, b3, b4, b5, b6⟩ := feed_nonzero cfg heap w s hw hs
  obtain ⟨s1, junk, c1, c2, c3, c4⟩ := syslog_callback_nul cfg heap (feed cfg heap s w).1 b2
  rw [hlp] at b3 b4
  simp only [Nat.zero_add, List.take_zero, List.nil_append] at b3 b4
  rw [b3, b4] at c1 c4
  refine ⟨s1, junk, ?_, c2.trans b5, c3.trans b6, c4⟩
  rw [feed_append, b1]
  simp only [feed, List.nil_append, List.append_nil, c1]

theorem legacy_record_inv (cfg : Config) (s1 : Session) (line : List Nat) (lp : Nat)
    (h1 : s1.line_buffer_size = line.length) (h2 : 0 < line.length) :
    (legacy_record cfg s1 line lp).1.inv ∧ (legacy_record cfg s1 line lp).1.lp = 0 := by
  unfold legacy_record Session.inv
  by_cases h : (no_filters cfg || (legacy_block cfg s1.triggered s1.quit_flag line lp).shall_print) = true
  · simp [h, h1, h2]
  · simp [h, h1, h2]

/-! ## Theorems: unstructured records -/

theorem slice_record (w junk : List Nat) : slice (w ++ 0 :: junk) 0 w.length = w := by
  simp [slice]

theorem legacy_block_raw (cfg : Config) (t : Bool) (q : Nat) (w junk : List Nat)
    (hbad : w.length < 16 ∨ ¬ (w.getD 3 0 = 32 ∧ w.getD 6 0 = 32 ∧ w.getD 15 0 = 32)) :
    legacy_block cfg t q (w ++ 0 :: junk) w.length
      = ⟨true, false, t, q, [Out.color Color.FG_WHITE], 0, w.length, none⟩ := by
  unfold legacy_block
  by_cases hlen : w.length < 16
  · simp [hlen]
  · have h16 : 16 ≤ w.length := by omega
    have hb : ¬ (w.getD 3 0 = 32 ∧ w.getD 6 0 = 32 ∧ w.getD 15 0 = 32) := by
      rcases hbad with h | h
      · exact absurd h hlen
      · exact h
    rw [getD_record_lt w junk 3 (by omega), getD_record_lt w junk 6 (by omega),
      getD_record_lt w junk 15 (by omega)]
    have hc : (w.getD 3 0 == 32 && w.getD 6 0 == 32 && w.getD 15 0 == 32) = false := by
      rcases h : (w.getD 3 0 == 32 && w.getD 6 0 == 32 && w.getD 15 0 == 32) with _ | _
      · rfl
      · exfalso; apply hb
        simpa [Bool.and_eq_true, and_assoc] using h
    simp only [hlen, if_false, hc, Bool.false_eq_true]

/-- C6. A legacy record shorter than 16 bytes, or without a space at one of the
positions 3, 6 and 15, fed with its NUL terminator, is written as one run of bytes
equal to the record (in white, with no field breakdown), for every filter and trigger
configuration and every trigger state; `triggered` and `quit_flag` keep their values. -/
theorem unstructured_record_verbatim (cfg : Config) (heap : Nat → Nat) (s : Session)
    (w : List Nat) (hs : s.inv) (hlp : s.lp = 0) (hw : 0 ∉ w)
    (hbad : w.length < 16 ∨ ¬ (w.getD 3 0 = 32 ∧ w.getD 6 0 = 32 ∧ w.getD 15 0 = 32)) :
    (feed cfg heap s (w ++ [0])).2
        = [Out.color Color.FG_WHITE, Out.write w, Out.color Color.COLOR_RESET]
      ∧ (feed cfg heap s (w ++ [0])).1.triggered = s.triggered
      ∧ (feed cfg heap s (w ++ [0])).1.quit_flag = s.quit_flag := by
  obtain ⟨s1, junk, h1, h2, h3, _⟩ := feed_record cfg heap s w hs hlp hw
  rw [h1]
  unfold legacy_record
  simp only [legacy_block_raw cfg _ _ w junk hbad, Bool.or_true, if_true, slice_record,
    Bool.false_eq_true, if_false, h2, h3, List.singleton_append, and_self]

set_option maxRecDepth 100000 in
/-- Witness for C6: the record `short` under a configuration with filters, in the
armed state. -/
theorem unstructured_record_verbatim_witness :
    (Session.inv ⟨true, 0, fresh heap_55 0 1024, 1024, 0⟩ ∧ 0 ∉ bytes "short"
      ∧ (bytes "short").length < 16)
    ∧ (feed cfg_exclude_pid_and_kernel heap_55
        ⟨true, 0, fresh heap_55 0 1024, 1024, 0⟩ (bytes "short" ++ [0])).2
        = [Out.color Color.FG_WHITE, Out.write (bytes "short"), Out.color Color.COLOR_RESET]
    ∧ (feed cfg_exclude_pid_and_kernel heap_55
        ⟨true, 0, fresh heap_55 0 1024, 1024, 0⟩ (bytes "short" ++ [0])).1.triggered = true
    ∧ (feed cfg_exclude_pid_and_kernel heap_55
        ⟨true, 0, fresh heap_55 0 1024, 1024, 0⟩ (bytes "short" ++ [0])).1.quit_flag = 0 :=
  ⟨⟨by unfold Session.inv; decide, by decide, by decide⟩,
   unstructured_record_verbatim cfg_exclude_pid_and_kernel heap_55
    ⟨true, 0, fresh heap_55 0 1024, 1024, 0⟩ (bytes "short")
    (by unfold Session.inv; decide) rfl (by decide) (Or.inl (by decide))⟩

/-! ## Theorems: initial trigger state and process filters -/

/-- C4, counterexample. With a trigger and no untrigger configured the first record is
evaluated with `triggered = 0` (DISARMED), and with an untrigger and no trigger
configured it is evaluated with `triggered = 1` (ARMED): the opposite of the claim in
both cases. -/
theorem initial_state_counterexample :
    (Session.initial { Config.initial with trigger_filters := [bytes "START"] }
        heap_55).triggered = false
    ∧ (Session.initial { Config.initial with untrigger_filters := [bytes "STOP"] }
        heap_55).triggered = true := by
  constructor <;> rfl

/-- C4, amended. The value of `triggered` when the first record is evaluated is 1
(ARMED) exactly when at least one untrigger is configured and no trigger is; for every
other configuration it is 0 (DISARMED). -/
theorem initial_state_armed_iff (cfg : Config) (heap : Nat → Nat) :
    (Session.initial cfg heap).triggered = true
      ↔ (cfg.untrigger_filters ≠ [] ∧ cfg.trigger_filters = []) := by
  simp only [Session.initial, initial_triggered]
  cases hU : cfg.untrigger_filters <;> cases hT : cfg.trigger_filters <;> simp

set_option maxRecDepth 100000 in
/-- C2, failing input. Under the options `-e 10 -K` (excluding flag on, pid filter 10,
process filter `kernel`) a record of process `kernel` with pid 0 matches the name
filter, yet `process_filter_matching` returns 1 and the record is written. -/
theorem process_filter_excluding_mixed_passes :
    cfg_exclude_pid_and_kernel.proc_filter_excluding = true
    ∧ cfg_exclude_pid_and_kernel.pid_filters = [10]
    ∧ cfg_exclude_pid_and_kernel.proc_filters = [some (bytes "kernel")]
    ∧ strncmp (bytes "kernel") (bytes "kernel[0] <Notice>: boot ok") 6 = 0
    ∧ process_filter_matching cfg_exclude_pid_and_kernel 0
        (bytes "kernel[0] <Notice>: boot ok") 6 = true
    ∧ written (feed cfg_exclude_pid_and_kernel heap_55
        (Session.initial cfg_exclude_pid_and_kernel heap_55)
        (bytes "Jan  1 00:00:00 iPhone kernel[0] <Notice>: boot ok" ++ [0])).2
        = bytes "Jan  1 00:00:00 kernel[0] <Notice>: boot ok" := by
  refine ⟨by decide, by decide, by decide, by decide, by decide, by decide⟩

theorem strncmp_self_append (f rest : List Nat) : strncmp f (f ++ rest) f.length = 0 := by
  induction f with
  | nil => simp [strncmp]
  | cons a t ih => simp [strncmp, ih]

/-- C10. With the excluding flag set, no pid filter and a non-empty list of process
filters, a record whose process name span equals a filter is suppressed by process
filtering, and a record whose process name span matches no filter passes it.  The
process name is the span `name` of the C string `name ++ rest` at the pointer passed. -/
theorem excluding_name_filter (cfg : Config) (pid : Int) (name rest : List Nat)
    (hex : cfg.proc_filter_excluding = true) (hP : cfg.pid_filters = [])
    (hN : cfg.proc_filters ≠ []) :
    (some name ∈ cfg.proc_filters →
        process_filter_matching cfg pid (name ++ rest) name.length = false
        ∧ process_filter_passes cfg pid (name ++ rest) name.length = false)
    ∧ ((∀ f, some f ∈ cfg.proc_filters → strncmp f (name ++ rest) name.length ≠ 0) →
        process_filter_passes cfg pid (name ++ rest) name.length = true) := by
  have hlen : cfg.proc_filters.length > 0 := List.length_pos.2 hN
  constructor
  · intro hmem
    have hany : cfg.proc_filters.any (fun f =>
          match f with
          | none => false
          | some s => strncmp s (name ++ rest) name.length == 0) = true := by
      rw [List.any_eq_true]
      exact ⟨some name, hmem, by simp [strncmp_self_append]⟩
    have h1 : process_filter_matching cfg pid (name ++ rest) name.length = false := by
      unfold process_filter_matching
      simp [hP, hlen, hany, hex]
    refine ⟨h1, ?_⟩
    unfold process_filter_passes
    simp [h1, hlen]
  · intro hno
    have hany : cfg.proc_filters.any (fun f =>
          match f with
          | none => false
          | some s => strncmp s (name ++ rest) name.length == 0) = false := by
      rw [List.any_eq_false]
      intro f hf
      cases f with
      | none => simp
      | some g => simpa using hno g hf
    unfold process_filter_passes process_filter_matching
    simp [hP, hlen, hany, hex]

set_option maxRecDepth 100000 in
/-- Witness for C10: the exclude filter `SpringBoard`; the record of process
`SpringBoard` with pid 10 is suppressed, the record of process `Mail` with pid 11 is
written. -/
theorem excluding_name_filter_witness :
    (cfg_exclude_springboard.proc_filter_excluding = true
      ∧ cfg_exclude_springboard.pid_filters = []
      ∧ cfg_exclude_springboard.proc_filters = [some (bytes "SpringBoard")])
    ∧ process_filter_passes cfg_exclude_springboard 10
        (bytes "SpringBoard" ++ bytes "[10] <Notice>: hello") (bytes "SpringBoard").length
        = false
    ∧ process_filter_passes cfg_exclude_springboard 11
        (bytes "Mail" ++ bytes "[11] <Notice>: hello") (bytes "Mail").length = true
    ∧ (feed cfg_exclude_springboard heap_55 (Session.initial cfg_exclude_springboard heap_55)
        (bytes "Jan  1 00:00:00 iPhone SpringBoard[10] <Notice>: hello" ++ [0])).2 = []
    ∧ written (feed cfg_exclude_springboard heap_55
        (Session.initial cfg_exclude_springboard heap_55)
        (bytes "Jan  1 00:00:00 iPhone Mail[11] <Notice>: hello" ++ [0])).2
        = bytes "Jan  1 00:00:00 Mail[11] <Notice>: hello" :=
  ⟨⟨by decide, by decide, by decide⟩,
   ((excluding_name_filter cfg_exclude_springboard 10 (bytes "SpringBoard")
      (bytes "[10] <Notice>: hello") (by decide) (by decide) (by decide)).1 (by decide)).2,
   (excluding_name_filter cfg_exclude_springboard 11 (bytes "Mail")
      (bytes "[11] <Notice>: hello") (by decide) (by decide) (by decide)).2
      (by
        intro f hf
        have hN : cfg_exclude_springboard.proc_filters = [some (bytes "SpringBoard")] := by
          decide
        rw [hN, List.mem_singleton, Option.some.injEq] at hf
        subst hf
        decide),
   by decide, by decide⟩

/-! ## Theorems: the head of a structured record -/

theorem drop_indexOf_succ (c : Nat) (l : List Nat) :
    l.drop (l.indexOf c + 1) = after_first c l := by
  induction l with
  | nil => simp [after_first]
  | cons a t ih =>
    by_cases hac : a = c
    · subst hac
      simp [after_first, List.dropWhile_cons]
    · rw [List.indexOf_cons_ne _ hac]
      have hne : (a != c) = true := by simp [hac]
      simp only [after_first, List.dropWhile_cons, hne, if_true] at ih ⊢
      rw [← ih]
      rfl

theorem written_append (a b : List Out) : written (a ++ b) = written a ++ written b := by
  induction a with
  | nil => rfl
  | cons x t ih => cases x <;> simp [written, ih]

theorem indexOf_lt_of_mem (c : Nat) (l : List Nat) (h : c ∈ l) : l.indexOf c < l.length :=
  List.indexOf_lt_length.2 h

/-- The decomposition of a record whose device name is ended by a space. -/
theorem device_name_bounds (w : List Nat) (hsp : 32 ∈ w.drop 16) :
    16 + (w.drop 16).indexOf 32 + 1 ≤ w.length
    ∧ w.drop (16 + (w.drop 16).indexOf 32 + 1) = record_text w := by
  have h1 := indexOf_lt_of_mem 32 _ hsp
  have h2 : (w.drop 16).length = w.length - 16 := by simp
  constructor
  · omega
  · rw [record_text, ← drop_indexOf_succ, List.drop_drop, Nat.add_assoc]

/-- The `do` block on a record with at least 16 bytes, spaces at 3, 6 and 15 and a
space ending the device name: the device-name scan stops at that space, and the
trigger evaluation runs on the text after it. -/
theorem legacy_block_head (cfg : Config) (t : Bool) (q : Nat) (w junk : List Nat)
    (hw : 0 ∉ w) (h16 : 16 ≤ w.length)
    (h3 : w.getD 3 0 = 32) (h6 : w.getD 6 0 = 32) (h15 : w.getD 15 0 = 32)
    (hsp : 32 ∈ w.drop 16) :
    legacy_block cfg t q (w ++ 0 :: junk) w.length =
      if cfg.untrigger_filters.length > 0 && t then
        legacy_fields cfg (w ++ 0 :: junk) w.length
          (cfg.untrigger_filters.any (fun f => strstr (record_text w) f)) t q 16
          (16 + (w.drop 16).indexOf 32) (16 + (w.drop 16).indexOf 32 + 1)
      else if cfg.trigger_filters.length > 0 && !t then
        if !(cfg.trigger_filters.any (fun f => strstr (record_text w) f)) then
          Block.brk false false t q w.length
        else
          legacy_fields cfg (w ++ 0 :: junk) w.length false true q 16
            (16 + (w.drop 16).indexOf 32) (16 + (w.drop 16).indexOf 32 + 1)
      else if cfg.trigger_filters.length == 0 && cfg.untrigger_filters.length > 0 && !t then
        Block.brk false false t (q + 1) w.length
      else
        legacy_fields cfg (w ++ 0 :: junk) w.length false t q 16
          (16 + (w.drop 16).indexOf 32) (16 + (w.drop 16).indexOf 32 + 1) := by
  obtain ⟨hb1, hb2⟩ := device_name_bounds w hsp
  have hlen : ¬ w.length < 16 := by omega
  have hfc := find_char_record w junk 32 16 (by decide) h16
  have htext : cstr (w ++ 0 :: junk) (16 + (w.drop 16).indexOf 32 + 1) = record_text w := by
    rw [cstr_record w junk _ hw hb1, hb2]
  unfold legacy_block
  simp only [getD_record_lt w junk 3 (by omega), getD_record_lt w junk 6 (by omega),
    getD_record_lt w junk 15 (by omega), h3, h6, h15, hfc,
    hlen, if_false, beq_self_eq_true, Bool.and_self, if_true, hsp, decide_True,
    Bool.not_true, Bool.false_eq_true, htext]

/-! ## Theorems: the trigger state machine on legacy records -/

theorem legacy_fields_cases (cfg : Config) (line : List Nat) (lp : Nat) (toff trig : Bool)
    (q dns dne p : Nat) :
    (∃ sp, legacy_fields cfg line lp toff trig q dns dne p = Block.brk sp toff trig q lp)
    ∨ (∃ a b c d e f g, legacy_fields cfg line lp toff trig q dns dne p
          = legacy_emit cfg line lp toff trig q a b c d e f g) := by
  unfold legacy_fields
  simp only []
  split_ifs
  all_goals first
    | exact Or.inl ⟨_, rfl⟩
    | exact Or.inr ⟨_, _, _, _, _, _, _, rfl⟩

theorem message_filter_matching_none (cfg : Config) (m : List Nat)
    (hM : cfg.msg_filters = []) (hR : cfg.msg_reverse_filters = []) :
    message_filter_matching cfg m = true := by
  simp [message_filter_matching, hM, hR]

theorem legacy_fields_pass (cfg : Config) (line : List Nat) (lp : Nat) (toff trig : Bool)
    (q dns dne p : Nat) (hM : cfg.msg_filters = []) (hR : cfg.msg_reverse_filters = [])
    (hP : cfg.pid_filters = []) (hN : cfg.proc_filters = []) :
    (legacy_fields cfg line lp toff trig q dns dne p).shall_print = true := by
  unfold legacy_fields
  simp only [message_filter_matching_none cfg _ hM hR, hP, hN]
  simp only [Bool.not_true, Bool.false_eq_true, if_false, List.length_nil, gt_iff_lt,
    lt_self_iff_false, decide_False, Bool.or_self]
  split_ifs <;> simp [Block.brk, legacy_emit]

theorem legacy_fields_state (cfg : Config) (line : List Nat) (lp : Nat) (toff trig : Bool)
    (q dns dne p : Nat) :
    (legacy_fields cfg line lp toff trig q dns dne p).trigger_off = toff
    ∧ (legacy_fields cfg line lp toff trig q dns dne p).triggered = trig
    ∧ (legacy_fields cfg line lp toff trig q dns dne p).quit_flag = q := by
  rcases legacy_fields_cases cfg line lp toff trig q dns dne p with ⟨sp, h⟩ | ⟨a, b, c, d, e, f, g, h⟩
  · rw [h]; simp [Block.brk]
  · rw [h]; simp [legacy_emit]

theorem legacy_fields_written (cfg : Config) (w junk : List Nat) (toff trig : Bool)
    (q dns dne p : Nat) (h16 : 16 ≤ w.length) :
    written ((legacy_fields cfg (w ++ 0 :: junk) w.length toff trig q dns dne p).out
      ++ [Out.write (slice (w ++ 0 :: junk)
            (legacy_fields cfg (w ++ 0 :: junk) w.length toff trig q dns dne p).linep
            (legacy_fields cfg (w ++ 0 :: junk) w.length toff trig q dns dne p).lp),
          Out.color Color.COLOR_RESET]) ≠ [] := by
  have hne : w ≠ [] := by
    intro h; rw [h] at h16; simp at h16
  rcases legacy_fields_cases cfg (w ++ 0 :: junk) w.length toff trig q dns dne p
    with ⟨sp, h⟩ | ⟨a, b, c, d, e, f, g, h⟩
  · rw [h]
    simp [Block.brk, written, slice_record, hne]
  · rw [h]
    have h0 : slice (w ++ 0 :: junk) 0 16 ≠ [] := by
      cases w with
      | nil => exact absurd rfl hne
      | cons x t => simp [slice]
    simp only [legacy_emit, List.append_assoc, List.cons_append, List.nil_append, written,
      ne_eq, List.append_eq_nil]
    intro hcon
    exact h0 hcon.1

theorem well_formed_head (w : List Nat) (h : well_formed w = true) :
    0 ∉ w ∧ 16 ≤ w.length ∧ w.getD 3 0 = 32 ∧ w.getD 6 0 = 32 ∧ w.getD 15 0 = 32
      ∧ 32 ∈ w.drop 16 := by
  unfold well_formed at h
  simp only [Bool.and_eq_true, Bool.not_eq_true', decide_eq_true_eq, beq_iff_eq] at h
  obtain ⟨⟨⟨⟨⟨⟨⟨⟨h0, h16⟩, h3⟩, h6⟩, h15⟩, hsp⟩, _⟩, _⟩, _⟩ := h
  refine ⟨?_, h16, h3, h6, h15, by simpa using hsp⟩
  intro hmem
  have : w.contains 0 = true := by simpa using hmem
  rw [h0] at this
  exact Bool.noConfusion this

theorem printed_nil : printed [] = false := rfl

theorem printed_of_written_ne (out : List Out) (h : written out ≠ []) : printed out = true := by
  unfold printed
  cases hw : written out with
  | nil => exact absurd hw h
  | cons a t => rfl

/-- One step of the trigger state machine on a well-formed legacy record, with a
trigger and an untrigger configured and no message or process filter. -/
theorem trigger_record_step (cfg : Config) (heap : Nat → Nat) (s : Session) (w : List Nat)
    (hT : cfg.trigger_filters ≠ []) (hU : cfg.untrigger_filters ≠ [])
    (hM : cfg.msg_filters = []) (hR : cfg.msg_reverse_filters = [])
    (hP : cfg.pid_filters = []) (hN : cfg.proc_filters = [])
    (hs : s.inv) (hlp : s.lp = 0) (hwf : well_formed w = true) :
    (feed cfg heap s (w ++ [0])).1.inv ∧ (feed cfg heap s (w ++ [0])).1.lp = 0
    ∧ (printed (feed cfg heap s (w ++ [0])).2, (feed cfg heap s (w ++ [0])).1.triggered)
        = (if s.triggered then
            (true, !(cfg.untrigger_filters.any (fun f => strstr (record_text w) f)))
           else if cfg.trigger_filters.any (fun f => strstr (record_text w) f) then (true, true)
           else (false, false)) := by
  obtain ⟨hw, h16, h3, h6, h15, hsp⟩ := well_formed_head w hwf
  obtain ⟨s1, junk, h1, h2, h3', h4⟩ := feed_record cfg heap s w hs hlp hw
  have hinv := legacy_record_inv cfg s1 (w ++ 0 :: junk) w.length h4 (by simp)
  rw [h1]
  refine ⟨hinv.1, hinv.2, ?_⟩
  have hTl : cfg.trigger_filters.length > 0 := List.length_pos.2 hT
  have hUl : cfg.untrigger_filters.length > 0 := List.length_pos.2 hU
  have hnf : no_filters cfg = false := by
    unfold no_filters
    have : (cfg.trigger_filters.length == 0) = false := by
      simp only [beq_eq_false_iff_ne]; omega
    simp [this]
  unfold legacy_record
  simp only [legacy_block_head cfg _ _ w junk hw h16 h3 h6 h15 hsp, h2, h3', hnf,
    Bool.false_or]
  cases ht : s.triggered
  · -- disarmed
    simp only [hTl, hUl, decide_True, Bool.and_false, Bool.false_eq_true, if_false,
      Bool.not_false, Bool.and_self, if_true]
    cases hf : cfg.trigger_filters.any (fun f => strstr (record_text w) f)
    · simp [Block.brk, printed_nil]
    · simp only [Bool.not_true, Bool.false_eq_true, if_false,
        legacy_fields_pass cfg _ _ _ _ _ _ _ _ hM hR hP hN, if_true,
        (legacy_fields_state cfg _ _ _ _ _ _ _ _).1, (legacy_fields_state cfg _ _ _ _ _ _ _ _).2.1,
        printed_of_written_ne _ (legacy_fields_written cfg w junk _ _ _ _ _ _ h16)]
  · -- armed
    simp only [hUl, decide_True, Bool.and_self, if_true,
      legacy_fields_pass cfg _ _ _ _ _ _ _ _ hM hR hP hN,
      (legacy_fields_state cfg _ _ _ _ _ _ _ _).1, (legacy_fields_state cfg _ _ _ _ _ _ _ _).2.1,
      printed_of_written_ne _ (legacy_fields_written cfg w junk _ _ _ _ _ _ h16)]
    cases hf : cfg.untrigger_filters.any (fun f => strstr (record_text w) f) <;> simp

theorem feed_records_eq_spec (cfg : Config) (heap : Nat → Nat) (ws : List (List Nat))
    (hT : cfg.trigger_filters ≠ []) (hU : cfg.untrigger_filters ≠ [])
    (hM : cfg.msg_filters = []) (hR : cfg.msg_reverse_filters = [])
    (hP : cfg.pid_filters = []) (hN : cfg.proc_filters = []) :
    ∀ s : Session, s.inv → s.lp = 0 → (∀ w ∈ ws, well_formed w = true) →
      feed_records cfg heap s ws = trigger_spec cfg s.triggered (ws.map record_text) := by
  induction ws with
  | nil => intro s _ _ _; cases s.triggered <;> rfl
  | cons w rest ih =>
    intro s hs hlp hwf
    have hw1 : well_formed w = true := hwf w (List.mem_cons_self _ _)
    have hrest : ∀ v ∈ rest, well_formed v = true := fun v hv => hwf v (List.mem_cons_of_mem _ hv)
    obtain ⟨a1, a2, a3⟩ := trigger_record_step cfg heap s w hT hU hM hR hP hN hs hlp hw1
    have ih2 := ih (feed cfg heap s (w ++ [0])).1 a1 a2 hrest
    have a3a := congrArg Prod.fst a3
    have a3b := congrArg Prod.snd a3
    simp only [feed_records, List.map_cons]
    rw [ih2]
    cases ht : s.triggered
    · rw [ht] at a3a a3b
      simp only [Bool.false_eq_true, if_false] at a3a a3b
      by_cases hf : cfg.trigger_filters.any (fun f => strstr (record_text w) f) = true
      · have hex := (any_strstr_iff _ _).1 hf
        simp only [hf, if_true] at a3a a3b
        simp only [trigger_spec, hex, if_true, a3a, a3b]
      · have hex : ¬ ∃ s ∈ cfg.trigger_filters, s <:+: record_text w :=
          fun h => hf ((any_strstr_iff _ _).2 h)
        have hf2 : cfg.trigger_filters.any (fun f => strstr (record_text w) f) = false := by
          simpa using hf
        simp only [hf2, Bool.false_eq_true, if_false] at a3a a3b
        simp only [trigger_spec, hex, if_false, a3a, a3b]
    · rw [ht] at a3a a3b
      simp only [if_true] at a3a a3b
      by_cases hf : cfg.untrigger_filters.any (fun f => strstr (record_text w) f) = true
      · have hex := (any_strstr_iff _ _).1 hf
        simp only [hf, Bool.not_true] at a3b
        simp only [trigger_spec, hex, if_true, a3a, a3b]
      · have hex : ¬ ∃ s ∈ cfg.untrigger_filters, s <:+: record_text w :=
          fun h => hf ((any_strstr_iff _ _).2 h)
        have hf2 : cfg.untrigger_filters.any (fun f => strstr (record_text w) f) = false := by
          simpa using hf
        simp only [hf2, Bool.not_false] at a3b
        simp only [trigger_spec, hex, if_false, a3a, a3b]

/-- C3. With at least one trigger and one untrigger configured and no message or
process filter, feeding any sequence of well-formed legacy records from the initial
session gives the verdicts of the trigger state machine started DISARMED: a record
evaluated while disarmed is suppressed unless its text contains a trigger string, in
which case it is printed and the state becomes armed; a record evaluated while armed is
printed, and the state is disarmed after it when its text contains an untrigger
string. -/
theorem trigger_untrigger_sequence (cfg : Config) (heap : Nat → Nat) (ws : List (List Nat))
    (hT : cfg.trigger_filters ≠ []) (hU : cfg.untrigger_filters ≠ [])
    (hM : cfg.msg_filters = []) (hR : cfg.msg_reverse_filters = [])
    (hP : cfg.pid_filters = []) (hN : cfg.proc_filters = [])
    (hws : ∀ w ∈ ws, well_formed w = true) :
    feed_records cfg heap (Session.initial cfg heap) ws
      = trigger_spec cfg false (ws.map record_text) := by
  have h := feed_records_eq_spec cfg heap ws hT hU hM hR hP hN (Session.initial cfg heap)
    (Session.initial_inv cfg heap).1 (Session.initial_inv cfg heap).2 hws
  have ht : (Session.initial cfg heap).triggered = false := by
    have hTl : cfg.trigger_filters.length ≠ 0 := fun h0 => hT (List.length_eq_zero.1 h0)
    simp [Session.initial, initial_triggered, hTl]
  rw [ht] at h
  exact h

set_option maxRecDepth 100000 in
/-- Witness for C3: triggers `START`, untriggers `STOP`, messages `noise`, `START now`,
`STOP now`, `noise2`: suppressed, printed and armed, printed and disarmed, suppressed. -/
theorem trigger_untrigger_sequence_witness :
    (cfg_start_stop.trigger_filters ≠ [] ∧ cfg_start_stop.untrigger_filters ≠ []
      ∧ ∀ w ∈ records_start_stop, well_formed w = true)
    ∧ feed_records cfg_start_stop heap_55 (Session.initial cfg_start_stop heap_55)
        records_start_stop
      = [(false, false), (true, true), (true, false), (false, false)] :=
  ⟨⟨by decide, by decide, by decide⟩,
   (trigger_untrigger_sequence cfg_start_stop heap_55 records_start_stop
      (by decide) (by decide) rfl rfl rfl rfl (by decide)).trans (by decide)⟩

/-! ## Theorems: records on which a scan fails -/

theorem drop_indexOf_mem (c : Nat) (l : List Nat) (h : c ∈ l) :
    l.drop (l.indexOf c) = c :: after_first c l := by
  induction l with
  | nil => simp at h
  | cons a t ih =>
    by_cases hac : a = c
    · subst hac
      simp [after_first, List.dropWhile_cons]
    · have ht : c ∈ t := by
        rcases List.mem_cons.1 h with h1 | h1
        · exact absurd h1.symm hac
        · exact h1
      rw [List.indexOf_cons_ne _ hac]
      have hne : (a != c) = true := by simp [hac]
      simp only [after_first, List.dropWhile_cons, hne, if_true] at ih ⊢
      exact ih ht

theorem after_first_cons_ne (c a : Nat) (l : List Nat) (h : a ≠ c) :
    after_first c (a :: l) = after_first c l := by
  have hne : (a != c) = true := by simp [h]
  simp [after_first, List.dropWhile_cons, hne]

theorem getD_record_head (w junk : List Nat) (p : Nat) (hp : p ≤ w.length) :
    (w ++ 0 :: junk).getD p 0 = ((w.drop p).head?).getD 0 := by
  rcases Nat.lt_or_ge p w.length with hlt | hge
  · rw [getD_record_lt w junk p hlt]
    have := getD_add_drop w p 0
    rw [Nat.add_zero] at this
    rw [this]
    cases w.drop p <;> rfl
  · have : p = w.length := by omega
    subst this
    rw [getD_record_end]
    simp

/-- The three scans of `legacy_fields` on a record buffer, in terms of the text after the
device name: the `[` scan, the `]` scan and the position after the `]`. -/
theorem scans_record (w junk : List Nat) (p : Nat) (hp : p ≤ w.length) :
    find_char (w ++ 0 :: junk) 91 p w.length
        = (p + (w.drop p).indexOf 91, decide (91 ∈ w.drop p))
    ∧ (91 ∈ w.drop p →
        p + (w.drop p).indexOf 91 < w.length
        ∧ w.drop (p + (w.drop p).indexOf 91 + 1) = after_first 91 (w.drop p)
        ∧ find_char (w ++ 0 :: junk) 93 (p + (w.drop p).indexOf 91) w.length
            = (p + (w.drop p).indexOf 91 + 1 + (after_first 91 (w.drop p)).indexOf 93,
               decide (93 ∈ after_first 91 (w.drop p)))
        ∧ (93 ∈ after_first 91 (w.drop p) →
            p + (w.drop p).indexOf 91 + 1 + (after_first 91 (w.drop p)).indexOf 93 + 1
                ≤ w.length
            ∧ w.drop (p + (w.drop p).indexOf 91 + 1
                  + (after_first 91 (w.drop p)).indexOf 93 + 1)
                = after_first 93 (after_first 91 (w.drop p)))) := by
  refine ⟨find_char_record w junk 91 p (by decide) hp, ?_⟩
  intro h91
  have hidx := indexOf_lt_of_mem 91 _ h91
  have hl : (w.drop p).length = w.length - p := by simp
  have hp1 : p + (w.drop p).indexOf 91 < w.length := by omega
  have hd1 : w.drop (p + (w.drop p).indexOf 91) = 91 :: after_first 91 (w.drop p) := by
    rw [← List.drop_drop]
    exact drop_indexOf_mem 91 _ h91
  have hd2 : w.drop (p + (w.drop p).indexOf 91 + 1) = after_first 91 (w.drop p) := by
    rw [← drop_indexOf_succ, List.drop_drop, Nat.add_assoc]
  have hfc := find_char_record w junk 93 (p + (w.drop p).indexOf 91) (by decide) (le_of_lt hp1)
  have hi93 : (w.drop (p + (w.drop p).indexOf 91)).indexOf 93
      = 1 + (after_first 91 (w.drop p)).indexOf 93 := by
    rw [hd1, List.indexOf_cons_ne _ (by decide)]
    omega
  have hm93 : (93 ∈ w.drop (p + (w.drop p).indexOf 91)) ↔ 93 ∈ after_first 91 (w.drop p) := by
    rw [hd1]
    simp
  refine ⟨hp1, hd2, ?_, ?_⟩
  · rw [hfc, hi93]
    have : decide (93 ∈ w.drop (p + (w.drop p).indexOf 91))
        = decide (93 ∈ after_first 91 (w.drop p)) := by
      simp only [hm93]
    rw [this]
    congr 1
    omega
  · intro h93
    have hidx3 := indexOf_lt_of_mem 93 _ h93
    have hl2 : (after_first 91 (w.drop p)).length = w.length - (p + (w.drop p).indexOf 91 + 1) := by
      rw [← hd2]; simp
    constructor
    · omega
    · have key : ∀ (A : List Nat) (k : Nat), w.drop k = A →
          w.drop (k + A.indexOf 93 + 1) = after_first 93 A := by
        intro A k h
        subst h
        rw [← drop_indexOf_succ 93 (w.drop k), List.drop_drop, Nat.add_assoc]
      exact key _ _ hd2

theorem legacy_fields_scan_fails (cfg : Config) (w junk : List Nat) (toff trig : Bool)
    (q dns dne : Nat) (hw : 0 ∉ w) (hp : dne + 1 ≤ w.length)
    (hfail : ¬ (91 ∈ w.drop (dne + 1) ∧ 93 ∈ after_first 91 (w.drop (dne + 1))
      ∧ (after_first 93 (after_first 91 (w.drop (dne + 1)))).head? = some 32)) :
    legacy_fields cfg (w ++ 0 :: junk) w.length toff trig q dns dne (dne + 1)
      = Block.brk (message_filter_matching cfg (w.drop (dne + 1))) toff trig q w.length := by
  obtain ⟨s1, s2⟩ := scans_record w junk (dne + 1) hp
  unfold legacy_fields
  simp only [cstr_record w junk _ hw hp, s1]
  cases hm : message_filter_matching cfg (w.drop (dne + 1))
  · simp
  · simp only [Bool.not_true, Bool.false_eq_true, if_false]
    by_cases h91 : 91 ∈ w.drop (dne + 1)
    · obtain ⟨t1, t2, t3, t4⟩ := s2 h91
      simp only [h91, decide_True, Bool.not_true, Bool.false_eq_true, if_false, t3]
      by_cases h93 : 93 ∈ after_first 91 (w.drop (dne + 1))
      · obtain ⟨u1, u2⟩ := t4 h93
        simp only [h93, decide_True, Bool.not_true, Bool.false_eq_true, if_false]
        have hhead : ¬ (after_first 93 (after_first 91 (w.drop (dne + 1)))).head? = some 32 :=
          fun h => hfail ⟨h91, h93, h⟩
        have hget : ((w ++ 0 :: junk).getD (dne + 1 + (w.drop (dne + 1)).indexOf 91 + 1
            + (after_first 91 (w.drop (dne + 1))).indexOf 93 + 1) 0 != 32) = true := by
          rw [getD_record_head w junk _ u1, u2]
          cases hh : (after_first 93 (after_first 91 (w.drop (dne + 1)))).head? with
          | none => simp
          | some x =>
            have : x ≠ 32 := fun hx => hhead (by rw [hh, hx])
            simp [this]
        simp only [hget, if_true]
      · simp [h93]
    · simp [h91]

theorem brk_record_output (cfg : Config) (s1 : Session) (w junk : List Nat) (sp toff trig : Bool)
    (q : Nat)
    (hb : legacy_block cfg s1.triggered s1.quit_flag (w ++ 0 :: junk) w.length
      = Block.brk sp toff trig q w.length) :
    (legacy_record cfg s1 (w ++ 0 :: junk) w.length).2
      = if no_filters cfg || sp then [Out.write w, Out.color Color.COLOR_RESET] else [] := by
  unfold legacy_record
  simp only [hb, Block.brk, slice_record]
  by_cases h : (no_filters cfg || sp) = true
  · simp [h]
  · simp [h]

set_option maxRecDepth 100000 in
/-- C7, counterexample. Under the option `-m iPhone` the record
`Jan  1 00:00:00 iPhone`, in which no space ends the device name, produces no output at
all: it is not emitted unchanged. -/
theorem scan_failure_counterexample :
    scan_fails (bytes "Jan  1 00:00:00 iPhone") = true
    ∧ (feed { Config.initial with msg_filters := [bytes "iPhone"] } heap_55
        (Session.initial { Config.initial with msg_filters := [bytes "iPhone"] } heap_55)
        (bytes "Jan  1 00:00:00 iPhone" ++ [0])).2 = [] := by
  constructor
  · decide
  · decide

/-- C7, amended. For a legacy record of at least 16 bytes with a space at positions 3, 6
and 15 on which a required scan fails, no field is written separately.  The whole
record is written unchanged when no filter or trigger of any kind is configured, or
when the failing scan comes after the device name and the record passed the trigger
evaluation and the message filters; otherwise nothing is written. -/
theorem scan_failure_output (cfg : Config) (heap : Nat → Nat) (s : Session) (w : List Nat)
    (hs : s.inv) (hlp : s.lp = 0) (hw : 0 ∉ w) (h16 : 16 ≤ w.length)
    (h3 : w.getD 3 0 = 32) (h6 : w.getD 6 0 = 32) (h15 : w.getD 15 0 = 32)
    (hfail : scan_fails w = true) :
    (feed cfg heap s (w ++ [0])).2
      = if no_filters cfg
            || ((w.drop 16).contains 32 && trigger_passes cfg s.triggered (record_text w)
                && message_filter_matching cfg (record_text w))
        then [Out.write w, Out.color Color.COLOR_RESET]
        else [] := by
  obtain ⟨s1, junk, e1, e2, e3, _⟩ := feed_record cfg heap s w hs hlp hw
  rw [e1]
  by_cases hsp : 32 ∈ w.drop 16
  · obtain ⟨hb1, hb2⟩ := device_name_bounds w hsp
    have hfail2 : ¬ (91 ∈ w.drop (16 + (w.drop 16).indexOf 32 + 1)
        ∧ 93 ∈ after_first 91 (w.drop (16 + (w.drop 16).indexOf 32 + 1))
        ∧ (after_first 93 (after_first 91 (w.drop (16 + (w.drop 16).indexOf 32 + 1)))).head?
            = some 32) := by
      rw [hb2]
      rintro ⟨a, b, c⟩
      unfold scan_fails at hfail
      simp [hsp, a, b, c] at hfail
    have hfields : ∀ toff trig q,
        legacy_fields cfg (w ++ 0 :: junk) w.length toff trig q 16
          (16 + (w.drop 16).indexOf 32) (16 + (w.drop 16).indexOf 32 + 1)
        = Block.brk (message_filter_matching cfg (record_text w)) toff trig q w.length := by
      intro toff trig q
      rw [legacy_fields_scan_fails cfg w junk toff trig q 16 _ hw hb1 hfail2, hb2]
    have hc : (w.drop 16).contains 32 = true := by simpa using hsp
    have hblock := legacy_block_head cfg s1.triggered s1.quit_flag w junk hw h16 h3 h6 h15 hsp
    simp only [hfields] at hblock
    rw [hc, Bool.true_and, ← e2]
    unfold trigger_passes
    by_cases c1 : (decide (cfg.untrigger_filters.length > 0) && s1.triggered) = true
    · simp only [c1, if_true] at hblock ⊢
      rw [brk_record_output cfg s1 w junk _ _ _ _ hblock, Bool.true_and]
    · simp only [c1, Bool.false_eq_true, if_false] at hblock ⊢
      by_cases c2 : (decide (cfg.trigger_filters.length > 0) && !s1.triggered) = true
      · simp only [c2, if_true] at hblock ⊢
        cases hf : cfg.trigger_filters.any (fun f => strstr (record_text w) f)
        · simp only [hf, Bool.not_false, if_true] at hblock
          rw [brk_record_output cfg s1 w junk _ _ _ _ hblock, Bool.false_and]
        · simp only [hf, Bool.not_true, Bool.false_eq_true, if_false] at hblock
          rw [brk_record_output cfg s1 w junk _ _ _ _ hblock, Bool.true_and]
      · simp only [c2, Bool.false_eq_true, if_false] at hblock ⊢
        by_cases c3 : (cfg.trigger_filters.length == 0
            && decide (cfg.untrigger_filters.length > 0) && !s1.triggered) = true
        · simp only [c3, if_true] at hblock ⊢
          rw [brk_record_output cfg s1 w junk _ _ _ _ hblock, Bool.false_and]
        · simp only [c3, Bool.false_eq_true, if_false] at hblock ⊢
          rw [brk_record_output cfg s1 w junk _ _ _ _ hblock, Bool.true_and]
  · have hc : (w.drop 16).contains 32 = false := by simpa using hsp
    have hlen : ¬ w.length < 16 := by omega
    have hfc := find_char_record w junk 32 16 (by decide) h16
    have hblock : legacy_block cfg s1.triggered s1.quit_flag (w ++ 0 :: junk) w.length
        = Block.brk false false s1.triggered s1.quit_flag w.length := by
      unfold legacy_block
      simp only [getD_record_lt w junk 3 (by omega), getD_record_lt w junk 6 (by omega),
        getD_record_lt w junk 15 (by omega), h3, h6, h15, hfc,
        hlen, if_false, beq_self_eq_true, Bool.and_self, if_true, hsp, decide_False,
        Bool.not_false]
    rw [brk_record_output cfg s1 w junk _ _ _ _ hblock, hc, Bool.false_and, Bool.false_and]

/-! ## Theorems: the fields of a well-formed record -/

theorem strtol_digits_append (ds : List Nat) (hdig : ∀ c ∈ ds, isdigit c = true)
    (rest : List Nat) (hrest : ∀ c, rest.head? = some c → isdigit c = false) :
    ∀ acc k, strtol_digits (ds ++ rest) acc k
      = (ds.foldl (fun a c => a * 10 + (c - 48)) acc, k + ds.length) := by
  induction ds with
  | nil =>
    intro acc k
    cases rest with
    | nil => simp [strtol_digits]
    | cons c r =>
      have := hrest c rfl
      simp [strtol_digits, this]
  | cons c t ih =>
    intro acc k
    have hc : isdigit c = true := hdig c (List.mem_cons_self _ _)
    have ht : ∀ x ∈ t, isdigit x = true := fun x hx => hdig x (List.mem_cons_of_mem _ hx)
    have e : strtol_digits (c :: (t ++ rest)) acc k
        = strtol_digits (t ++ rest) (acc * 10 + (c - 48)) (k + 1) := by
      rw [strtol_digits]
      simp [hc]
    rw [List.cons_append, e, ih ht, List.foldl_cons, List.length_cons, Prod.mk.injEq]
    exact ⟨rfl, by omega⟩

theorem isdigit_not_isspace (c : Nat) (h : isdigit c = true) : isspace c = false := by
  have hr : 48 ≤ c ∧ c ≤ 57 := by simpa [isdigit] using h
  have h1 : (c == 32) = false := by
    have : c ≠ 32 := by omega
    simp [this]
  have h2 : (decide (9 ≤ c) && decide (c ≤ 13)) = false := by
    have : ¬ c ≤ 13 := by omega
    simp [this]
  unfold isspace
  rw [h1, h2]
  rfl

/-- The call `strtol` on a non-empty digit string followed by a byte that is not a digit reads
the whole digit string. -/
theorem strtol_digits_string (ds rest : List Nat) (hne : ds ≠ [])
    (hdig : ∀ c ∈ ds, isdigit c = true)
    (hrest : ∀ c, rest.head? = some c → isdigit c = false)
    (hk : (decimal_value ds : Int) ≤ LONG_MAX) :
    strtol (ds ++ rest) = ((decimal_value ds : Int), ds.length) := by
  cases ds with
  | nil => exact absurd rfl hne
  | cons c t =>
    have hc : isdigit c = true := hdig c (List.mem_cons_self _ _)
    have hsp : isspace c = false := isdigit_not_isspace c hc
    have hc' : 48 ≤ c ∧ c ≤ 57 := by
      unfold isdigit at hc
      simpa using hc
    have h45 : c ≠ 45 := by omega
    have h43 : c ≠ 43 := by omega
    have hd := strtol_digits_append (c :: t) hdig rest hrest 0 0
    unfold strtol
    have b45 : (some c == some 45) = false := by simp [h45]
    have b43 : (some c == some 43) = false := by simp [h43]
    simp only [List.cons_append, List.takeWhile_cons, hsp, Bool.false_eq_true, if_false,
      List.length_nil, List.drop_zero, List.head?_cons, b45, b43, Bool.or_self]
    have hd2 : strtol_digits (c :: (t ++ rest)) 0 0
        = (decimal_value (c :: t), (c :: t).length) := by
      have := hd
      simp only [List.cons_append, Nat.zero_add] at this
      exact this
    simp only [hd2, List.length_cons]
    have hpos : ¬ (t.length + 1 = 0) := by omega
    simp only [hpos, if_false, Nat.zero_add]
    have hnn : (0 : Int) ≤ (decimal_value (c :: t) : Int) := Int.ofNat_nonneg _
    have hmin : LONG_MIN ≤ (decimal_value (c :: t) : Int) := by
      have : LONG_MIN ≤ 0 := by decide
      omega
    rw [min_eq_right hk, max_eq_right hmin]

theorem toInt32_small (v : Nat) (h : v < 2147483648) : toInt32 (v : Int) = (v : Int) := by
  unfold toInt32
  omega

theorem find_char_segment (pre l rest : List Nat) (c c2 : Nat) (hc : c ∉ l) (hne : c2 ≠ c) :
    find_char (pre ++ (l ++ c2 :: rest)) c pre.length (pre.length + l.length)
      = (pre.length + l.length, false) := by
  unfold find_char
  have hloop := find_char_loop_eq c l pre (c2 :: rest)
  have hsub : pre.length + l.length - pre.length = l.length := by omega
  have hidx : l.indexOf c = l.length := List.indexOf_eq_length.2 hc
  have hget : (pre ++ (l ++ c2 :: rest)).getD (pre.length + l.length) 0 = c2 := by
    have := getD_append_length (pre ++ l) rest c2
    rw [List.append_assoc, List.length_append] at this
    exact this
  simp only [hsub, hloop, hidx, hget]
  simp [hne]

theorem drop_eq_of_append (line a b : List Nat) (p : Nat) (h : line = a ++ b)
    (hp : p = a.length) : line.drop p = b := by
  subst h; subst hp; simp

theorem slice_eq_of_append (line a b c : List Nat) (p k : Nat) (h : line = a ++ (b ++ c))
    (hp : p = a.length) (hk : k = b.length) : slice line p k = b := by
  subst h; subst hp; subst hk; simp [slice]

theorem level_token_bytes :
    bytes "<Notice>:" = [60, 78, 111, 116, 105, 99, 101, 62, 58]
    ∧ bytes "<Error>:" = [60, 69, 114, 114, 111, 114, 62, 58]
    ∧ bytes "<Warning>:" = [60, 87, 97, 114, 110, 105, 110, 103, 62, 58]
    ∧ bytes "<Debug>:" = [60, 68, 101, 98, 117, 103, 62, 58] := by
  refine ⟨by decide, by decide, by decide, by decide⟩

theorem level_names_cases (L : List Nat) (h : L ∈ level_names) :
    L = [78, 111, 116, 105, 99, 101] ∨ L = [69, 114, 114, 111, 114]
      ∨ L = [87, 97, 114, 110, 105, 110, 103] ∨ L = [68, 101, 98, 117, 103] := by
  have e : level_names = [[78, 111, 116, 105, 99, 101], [69, 114, 114, 111, 114],
      [87, 97, 114, 110, 105, 110, 103], [68, 101, 98, 117, 103]] := by decide
  rw [e] at h
  simpa using h

/-- Level recognition of `legacy_emit` on the text `"<" + L + ">: " + m`. -/
theorem legacy_emit_level (cfg : Config) (line : List Nat) (lp : Nat) (toff trig : Bool)
    (q a b c d e p : Nat) (pid : Int) (L m : List Nat) (hL : L ∈ level_names)
    (hstr : cstr line p = 60 :: (L ++ 62 :: 58 :: 32 :: m)) :
    ∃ col,
      (legacy_emit cfg line lp toff trig q a b c d e p pid).parsed
          = some ⟨a, b, c, d, e, pid, p, p + (L.length + 3), col⟩
      ∧ (legacy_emit cfg line lp toff trig q a b c d e p pid).linep = p + (L.length + 3)
      ∧ (legacy_emit cfg line lp toff trig q a b c d e p pid).lp = lp - (p + (L.length + 3)) := by
  obtain ⟨t1, t2, t3, t4⟩ := level_token_bytes
  unfold legacy_emit
  rw [hstr, t1, t2, t3, t4]
  rcases level_names_cases L hL with h | h | h | h
  · subst h
    exact ⟨Color.FG_GREEN, by simp [strncmp], by simp [strncmp], by simp [strncmp]⟩
  · subst h
    exact ⟨Color.FG_RED, by simp [strncmp], by simp [strncmp], by simp [strncmp]⟩
  · subst h
    exact ⟨Color.FG_YELLOW, by simp [strncmp], by simp [strncmp], by simp [strncmp]⟩
  · subst h
    exact ⟨Color.FG_MAGENTA, by simp [strncmp], by simp [strncmp], by simp [strncmp]⟩

theorem digit_ne_93 (ds : List Nat) (hdig : ∀ c ∈ ds, isdigit c = true) : 93 ∉ ds := by
  intro h
  have := hdig 93 h
  exact absurd this (by decide)

/-- The field stage of the parser on a record of the legacy layout that passes the
message and process filters: every scan succeeds and the emission stage is reached
with the field variables at the boundaries of the layout. -/
theorem legacy_fields_layout (cfg : Config) (toff trig : Bool) (q : Nat)
    (w junk ts d n ds L m : List Nat)
    (hw_eq : w = legacy_layout ts d n ds L m) (hnul : 0 ∉ w)
    (hts : ts.length = 16) (hn1 : 91 ∉ n) (hn2 : 40 ∉ n)
    (hne : ds ≠ []) (hdig : ∀ c ∈ ds, isdigit c = true)
    (hk : decimal_value ds < 2147483648)
    (hm : message_filter_matching cfg
      (n ++ 91 :: (ds ++ 93 :: 32 :: (60 :: (L ++ 62 :: 58 :: 32 :: m)))) = true)
    (hp : process_filter_passes cfg (decimal_value ds : Int)
      (n ++ 91 :: (ds ++ 93 :: 32 :: (60 :: (L ++ 62 :: 58 :: 32 :: m)))) n.length = true) :
    legacy_fields cfg (w ++ 0 :: junk) w.length toff trig q 16 (16 + d.length)
        (16 + d.length + 1)
      = legacy_emit cfg (w ++ 0 :: junk) w.length toff trig q 16 (16 + d.length)
          (16 + d.length + 1) (16 + d.length + 1 + n.length)
          (16 + d.length + 1 + n.length + 1 + ds.length + 1)
          (16 + d.length + 1 + n.length + 1 + ds.length + 1 + 1)
          (decimal_value ds : Int) := by
  have h93 : 93 ∉ ds := digit_ne_93 ds hdig
  have hlen : w.length = 16 + d.length + 1 + n.length + 1 + ds.length + 2
      + (1 + (L.length + 3 + m.length)) := by
    rw [hw_eq]; simp [legacy_layout, hts]; omega
  -- the text after the device name
  have hd0 : w.drop (16 + d.length + 1)
      = n ++ 91 :: (ds ++ 93 :: 32 :: (60 :: (L ++ 62 :: 58 :: 32 :: m))) := by
    apply drop_eq_of_append w (ts ++ d ++ [32])
    · rw [hw_eq]; simp [legacy_layout]
    · simp [hts]; omega
  have hd1 : w.drop (16 + d.length + 1 + n.length)
      = 91 :: (ds ++ 93 :: 32 :: (60 :: (L ++ 62 :: 58 :: 32 :: m))) := by
    apply drop_eq_of_append w (ts ++ d ++ [32] ++ n)
    · rw [hw_eq]; simp [legacy_layout]
    · simp [hts]; omega
  have hd2 : w.drop (16 + d.length + 1 + n.length + 1)
      = ds ++ 93 :: 32 :: (60 :: (L ++ 62 :: 58 :: 32 :: m)) := by
    apply drop_eq_of_append w (ts ++ d ++ [32] ++ n ++ [91])
    · rw [hw_eq]; simp [legacy_layout]
    · simp [hts]; omega
  have c0 := cstr_record w junk (16 + d.length + 1) hnul (by omega)
  have c2 := cstr_record w junk (16 + d.length + 1 + n.length + 1) hnul (by omega)
  rw [hd0] at c0
  rw [hd2] at c2
  -- the `[` scan
  have f1 : find_char (w ++ 0 :: junk) 91 (16 + d.length + 1) w.length
      = (16 + d.length + 1 + n.length, true) := by
    rw [find_char_record w junk 91 _ (by decide) (by omega), hd0,
      List.indexOf_append_of_not_mem hn1, List.indexOf_cons_self]
    simp
  -- the `(` scan inside the process name
  have f2 : find_char (w ++ 0 :: junk) 40 (16 + d.length + 1) (16 + d.length + 1 + n.length)
      = (16 + d.length + 1 + n.length, false) := by
    have hline : w ++ 0 :: junk = (ts ++ d ++ [32]) ++ (n ++ 91 ::
        (ds ++ 93 :: 32 :: (60 :: (L ++ 62 :: 58 :: 32 :: m)) ++ 0 :: junk)) := by
      rw [hw_eq]; simp [legacy_layout]
    have hpre : (ts ++ d ++ [32]).length = 16 + d.length + 1 := by simp [hts]; omega
    have := find_char_segment (ts ++ d ++ [32]) n
      (ds ++ 93 :: 32 :: (60 :: (L ++ 62 :: 58 :: 32 :: m)) ++ 0 :: junk) 40 91 hn2 (by decide)
    rw [← hline, hpre] at this
    exact this
  -- the `]` scan
  have f3 : find_char (w ++ 0 :: junk) 93 (16 + d.length + 1 + n.length) w.length
      = (16 + d.length + 1 + n.length + 1 + ds.length, true) := by
    rw [find_char_record w junk 93 _ (by decide) (by omega), hd1,
      List.indexOf_cons_ne _ (by decide), List.indexOf_append_of_not_mem h93,
      List.indexOf_cons_self]
    simp
    omega
  -- the space after `]`
  have g : (w ++ 0 :: junk).getD (16 + d.length + 1 + n.length + 1 + ds.length + 1) 0 = 32 := by
    have hline : w ++ 0 :: junk = (ts ++ d ++ [32] ++ n ++ [91] ++ ds ++ [93]) ++ 32 ::
        ((60 :: (L ++ 62 :: 58 :: 32 :: m)) ++ 0 :: junk) := by
      rw [hw_eq]; simp [legacy_layout]
    have hpre : (ts ++ d ++ [32] ++ n ++ [91] ++ ds ++ [93]).length
        = 16 + d.length + 1 + n.length + 1 + ds.length + 1 := by simp [hts]; omega
    have := getD_append_length (ts ++ d ++ [32] ++ n ++ [91] ++ ds ++ [93])
      ((60 :: (L ++ 62 :: 58 :: 32 :: m)) ++ 0 :: junk) 32
    rw [← hline, hpre] at this
    exact this
  -- the pid
  have hst : strtol (ds ++ 93 :: 32 :: (60 :: (L ++ 62 :: 58 :: 32 :: m)))
      = ((decimal_value ds : Int), ds.length) := by
    apply strtol_digits_string ds _ hne hdig
    · intro c hc
      simp only [List.head?_cons, Option.some.injEq] at hc
      subst hc
      decide
    · have : LONG_MAX = 9223372036854775807 := rfl
      rw [this]
      omega
  have hpid : toInt32 (decimal_value ds : Int) = (decimal_value ds : Int) :=
    toInt32_small _ hk
  have hsub : 16 + d.length + 1 + n.length - (16 + d.length + 1) = n.length := by omega
  unfold process_filter_passes at hp
  unfold legacy_fields
  simp only [c0, hm, Bool.not_true, Bool.false_eq_true, if_false, f1, f2, f3, g,
    bne_self_eq_false, c2, hst, hpid, hsub]
  by_cases hpf : process_filter_matching cfg (decimal_value ds : Int)
      (n ++ 91 :: (ds ++ 93 :: 32 :: (60 :: (L ++ 62 :: 58 :: 32 :: m)))) n.length = true
  · simp only [hpf, if_true]
  · simp only [hpf, Bool.false_eq_true, if_false] at hp ⊢
    by_cases hfl : (decide (cfg.pid_filters.length > 0) || decide (cfg.proc_filters.length > 0))
        = true
    · simp [hfl] at hp
    · simp only [hfl, Bool.false_eq_true, if_false]

theorem legacy_layout_text (ts d n ds L m : List Nat) (hts : ts.length = 16) (hd : 32 ∉ d) :
    32 ∈ (legacy_layout ts d n ds L m).drop 16
    ∧ ((legacy_layout ts d n ds L m).drop 16).indexOf 32 = d.length
    ∧ record_text (legacy_layout ts d n ds L m)
        = n ++ 91 :: (ds ++ 93 :: 32 :: (60 :: (L ++ 62 :: 58 :: 32 :: m))) := by
  have h0 : (legacy_layout ts d n ds L m).drop 16
      = d ++ 32 :: (n ++ 91 :: (ds ++ 93 :: 32 :: (60 :: (L ++ 62 :: 58 :: 32 :: m)))) := by
    apply drop_eq_of_append _ ts _ 16 rfl hts.symm
  have hidx : (d ++ 32 :: (n ++ 91 :: (ds ++ 93 :: 32 :: (60 :: (L ++ 62 :: 58 :: 32 :: m))))).indexOf 32
      = d.length := by
    rw [List.indexOf_append_of_not_mem hd, List.indexOf_cons_self]
    rfl
  refine ⟨?_, ?_, ?_⟩
  · rw [h0]; simp
  · rw [h0, hidx]
  · rw [record_text, h0, ← drop_indexOf_succ, hidx]
    simp

/-- The trigger evaluation of the `do` block, when it lets the record through, hands the
record to the field stage. -/
theorem legacy_block_passes (cfg : Config) (t : Bool) (q : Nat) (w junk : List Nat)
    (hw : 0 ∉ w) (h16 : 16 ≤ w.length)
    (h3 : w.getD 3 0 = 32) (h6 : w.getD 6 0 = 32) (h15 : w.getD 15 0 = 32)
    (hsp : 32 ∈ w.drop 16) (htr : trigger_passes cfg t (record_text w) = true) :
    ∃ toff trig, legacy_block cfg t q (w ++ 0 :: junk) w.length
      = legacy_fields cfg (w ++ 0 :: junk) w.length toff trig q 16
          (16 + (w.drop 16).indexOf 32) (16 + (w.drop 16).indexOf 32 + 1) := by
  rw [legacy_block_head cfg t q w junk hw h16 h3 h6 h15 hsp]
  unfold trigger_passes at htr
  by_cases c1 : (decide (cfg.untrigger_filters.length > 0) && t) = true
  · simp only [c1, if_true]
    exact ⟨_, _, rfl⟩
  · simp only [c1, Bool.false_eq_true, if_false] at htr ⊢
    by_cases c2 : (decide (cfg.trigger_filters.length > 0) && !t) = true
    · simp only [c2, if_true] at htr ⊢
      simp only [htr, Bool.not_true, Bool.false_eq_true, if_false]
      exact ⟨_, _, rfl⟩
    · simp only [c2, Bool.false_eq_true, if_false] at htr ⊢
      by_cases c3 : (cfg.trigger_filters.length == 0
          && decide (cfg.untrigger_filters.length > 0) && !t) = true
      · simp [c3] at htr
      · simp only [c3, Bool.false_eq_true, if_false]
        exact ⟨_, _, rfl⟩

set_option maxRecDepth 100000 in
/-- C5, counterexample. On the record
`Jan  1 00:00:00 iPhone kernel[2147483648] <Notice>: boot ok` the parser's pid is
`(int)strtol(...)`, which is not 2147483648, and the message span it writes after the
level token is ` boot ok`, with the separating space, not `boot ok`. -/
theorem legacy_fields_counterexample :
    (legacy_block Config.initial false 0
        (bytes "Jan  1 00:00:00 iPhone kernel[2147483648] <Notice>: boot ok" ++ [0])
        (bytes "Jan  1 00:00:00 iPhone kernel[2147483648] <Notice>: boot ok").length).fields
        (bytes "Jan  1 00:00:00 iPhone kernel[2147483648] <Notice>: boot ok" ++ [0])
      = some ⟨bytes "iPhone", bytes "kernel", -2147483648, bytes "<Notice>:", bytes " boot ok"⟩
    ∧ (-2147483648 : Int) ≠ 2147483648
    ∧ bytes " boot ok" ≠ bytes "boot ok" := by
  refine ⟨by decide, by decide, by decide⟩

/-- C5, amended. For a 16-byte timestamp with a space at positions 3, 6 and 15, a device
name `d` without space, a process name `n` without `[` or `(`, a non-empty string `ds`
of decimal digits whose value is below 2^31, a level `L` among Notice, Error, Warning
and Debug, and a message `m`, the record `timestamp + d + " " + n + "[" + ds + "] <" +
L + ">: " + m`, when it passes the trigger evaluation and the filters, is split into
device name `d`, process name `n`, pid the value of `ds`, level token `"<" + L + ">:"`,
and the message text `" " + m` that follows the level token. -/
theorem legacy_record_fields (cfg : Config) (t : Bool) (q : Nat)
    (junk ts d n ds L m : List Nat)
    (hts : ts.length = 16)
    (h3 : ts.getD 3 0 = 32) (h6 : ts.getD 6 0 = 32) (h15 : ts.getD 15 0 = 32)
    (hd : 32 ∉ d) (hn1 : 91 ∉ n) (hn2 : 40 ∉ n)
    (hne : ds ≠ []) (hdig : ∀ c ∈ ds, isdigit c = true)
    (hk : decimal_value ds < 2147483648)
    (hL : L ∈ level_names)
    (hnul : 0 ∉ legacy_layout ts d n ds L m)
    (htr : trigger_passes cfg t (record_text (legacy_layout ts d n ds L m)) = true)
    (hm : message_filter_matching cfg (record_text (legacy_layout ts d n ds L m)) = true)
    (hp : process_filter_passes cfg (decimal_value ds : Int)
      (record_text (legacy_layout ts d n ds L m)) n.length = true) :
    (legacy_block cfg t q (legacy_layout ts d n ds L m ++ 0 :: junk)
        (legacy_layout ts d n ds L m).length).fields (legacy_layout ts d n ds L m ++ 0 :: junk)
      = some ⟨d, n, (decimal_value ds : Int), 60 :: (L ++ [62, 58]), 32 :: m⟩ := by
  obtain ⟨hsp, hidx, htext⟩ := legacy_layout_text ts d n ds L m hts hd
  generalize hw_eq : legacy_layout ts d n ds L m = w at *
  have hw_eq' : w = legacy_layout ts d n ds L m := hw_eq.symm
  have hlen : w.length = 16 + d.length + 1 + n.length + 1 + ds.length + 2
      + (1 + (L.length + 3 + m.length)) := by
    rw [hw_eq']; simp [legacy_layout, hts]; omega
  have g3 : w.getD 3 0 = 32 := by
    rw [hw_eq', legacy_layout, getD_append_lt ts _ 3 (by omega)]; exact h3
  have g6 : w.getD 6 0 = 32 := by
    rw [hw_eq', legacy_layout, getD_append_lt ts _ 6 (by omega)]; exact h6
  have g15 : w.getD 15 0 = 32 := by
    rw [hw_eq', legacy_layout, getD_append_lt ts _ 15 (by omega)]; exact h15
  rw [htext] at hm hp
  obtain ⟨toff, trig, hb⟩ :=
    legacy_block_passes cfg t q w junk hnul (by omega) g3 g6 g15 hsp htr
  rw [hidx] at hb
  rw [hb, legacy_fields_layout cfg toff trig q w junk ts d n ds L m hw_eq' hnul hts hn1 hn2
    hne hdig hk hm hp]
  have hcs : cstr (w ++ 0 :: junk) (16 + d.length + 1 + n.length + 1 + ds.length + 1 + 1)
      = 60 :: (L ++ 62 :: 58 :: 32 :: m) := by
    rw [cstr_record w junk _ hnul (by omega)]
    apply drop_eq_of_append w (ts ++ d ++ [32] ++ n ++ [91] ++ ds ++ [93, 32])
    · rw [hw_eq']; simp [legacy_layout]
    · simp [hts]; omega
  obtain ⟨col, e1, e2, e3⟩ := legacy_emit_level cfg (w ++ 0 :: junk) w.length toff trig q 16
    (16 + d.length) (16 + d.length + 1) (16 + d.length + 1 + n.length)
    (16 + d.length + 1 + n.length + 1 + ds.length + 1)
    (16 + d.length + 1 + n.length + 1 + ds.length + 1 + 1) (decimal_value ds : Int) L m hL hcs
  unfold Block.fields
  rw [e1, e2, e3]
  have s1 : slice (w ++ 0 :: junk) 16 (16 + d.length - 16) = d := by
    apply slice_eq_of_append _ ts d (32 :: (n ++ 91 :: (ds ++ 93 :: 32 ::
      (60 :: (L ++ 62 :: 58 :: 32 :: m)))) ++ 0 :: junk)
    · rw [hw_eq']; simp [legacy_layout]
    · exact hts.symm
    · omega
  have s2 : slice (w ++ 0 :: junk) (16 + d.length + 1)
      (16 + d.length + 1 + n.length - (16 + d.length + 1)) = n := by
    apply slice_eq_of_append _ (ts ++ d ++ [32]) n (91 :: (ds ++ 93 :: 32 ::
      (60 :: (L ++ 62 :: 58 :: 32 :: m))) ++ 0 :: junk)
    · rw [hw_eq']; simp [legacy_layout]
    · simp [hts]; omega
    · omega
  have s3 : slice (w ++ 0 :: junk) (16 + d.length + 1 + n.length + 1 + ds.length + 1 + 1)
      (16 + d.length + 1 + n.length + 1 + ds.length + 1 + 1 + (L.length + 3)
        - (16 + d.length + 1 + n.length + 1 + ds.length + 1 + 1)) = 60 :: (L ++ [62, 58]) := by
    apply slice_eq_of_append _ (ts ++ d ++ [32] ++ n ++ [91] ++ ds ++ [93, 32])
      (60 :: (L ++ [62, 58])) (32 :: m ++ 0 :: junk)
    · rw [hw_eq']; simp [legacy_layout]
    · simp [hts]; omega
    · simp
  have s4 : slice (w ++ 0 :: junk)
      (16 + d.length + 1 + n.length + 1 + ds.length + 1 + 1 + (L.length + 3))
      (w.length - (16 + d.length + 1 + n.length + 1 + ds.length + 1 + 1 + (L.length + 3)))
      = 32 :: m := by
    apply slice_eq_of_append _ (ts ++ d ++ [32] ++ n ++ [91] ++ ds ++ [93, 32]
      ++ 60 :: (L ++ [62, 58])) (32 :: m) (0 :: junk)
    · rw [hw_eq']; simp [legacy_layout]
    · simp [hts]; omega
    · simp; omega
  simp only [s1, s2, s3, s4]

set_option maxRecDepth 100000 in
/-- Witness for C5: `Jan  1 00:00:00 iPhone kernel[0] <Notice>: boot ok` gives device
name `iPhone`, process name `kernel`, pid 0, level token `<Notice>:` and message text
` boot ok`. -/
theorem legacy_record_fields_witness :
    (legacy_layout (bytes "Jan  1 00:00:00 ") (bytes "iPhone") (bytes "kernel") (bytes "0")
        (bytes "Notice") (bytes "boot ok")
      = bytes "Jan  1 00:00:00 iPhone kernel[0] <Notice>: boot ok"
      ∧ decimal_value (bytes "0") < 2147483648
      ∧ bytes "Notice" ∈ level_names)
    ∧ (legacy_block Config.initial false 0
        (legacy_layout (bytes "Jan  1 00:00:00 ") (bytes "iPhone") (bytes "kernel") (bytes "0")
          (bytes "Notice") (bytes "boot ok") ++ 0 :: [])
        (legacy_layout (bytes "Jan  1 00:00:00 ") (bytes "iPhone") (bytes "kernel") (bytes "0")
          (bytes "Notice") (bytes "boot ok")).length).fields
        (legacy_layout (bytes "Jan  1 00:00:00 ") (bytes "iPhone") (bytes "kernel") (bytes "0")
          (bytes "Notice") (bytes "boot ok") ++ 0 :: [])
      = some ⟨bytes "iPhone", bytes "kernel", 0, bytes "<Notice>:", bytes " boot ok"⟩ :=
  ⟨⟨by decide, by decide, by decide⟩,
   (legacy_record_fields Config.initial false 0 [] (bytes "Jan  1 00:00:00 ")
      (bytes "iPhone") (bytes "kernel") (bytes "0") (bytes "Notice") (bytes "boot ok")
      (by decide) (by decide) (by decide) (by decide) (by decide) (by decide) (by decide)
      (by decide) (by decide) (by decide) (by decide) (by decide) (by decide) (by decide)
      (by decide)).trans (by decide)⟩

set_option maxRecDepth 100000 in
/-- Witness for C7: under the option `-m hello` the record
`Jan  1 00:00:00 iPhone kernel: hello`, which has no `[`, passes the message filter and
is written unchanged. -/
theorem scan_failure_output_witness :
    (Session.inv (Session.initial { Config.initial with msg_filters := [bytes "hello"] } heap_55)
      ∧ scan_fails (bytes "Jan  1 00:00:00 iPhone kernel: hello") = true)
    ∧ (feed { Config.initial with msg_filters := [bytes "hello"] } heap_55
        (Session.initial { Config.initial with msg_filters := [bytes "hello"] } heap_55)
        (bytes "Jan  1 00:00:00 iPhone kernel: hello" ++ [0])).2
      = [Out.write (bytes "Jan  1 00:00:00 iPhone kernel: hello"),
         Out.color Color.COLOR_RESET] :=
  ⟨⟨(Session.initial_inv _ _).1, by decide⟩,
   (scan_failure_output { Config.initial with msg_filters := [bytes "hello"] } heap_55
      (Session.initial { Config.initial with msg_filters := [bytes "hello"] } heap_55)
      (bytes "Jan  1 00:00:00 iPhone kernel: hello")
      (Session.initial_inv _ _).1 rfl (by decide) (by decide) (by decide) (by decide)
      (by decide) (by decide)).trans (by decide)⟩

/-! ## Theorems: trace packets -/

set_option maxRecDepth 100000 in
/-- C8, failing input. A packet of exactly 129 bytes whose header declares 146 bytes is
not rejected: a record is written, and its process name and message are the bytes that
lie in memory after the end of the packet (two memories that agree on the 129 bytes of
the packet give two different records). -/
theorem trace_lengths_beyond_buffer :
    hdr_overlong.header_size + hdr_overlong.procpath_len + hdr_overlong.imagepath_len
        + hdr_overlong.message_len > 129
    ∧ (mem_after_packet (bytes "/bin/proc" ++ [0] ++ bytes "secret" ++ [0])).take 129
        = (mem_after_packet (bytes "/bin/init" ++ [0] ++ bytes "public" ++ [0])).take 129
    ∧ (ostrace_syslog_callback Config.initial trace_session hdr_overlong
        (mem_after_packet (bytes "/bin/proc" ++ [0] ++ bytes "secret" ++ [0])) 129).map
          (fun r => written r.2)
        = some (bytes " proc(/bin/proc)[] <Notice>: secret\n")
    ∧ (ostrace_syslog_callback Config.initial trace_session hdr_overlong
        (mem_after_packet (bytes "/bin/init" ++ [0] ++ bytes "public" ++ [0])) 129).map
          (fun r => written r.2)
        = some (bytes " init(/bin/init)[] <Notice>: public\n") := by
  refine ⟨by decide, by decide, by decide, by decide⟩

/-! ## Theorems: `add_filter` -/

theorem getD_out_of_range (l : List Nat) (i : Nat) (h : l.length ≤ i) : l.getD i 0 = 0 := by
  induction l generalizing i with
  | nil => rfl
  | cons a t ih =>
    cases i with
    | zero => simp at h
    | succ j =>
      rw [List.getD_cons_succ]
      exact ih j (by simpa using h)

theorem splitOn_cons_delim (r : List Nat) : (124 :: r).splitOn 124 = [] :: r.splitOn 124 := by
  simp [List.splitOn, List.splitOnP_cons]

theorem splitOn_cons_other (c : Nat) (r : List Nat) (h : c ≠ 124) :
    (c :: r).splitOn 124 = List.modifyHead (List.cons c) (r.splitOn 124) := by
  simp [List.splitOn, List.splitOnP_cons, h]

theorem splitOn_ne_nil (r : List Nat) : r.splitOn 124 ≠ [] := by
  unfold List.splitOn
  exact List.splitOnP_ne_nil _ _

/-- The loop of `add_filter` from the state "token `cur` open, `rest` unread" processes
the pieces of `rest`, the first of them prefixed by `cur`. -/
theorem add_filter_loop_eq (s : List Nat) :
    ∀ (rest cur pre : List Nat) (cfg : Config), s = pre ++ cur ++ rest → 0 ∉ rest →
      add_filter_loop s (rest.length + 1) pre.length (pre.length + cur.length) cfg
        = (List.modifyHead (fun t => cur ++ t) (rest.splitOn 124)).foldl
            (fun c t => if t.length > 0 then add_filter_token c t else c) cfg := by
  intro rest
  induction rest with
  | nil =>
    intro cur pre cfg hs _
    have hget : s.getD (pre.length + cur.length) 0 = 0 :=
      getD_out_of_range s _ (by rw [hs]; simp)
    have htok : (s.drop pre.length).take cur.length = cur := by
      rw [hs]; simp
    have hsub : pre.length + cur.length - pre.length = cur.length := by omega
    rw [List.length_nil, Nat.zero_add, add_filter_loop]
    simp only [hget, hsub, htok, add_filter_loop]
    simp [List.splitOn, List.splitOnP_nil]
  | cons c r ih =>
    intro cur pre cfg hs h0
    have hc0 : c ≠ 0 := fun h => h0 (by simp [h])
    have hr0 : 0 ∉ r := fun h => h0 (List.mem_cons_of_mem _ h)
    have hget : s.getD (pre.length + cur.length) 0 = c := by
      have := getD_append_length (pre ++ cur) r c
      rw [← hs, List.length_append] at this
      exact this
    have htok : (s.drop pre.length).take cur.length = cur := by
      rw [hs]; simp
    have hsub : pre.length + cur.length - pre.length = cur.length := by omega
    have hc0b : (c == 0) = false := by simp [hc0]
    by_cases hc : c = 124
    · subst hc
      have hs2 : s = (pre ++ cur ++ [124]) ++ [] ++ r := by rw [hs]; simp
      have hl2 : (pre ++ cur ++ [124]).length = pre.length + cur.length + 1 := by
        simp; omega
      have ih2 := ih [] (pre ++ cur ++ [124])
        (if cur.length > 0 then add_filter_token cfg cur else cfg) hs2 hr0
      rw [hl2] at ih2
      simp only [List.length_nil, Nat.add_zero, List.nil_append] at ih2
      have hid : List.modifyHead (fun t : List Nat => t) (r.splitOn 124) = r.splitOn 124 := by
        cases r.splitOn 124 <;> rfl
      rw [hid] at ih2
      rw [List.length_cons, add_filter_loop]
      simp only [hget, beq_self_eq_true, Bool.true_or, if_true, hsub, htok]
      rw [ih2, splitOn_cons_delim]
      simp [List.modifyHead]
    · have hcb : (c == 124) = false := by simp [hc]
      have hs2 : s = pre ++ (cur ++ [c]) ++ r := by rw [hs]; simp
      have ih2 := ih (cur ++ [c]) pre cfg hs2 hr0
      have hl2 : pre.length + (cur ++ [c]).length = pre.length + cur.length + 1 := by
        simp; omega
      rw [hl2] at ih2
      rw [List.length_cons, add_filter_loop]
      simp only [hget, hcb, hc0b, Bool.or_self, Bool.false_eq_true, if_false]
      rw [ih2, splitOn_cons_other c r hc]
      have hne := splitOn_ne_nil r
      cases hsp : r.splitOn 124 with
      | nil => exact absurd hsp hne
      | cons x xs => simp [List.modifyHead]

theorem strlen_of_no_nul (s : List Nat) (h : 0 ∉ s) : strlen s = s.length := by
  unfold strlen cstr
  have : (s.drop 0).takeWhile (fun b => b != 0) = s := by
    rw [List.drop_zero, List.takeWhile_eq_self_iff]
    intro x hx
    have : x ≠ 0 := fun h0 => h (h0 ▸ hx)
    simp [this]
  rw [this]

theorem foldl_skip_empty (toks : List (List Nat)) :
    ∀ cfg : Config,
      toks.foldl (fun c t => if t.length > 0 then add_filter_token c t else c) cfg
        = (toks.filter (fun t => !t.isEmpty)).foldl add_filter_token cfg := by
  induction toks with
  | nil => intro cfg; rfl
  | cons t ts ih =>
    intro cfg
    cases t with
    | nil => simpa [List.filter] using ih cfg
    | cons a b => simpa [List.filter] using ih (add_filter_token cfg (a :: b))

/-- The function `add_filter` handles the `|`-separated pieces of the filter string one by one from
left to right, skipping the empty ones. -/
theorem add_filter_eq_foldl (cfg : Config) (s : List Nat) (h0 : 0 ∉ s) :
    add_filter cfg s = (filter_tokens s).foldl add_filter_token cfg := by
  unfold add_filter
  simp only [strlen_of_no_nul s h0]
  have h := add_filter_loop_eq s s [] [] cfg (by simp) h0
  simp only [List.length_nil, Nat.add_zero, List.nil_append] at h
  have hid : List.modifyHead (fun t : List Nat => t) (s.splitOn 124) = s.splitOn 124 := by
    cases s.splitOn 124 <;> rfl
  rw [hid] at h
  rw [h, foldl_skip_empty]
  rfl

theorem strtol_digits_takeWhile (s : List Nat) :
    ∀ acc k, strtol_digits s acc k
      = ((s.takeWhile isdigit).foldl (fun a c => a * 10 + (c - 48)) acc,
         k + (s.takeWhile isdigit).length) := by
  induction s with
  | nil => intro acc k; simp [strtol_digits]
  | cons c t ih =>
    intro acc k
    rw [strtol_digits]
    by_cases hc : isdigit c = true
    · simp only [hc, if_true, ih, List.takeWhile_cons, List.foldl_cons, List.length_cons,
        Prod.mk.injEq, true_and]
      omega
    · simp [hc, List.takeWhile_cons]

theorem drop_length_takeWhile (p : Nat → Bool) (l : List Nat) :
    l.drop (l.takeWhile p).length = l.dropWhile p := by
  induction l with
  | nil => rfl
  | cons a t ih =>
    by_cases h : p a = true
    · simp [List.takeWhile_cons, List.dropWhile_cons, h, ih]
    · simp [List.takeWhile_cons, List.dropWhile_cons, h]

theorem length_takeWhile_add_dropWhile (p : Nat → Bool) (l : List Nat) :
    (l.takeWhile p).length + (l.dropWhile p).length = l.length := by
  rw [← List.length_append, List.takeWhile_append_dropWhile]

theorem getD_eq_zero_iff (l : List Nat) (h0 : 0 ∉ l) (i : Nat) :
    l.getD i 0 = 0 ↔ l.length ≤ i := by
  induction l generalizing i with
  | nil => simp
  | cons a t ih =>
    have ha : a ≠ 0 := fun h => h0 (by simp [h])
    have ht : 0 ∉ t := fun h => h0 (List.mem_cons_of_mem _ h)
    cases i with
    | zero => simp [ha]
    | succ j =>
      rw [List.getD_cons_succ, ih ht j]
      simp

theorem takeWhile_length_eq_iff (p : Nat → Bool) (l : List Nat) :
    (l.takeWhile p).length = l.length ↔ l.all p = true := by
  induction l with
  | nil => simp
  | cons a t ih =>
    by_cases h : p a = true
    · simp [List.takeWhile_cons, h, ih]
    · simp [List.takeWhile_cons, h]

theorem takeWhile_eq_self_of_all (p : Nat → Bool) (l : List Nat) (h : l.all p = true) :
    l.takeWhile p = l := by
  rw [List.takeWhile_eq_self_iff]
  intro x hx
  exact (List.all_eq_true.1 h) x hx

/-- The lengths of the parts of a token: white space, sign, remaining text. -/
theorem token_lengths (tok : List Nat) :
    (tok.takeWhile isspace).length
      + (if (tok.dropWhile isspace).head? == some 45 || (tok.dropWhile isspace).head? == some 43
          then 1 else 0)
      + (token_digits tok).length = tok.length
    ∧ (tok.dropWhile isspace).drop
        (if (tok.dropWhile isspace).head? == some 45 || (tok.dropWhile isspace).head? == some 43
          then 1 else 0) = token_digits tok := by
  have h1 := length_takeWhile_add_dropWhile isspace tok
  unfold token_digits
  cases hs : tok.dropWhile isspace with
  | nil =>
    rw [hs] at h1
    simp at h1 ⊢
    omega
  | cons a t =>
    rw [hs] at h1
    by_cases hsg : (some a == some 45 || some a == some 43) = true
    · simp only [List.head?_cons, hsg, if_true, List.drop_succ_cons, List.drop_zero,
        List.length_cons] at h1 ⊢
      exact ⟨by omega, trivial⟩
    · simp only [List.head?_cons, hsg, Bool.false_eq_true, if_false, List.drop_zero,
        List.length_cons] at h1 ⊢
      exact ⟨by omega, trivial⟩

/-- What `add_filter` does with one non-empty token: an integer token goes to the pid
filters as `token_pid`, any other token goes to the process filters as its text. -/
theorem add_filter_token_eq (cfg : Config) (tok : List Nat) (h0 : 0 ∉ tok) (hne : tok ≠ []) :
    add_filter_token cfg tok
      = if integer_token tok then
          { cfg with pid_filters := cfg.pid_filters ++ [token_pid tok] }
        else { cfg with proc_filters := cfg.proc_filters ++ [some tok] } := by
  obtain ⟨hlen, hdrop⟩ := token_lengths tok
  have hst : strtol tok
      = if ((token_digits tok).takeWhile isdigit).length = 0 then (0, 0)
        else (max LONG_MIN (min LONG_MAX
                (if (tok.dropWhile isspace).head? == some 45
                  then 0 - (decimal_value ((token_digits tok).takeWhile isdigit) : Int)
                  else (decimal_value ((token_digits tok).takeWhile isdigit) : Int))),
              (tok.takeWhile isspace).length
              + (if (tok.dropWhile isspace).head? == some 45
                    || (tok.dropWhile isspace).head? == some 43 then 1 else 0)
              + ((token_digits tok).takeWhile isdigit).length) := by
    unfold strtol
    simp only [drop_length_takeWhile, hdrop, strtol_digits_takeWhile, Nat.zero_add]
    rfl
  have hle : ((token_digits tok).takeWhile isdigit).length ≤ (token_digits tok).length := by
    have := length_takeWhile_add_dropWhile isdigit (token_digits tok)
    omega
  have hpos : 0 < tok.length := List.length_pos.2 hne
  unfold add_filter_token
  simp only [hst]
  by_cases hz : ((token_digits tok).takeWhile isdigit).length = 0
  · -- no digit read: `endp` stays at the start of the token
    have hget : (tok.getD 0 0 == 0) = false := by
      have : ¬ tok.getD 0 0 = 0 := by
        rw [getD_eq_zero_iff tok h0 0]; omega
      simpa using this
    have hint : integer_token tok = false := by
      unfold integer_token
      cases htd : token_digits tok with
      | nil => simp
      | cons a t =>
        rw [htd] at hz
        have ha : isdigit a = false := by
          by_cases h : isdigit a = true
          · simp [List.takeWhile_cons, h] at hz
          · simpa using h
        simp [ha]
    simp only [hz, if_true, hget, Bool.false_eq_true, if_false, hint]
  · by_cases hall : (token_digits tok).all isdigit = true
    · have htw := takeWhile_eq_self_of_all isdigit _ hall
      have hget : tok.getD ((tok.takeWhile isspace).length
          + (if (tok.dropWhile isspace).head? == some 45
                || (tok.dropWhile isspace).head? == some 43 then 1 else 0)
          + ((token_digits tok).takeWhile isdigit).length) 0 = 0 := by
        rw [getD_eq_zero_iff tok h0, htw]; omega
      have hnem : (token_digits tok).isEmpty = false := by
        cases htd : token_digits tok with
        | nil => rw [htd] at hz; simp at hz
        | cons a t => rfl
      have hint : integer_token tok = true := by
        unfold integer_token
        simp [hnem, hall]
      simp only [hz, if_false, hget, beq_self_eq_true, if_true, hint]
      rw [htw]
      rfl
    · have hlt : ((token_digits tok).takeWhile isdigit).length < (token_digits tok).length := by
        rcases Nat.lt_or_ge ((token_digits tok).takeWhile isdigit).length
          (token_digits tok).length with h | h
        · exact h
        · exact absurd ((takeWhile_length_eq_iff isdigit _).1 (by omega)) hall
      have hget : (tok.getD ((tok.takeWhile isspace).length
          + (if (tok.dropWhile isspace).head? == some 45
                || (tok.dropWhile isspace).head? == some 43 then 1 else 0)
          + ((token_digits tok).takeWhile isdigit).length) 0 == 0) = false := by
        have : ¬ tok.getD ((tok.takeWhile isspace).length
            + (if (tok.dropWhile isspace).head? == some 45
                  || (tok.dropWhile isspace).head? == some 43 then 1 else 0)
            + ((token_digits tok).takeWhile isdigit).length) 0 = 0 := by
          rw [getD_eq_zero_iff tok h0]; omega
        simpa using this
      have hint : integer_token tok = false := by
        unfold integer_token
        simp [hall]
      simp only [hz, if_false, hget, Bool.false_eq_true, hint]

theorem mem_of_mem_splitOn (s : List Nat) :
    ∀ t ∈ s.splitOn 124, ∀ x ∈ t, x ∈ s := by
  induction s with
  | nil =>
    intro t ht x hx
    have : t = [] := by simpa [List.splitOn, List.splitOnP_nil] using ht
    subst this
    simp at hx
  | cons c r ih =>
    intro t ht x hx
    by_cases hc : c = 124
    · subst hc
      rw [splitOn_cons_delim] at ht
      rcases List.mem_cons.1 ht with h | h
      · subst h; simp at hx
      · exact List.mem_cons_of_mem _ (ih t h x hx)
    · rw [splitOn_cons_other c r hc] at ht
      have hne := splitOn_ne_nil r
      cases hsp : r.splitOn 124 with
      | nil => exact absurd hsp hne
      | cons y ys =>
        rw [hsp] at ht ih
        simp only [List.modifyHead] at ht
        rcases List.mem_cons.1 ht with h | h
        · subst h
          rcases List.mem_cons.1 hx with h2 | h2
          · subst h2; exact List.mem_cons_self _ _
          · exact List.mem_cons_of_mem _ (ih y (List.mem_cons_self _ _) x h2)
        · exact List.mem_cons_of_mem _ (ih t (List.mem_cons_of_mem _ h) x hx)

theorem filter_tokens_spec (s : List Nat) (h0 : 0 ∉ s) :
    ∀ t ∈ filter_tokens s, 0 ∉ t ∧ t ≠ [] := by
  intro t ht
  unfold filter_tokens at ht
  rw [List.mem_filter] at ht
  obtain ⟨h1, h2⟩ := ht
  constructor
  · exact fun h => h0 (mem_of_mem_splitOn s t h1 0 h)
  · intro h; subst h; simp at h2

theorem foldl_add_filter_token (toks : List (List Nat)) (h : ∀ t ∈ toks, 0 ∉ t ∧ t ≠ []) :
    ∀ cfg : Config,
      (toks.foldl add_filter_token cfg).pid_filters
          = cfg.pid_filters ++ (toks.filter integer_token).map token_pid
      ∧ (toks.foldl add_filter_token cfg).proc_filters
          = cfg.proc_filters ++ (toks.filter (fun t => !integer_token t)).map some
      ∧ (toks.foldl add_filter_token cfg).proc_filter_excluding = cfg.proc_filter_excluding
      ∧ (toks.foldl add_filter_token cfg).msg_filters = cfg.msg_filters
      ∧ (toks.foldl add_filter_token cfg).msg_reverse_filters = cfg.msg_reverse_filters
      ∧ (toks.foldl add_filter_token cfg).trigger_filters = cfg.trigger_filters
      ∧ (toks.foldl add_filter_token cfg).untrigger_filters = cfg.untrigger_filters
      ∧ (toks.foldl add_filter_token cfg).show_device_name = cfg.show_device_name := by
  induction toks with
  | nil => intro cfg; simp
  | cons t ts ih =>
    intro cfg
    obtain ⟨ht0, htne⟩ := h t (List.mem_cons_self _ _)
    have hts : ∀ u ∈ ts, 0 ∉ u ∧ u ≠ [] := fun u hu => h u (List.mem_cons_of_mem _ hu)
    rw [List.foldl_cons, add_filter_token_eq cfg t ht0 htne]
    cases hint : integer_token t
    · obtain ⟨a1, a2, a3, a4, a5, a6, a7, a8⟩ := ih hts
        { cfg with proc_filters := cfg.proc_filters ++ [some t] }
      simp only [Bool.false_eq_true, if_false]
      refine ⟨?_, ?_, a3, a4, a5, a6, a7, a8⟩
      · rw [a1]; simp [List.filter, hint]
      · rw [a2]; simp [List.filter, hint]
    · obtain ⟨a1, a2, a3, a4, a5, a6, a7, a8⟩ := ih hts
        { cfg with pid_filters := cfg.pid_filters ++ [token_pid t] }
      simp only [if_true]
      refine ⟨?_, ?_, a3, a4, a5, a6, a7, a8⟩
      · rw [a1]; simp [List.filter, hint]
      · rw [a2]; simp [List.filter, hint]

theorem length_filter_add (p : List Nat → Bool) (toks : List (List Nat)) :
    (toks.filter p).length + (toks.filter (fun t => !p t)).length = toks.length := by
  induction toks with
  | nil => rfl
  | cons t ts ih =>
    cases h : p t <;> simp [List.filter, h] <;> omega

theorem token_pid_in_range (t : List Nat) (h1 : -2147483648 ≤ integer_token_value t)
    (h2 : integer_token_value t ≤ 2147483647) : token_pid t = integer_token_value t := by
  unfold token_pid
  have hmax : LONG_MAX = 9223372036854775807 := rfl
  have hmin : LONG_MIN = -9223372036854775808 := rfl
  rw [min_eq_right (by rw [hmax]; omega), max_eq_right (by rw [hmin]; omega)]
  unfold toInt32
  omega

set_option maxRecDepth 100000 in
/-- C9, counterexample. The token `2147483648` parses wholly as a decimal integer, but
the entry appended to the pid filters is `(int)strtol(...)`, which is -2147483648 and
not the token's integer value. -/
theorem add_filter_counterexample :
    integer_token (bytes "2147483648") = true
    ∧ integer_token_value (bytes "2147483648") = 2147483648
    ∧ (add_filter Config.initial (bytes "2147483648")).pid_filters = [-2147483648] := by
  refine ⟨by decide, by decide, by decide⟩

/-- C9, amended. For every filter string `s`, `add_filter(s)` splits `s` at each `|`,
skips every empty token and, in left-to-right order, appends each remaining token to the
pid filters when the whole token parses as a decimal integer (optional white space,
optional sign, digits) and otherwise to the process filters as its text.  The pid
stored is `(int)strtol(token)`, which is the token's integer value whenever that value
fits an `int`.  Entries already present, and every other setting, are unchanged, and
the number of entries added over both lists is the number of non-empty tokens. -/
theorem add_filter_tokens (cfg : Config) (s : List Nat) (h0 : 0 ∉ s) :
    (add_filter cfg s).pid_filters
        = cfg.pid_filters ++ ((filter_tokens s).filter integer_token).map token_pid
    ∧ (add_filter cfg s).proc_filters
        = cfg.proc_filters ++ ((filter_tokens s).filter (fun t => !integer_token t)).map some
    ∧ (add_filter cfg s).pid_filters.length + (add_filter cfg s).proc_filters.length
        = cfg.pid_filters.length + cfg.proc_filters.length + (filter_tokens s).length
    ∧ (∀ t, -2147483648 ≤ integer_token_value t → integer_token_value t ≤ 2147483647 →
        token_pid t = integer_token_value t)
    ∧ (add_filter cfg s).proc_filter_excluding = cfg.proc_filter_excluding
    ∧ (add_filter cfg s).msg_filters = cfg.msg_filters
    ∧ (add_filter cfg s).msg_reverse_filters = cfg.msg_reverse_filters
    ∧ (add_filter cfg s).trigger_filters = cfg.trigger_filters
    ∧ (add_filter cfg s).untrigger_filters = cfg.untrigger_filters := by
  obtain ⟨a1, a2, a3, a4, a5, a6, a7, _⟩ :=
    foldl_add_filter_token (filter_tokens s) (filter_tokens_spec s h0) cfg
  rw [add_filter_eq_foldl cfg s h0]
  refine ⟨a1, a2, ?_, token_pid_in_range, a3, a4, a5, a6, a7⟩
  rw [a1, a2]
  have := length_filter_add integer_token (filter_tokens s)
  simp only [List.length_append, List.length_map]
  omega

set_option maxRecDepth 100000 in
/-- Witness for C9: the filter string `12|abc||x|` adds the pid 12 and the process
names `abc` and `x` to a configuration that already holds one entry in each list. -/
theorem add_filter_tokens_witness :
    0 ∉ bytes "12|abc||x|"
    ∧ (add_filter cfg_exclude_pid_and_kernel (bytes "12|abc||x|")).pid_filters = [10, 12]
    ∧ (add_filter cfg_exclude_pid_and_kernel (bytes "12|abc||x|")).proc_filters
        = [some (bytes "kernel"), some (bytes "abc"), some (bytes "x")] :=
  ⟨by decide,
   (add_filter_tokens cfg_exclude_pid_and_kernel (bytes "12|abc||x|") (by decide)).1.trans
     (by decide),
   (add_filter_tokens cfg_exclude_pid_and_kernel (bytes "12|abc||x|") (by decide)).2.1.trans
     (by decide)⟩

/-! ## Theorems: the field stage on a well-formed record -/

theorem take_indexOf_eq_takeWhile (c : Nat) (l : List Nat) :
    l.take (l.indexOf c) = l.takeWhile (fun b => b != c) := by
  induction l with
  | nil => rfl
  | cons a t ih =>
    by_cases hac : a = c
    · subst hac
      simp [List.takeWhile_cons]
    · rw [List.indexOf_cons_ne _ hac]
      have hne : (a != c) = true := by simp [hac]
      simp only [List.takeWhile_cons, hne, if_true, Nat.succ_eq_add_one, List.take_succ_cons, ih]

theorem length_takeWhile_ne (c : Nat) (l : List Nat) :
    (l.takeWhile (fun b => b != c)).length = l.indexOf c := by
  induction l with
  | nil => rfl
  | cons a t ih =>
    by_cases hac : a = c
    · subst hac
      simp [List.takeWhile_cons]
    · rw [List.indexOf_cons_ne _ hac]
      have hne : (a != c) = true := by simp [hac]
      simp only [List.takeWhile_cons, hne, if_true, List.length_cons, ih, Nat.succ_eq_add_one]

theorem find_char_within (pre l rest : List Nat) (c c2 : Nat) (hne : c2 ≠ c) :
    find_char (pre ++ (l ++ c2 :: rest)) c pre.length (pre.length + l.length)
      = (pre.length + l.indexOf c, decide (c ∈ l)) := by
  unfold find_char
  have hloop := find_char_loop_eq c l pre (c2 :: rest)
  have hsub : pre.length + l.length - pre.length = l.length := by omega
  simp only [hsub, hloop]
  by_cases hmem : c ∈ l
  · have hlt : l.indexOf c < l.length := List.indexOf_lt_length.2 hmem
    have hget : (pre ++ (l ++ c2 :: rest)).getD (pre.length + l.indexOf c) 0 = c := by
      rw [getD_add_drop, List.drop_append_of_le_length (le_refl _), List.drop_length,
        List.nil_append, getD_append_lt l _ _ hlt, getD_drop_indexOf l c hmem]
    simp only [hget, beq_self_eq_true, hmem, decide_True]
  · have hidx : l.indexOf c = l.length := List.indexOf_eq_length.2 hmem
    have hget : (pre ++ (l ++ c2 :: rest)).getD (pre.length + l.length) 0 = c2 := by
      have := getD_append_length (pre ++ l) rest c2
      rw [List.append_assoc, List.length_append] at this
      exact this
    simp only [hidx, hget]
    simp [hne, hmem]

/-- The field stage of the parser on a record buffer in which the three scans after the
device name succeed: the record is dropped by the message filters or by the process
filters, or it reaches the emission stage, with the field variables at the positions
of the `[`, the `(`, the `]` and the space after it. -/
theorem legacy_fields_scans_ok (cfg : Config) (w junk : List Nat) (toff trig : Bool)
    (q dns dne : Nat) (hw : 0 ∉ w) (hp : dne + 1 ≤ w.length)
    (h91 : 91 ∈ w.drop (dne + 1))
    (h93 : 93 ∈ after_first 91 (w.drop (dne + 1)))
    (h32 : (after_first 93 (after_first 91 (w.drop (dne + 1)))).head? = some 32) :
    legacy_fields cfg (w ++ 0 :: junk) w.length toff trig q dns dne (dne + 1)
      = if message_filter_matching cfg (w.drop (dne + 1)) then
          if process_filter_passes cfg (toInt32 (strtol (after_first 91 (w.drop (dne + 1)))).1)
              (w.drop (dne + 1))
              (((w.drop (dne + 1)).take ((w.drop (dne + 1)).indexOf 91)).indexOf 40) then
            legacy_emit cfg (w ++ 0 :: junk) w.length toff trig q dns dne (dne + 1)
              (dne + 1 + ((w.drop (dne + 1)).take ((w.drop (dne + 1)).indexOf 91)).indexOf 40)
              (dne + 1 + (w.drop (dne + 1)).indexOf 91 + 1
                + (after_first 91 (w.drop (dne + 1))).indexOf 93 + 1)
              (dne + 1 + (w.drop (dne + 1)).indexOf 91 + 1
                + (after_first 91 (w.drop (dne + 1))).indexOf 93 + 1 + 1)
              (toInt32 (strtol (after_first 91 (w.drop (dne + 1)))).1)
          else Block.brk false toff trig q w.length
        else Block.brk false toff trig q w.length := by
  obtain ⟨s1, s2⟩ := scans_record w junk (dne + 1) hp
  obtain ⟨t1, t2, t3, t4⟩ := s2 h91
  obtain ⟨u1, u2⟩ := t4 h93
  generalize hT : w.drop (dne + 1) = T at *
  -- the `(` scan inside the process name
  have hidx : T.indexOf 91 < T.length := List.indexOf_lt_length.2 h91
  have hTsplit : T = T.take (T.indexOf 91) ++ 91 :: after_first 91 T := by
    have := drop_indexOf_mem 91 T h91
    rw [← this, List.take_append_drop]
  have hline : w ++ 0 :: junk = w.take (dne + 1)
      ++ (T.take (T.indexOf 91) ++ 91 :: (after_first 91 T ++ 0 :: junk)) := by
    have hw2 : w = w.take (dne + 1) ++ T := by rw [← hT, List.take_append_drop]
    have : w.take (dne + 1) ++ (T.take (T.indexOf 91) ++ 91 :: (after_first 91 T ++ 0 :: junk))
        = (w.take (dne + 1) ++ (T.take (T.indexOf 91) ++ 91 :: after_first 91 T)) ++ 0 :: junk := by
      simp
    rw [this, ← hTsplit, ← hw2]
  have hprelen : (w.take (dne + 1)).length = dne + 1 := by
    rw [List.length_take]; omega
  have hnmlen : (T.take (T.indexOf 91)).length = T.indexOf 91 := by
    rw [List.length_take]; omega
  have f2 : find_char (w ++ 0 :: junk) 40 (dne + 1) (dne + 1 + T.indexOf 91)
      = (dne + 1 + (T.take (T.indexOf 91)).indexOf 40,
         decide (40 ∈ T.take (T.indexOf 91))) := by
    have := find_char_within (w.take (dne + 1)) (T.take (T.indexOf 91))
      (after_first 91 T ++ 0 :: junk) 40 91 (by decide)
    rw [← hline, hprelen, hnmlen] at this
    exact this
  have hpne : (if decide (40 ∈ T.take (T.indexOf 91)) = true
        then dne + 1 + (T.take (T.indexOf 91)).indexOf 40
        else dne + 1 + T.indexOf 91)
      = dne + 1 + (T.take (T.indexOf 91)).indexOf 40 := by
    by_cases hm : 40 ∈ T.take (T.indexOf 91)
    · simp [hm]
    · have : (T.take (T.indexOf 91)).indexOf 40 = (T.take (T.indexOf 91)).length :=
        List.indexOf_eq_length.2 hm
      rw [this, hnmlen]
      simp [hm]
  -- the space after `]`
  have g : ((w ++ 0 :: junk).getD (dne + 1 + T.indexOf 91 + 1
      + (after_first 91 T).indexOf 93 + 1) 0 != 32) = false := by
    rw [getD_record_head w junk _ u1, u2, h32]
    rfl
  -- the C strings read
  have c0 : cstr (w ++ 0 :: junk) (dne + 1) = T := by
    rw [cstr_record w junk _ hw hp, hT]
  have c2 : cstr (w ++ 0 :: junk) (dne + 1 + T.indexOf 91 + 1) = after_first 91 T := by
    rw [cstr_record w junk _ hw (by omega), t2]
  have hsub : dne + 1 + (T.take (T.indexOf 91)).indexOf 40 - (dne + 1)
      = (T.take (T.indexOf 91)).indexOf 40 := by omega
  unfold process_filter_passes
  unfold legacy_fields
  simp only [c0, s1, h91, decide_True, Bool.not_true, Bool.false_eq_true, if_false, f2, hpne,
    t3, h93, g, c2, hsub]
  cases hm : message_filter_matching cfg T
  · simp
  · simp only [Bool.not_true, Bool.false_eq_true, if_false, if_true]
    by_cases hpf : process_filter_matching cfg (toInt32 (strtol (after_first 91 T)).1) T
        ((T.take (T.indexOf 91)).indexOf 40) = true
    · simp only [hpf, if_true]
    · simp only [hpf, Bool.false_eq_true, if_false]
      by_cases hfl : (decide (cfg.pid_filters.length > 0)
          || decide (cfg.proc_filters.length > 0)) = true
      · simp only [hfl, if_true, Bool.false_eq_true, if_false]
      · simp only [hfl, Bool.false_eq_true, if_false, if_true]

theorem well_formed_scans (w : List Nat) (h : well_formed w = true) :
    91 ∈ record_text w ∧ 93 ∈ after_first 91 (record_text w)
      ∧ (after_first 93 (after_first 91 (record_text w))).head? = some 32 := by
  unfold well_formed at h
  simp only [Bool.and_eq_true, Bool.not_eq_true', decide_eq_true_eq, beq_iff_eq] at h
  obtain ⟨⟨⟨_, h91⟩, h93⟩, h32⟩ := h
  exact ⟨by simpa using h91, by simpa using h93, h32⟩

theorem strncmp_take (f t : List Nat) (n : Nat) : strncmp f t n = strncmp f (t.take n) n := by
  induction n generalizing f t with
  | zero => simp [strncmp]
  | succ k ih =>
    cases f with
    | nil => cases t <;> simp [strncmp]
    | cons a f' =>
      cases t with
      | nil => simp [strncmp]
      | cons b t' =>
        simp only [List.take_succ_cons, strncmp]
        rw [ih f' t']

theorem process_filter_matching_take (cfg : Config) (pid : Int) (t : List Nat) (n : Nat) :
    process_filter_matching cfg pid t n = process_filter_matching cfg pid (t.take n) n := by
  unfold process_filter_matching
  simp only [← strncmp_take]

theorem process_filter_passes_take (cfg : Config) (pid : Int) (t : List Nat) (n : Nat) :
    process_filter_passes cfg pid t n = process_filter_passes cfg pid (t.take n) n := by
  unfold process_filter_passes
  rw [← process_filter_matching_take]

/-- The process name span in terms of positions. -/
theorem record_name_take (w : List Nat) :
    record_name w
        = (record_text w).take
            (((record_text w).take ((record_text w).indexOf 91)).indexOf 40)
    ∧ (record_name w).length
        = ((record_text w).take ((record_text w).indexOf 91)).indexOf 40 := by
  unfold record_name
  generalize record_text w = T
  rw [← take_indexOf_eq_takeWhile 91 T, ← take_indexOf_eq_takeWhile 40]
  have hle : ((T.take (T.indexOf 91)).indexOf 40) ≤ (T.take (T.indexOf 91)).length :=
    List.indexOf_le_length
  have hle2 : (T.take (T.indexOf 91)).length ≤ T.indexOf 91 := by
    rw [List.length_take]; omega
  have hle3 : (T.take (T.indexOf 91)).length ≤ T.length := by
    rw [List.length_take]; omega
  constructor
  · rw [List.take_take]
    congr 1
    omega
  · rw [List.length_take, List.length_take]
    rw [List.length_take] at hle
    omega

/-- The field stage on a well-formed record, in terms of the record's text, pid and
process name. -/
theorem legacy_fields_well_formed (cfg : Config) (w junk : List Nat) (toff trig : Bool)
    (q : Nat) (hwf : well_formed w = true) :
    legacy_fields cfg (w ++ 0 :: junk) w.length toff trig q 16 (record_dne w) (record_dne w + 1)
      = if message_filter_matching cfg (record_text w)
            && process_filter_passes cfg (record_pid w) (record_name w) (record_name w).length
        then
          legacy_emit cfg (w ++ 0 :: junk) w.length toff trig q 16 (record_dne w)
            (record_dne w + 1) (record_dne w + 1 + (record_name w).length)
            (record_rbr w + 1) (record_rbr w + 1 + 1) (record_pid w)
        else Block.brk false toff trig q w.length := by
  obtain ⟨hw, h16, h3, h6, h15, hsp⟩ := well_formed_head w hwf
  obtain ⟨h91, h93, h32⟩ := well_formed_scans w hwf
  obtain ⟨hb1, hb2⟩ := device_name_bounds w hsp
  obtain ⟨n1, n2⟩ := record_name_take w
  unfold record_dne record_rbr record_pid
  rw [← hb2] at h91 h93 h32
  rw [legacy_fields_scans_ok cfg w junk toff trig q 16 _ hw hb1 h91 h93 h32]
  rw [hb2]
  rw [process_filter_passes_take cfg _ (record_text w), ← n1, ← n2]
  unfold record_dne
  cases message_filter_matching cfg (record_text w) <;>
    cases process_filter_passes cfg (toInt32 (strtol (after_first 91 (record_text w))).1)
      (record_name w) (record_name w).length <;> simp

/-! ## Theorems: the decision procedure of the legacy parser -/

theorem no_filters_false_of_message (cfg : Config) (t : List Nat)
    (h : message_filter_matching cfg t = false) : no_filters cfg = false := by
  unfold no_filters
  cases hM : cfg.msg_filters with
  | cons a l => simp
  | nil =>
    cases hR : cfg.msg_reverse_filters with
    | cons a l => simp
    | nil =>
      have := message_filter_matching_none cfg t hM hR
      rw [h] at this
      exact Bool.noConfusion this

theorem no_filters_false_of_process (cfg : Config) (pid : Int) (t : List Nat) (n : Nat)
    (h : process_filter_passes cfg pid t n = false) : no_filters cfg = false := by
  unfold no_filters
  cases hP : cfg.pid_filters with
  | cons a l => simp
  | nil =>
    cases hN : cfg.proc_filters with
    | cons a l => simp
    | nil =>
      unfold process_filter_passes process_filter_matching at h
      simp [hP, hN] at h

theorem no_filters_false_of_trigger (cfg : Config) (h : cfg.trigger_filters.length > 0) :
    no_filters cfg = false := by
  unfold no_filters
  have : (cfg.trigger_filters.length == 0) = false := by
    simp only [beq_eq_false_iff_ne]; omega
  simp [this]

theorem no_filters_false_of_untrigger (cfg : Config) (h : cfg.untrigger_filters.length > 0) :
    no_filters cfg = false := by
  unfold no_filters
  have : (cfg.untrigger_filters.length == 0) = false := by
    simp only [beq_eq_false_iff_ne]; omega
  simp [this]

/-- The end of `syslog_callback` after a `break` with `shall_print = 0` while some filter
is configured: nothing is written and `trigger_off` is not applied. -/
theorem legacy_record_of_brk (cfg : Config) (s1 : Session) (line : List Nat) (lp : Nat)
    (toff trig : Bool) (q : Nat) (hnf : no_filters cfg = false)
    (hb : legacy_block cfg s1.triggered s1.quit_flag line lp = Block.brk false toff trig q lp) :
    (legacy_record cfg s1 line lp).2 = []
    ∧ (legacy_record cfg s1 line lp).1.triggered = trig
    ∧ (legacy_record cfg s1 line lp).1.quit_flag = q := by
  unfold legacy_record
  simp [hb, hnf, Block.brk]

/-- The end of `syslog_callback` after the emission stage: the record is written and
`trigger_off` is applied. -/
theorem legacy_record_of_emit (cfg : Config) (s1 : Session) (line : List Nat) (lp : Nat)
    (toff trig : Bool) (q a b c d e p : Nat) (pid : Int) (hline : line ≠ [])
    (hb : legacy_block cfg s1.triggered s1.quit_flag line lp
      = legacy_emit cfg line lp toff trig q a b c d e p pid) :
    printed (legacy_record cfg s1 line lp).2 = true
    ∧ (legacy_record cfg s1 line lp).1.triggered = (if toff then false else trig)
    ∧ (legacy_record cfg s1 line lp).1.quit_flag = q := by
  have h0 : slice line 0 16 ≠ [] := by
    cases line with
    | nil => exact absurd rfl hline
    | cons x t => simp [slice]
  unfold legacy_record
  rw [hb]
  refine ⟨?_, ?_, ?_⟩
  · apply printed_of_written_ne
    simp only [legacy_emit, Bool.or_true, if_true, List.append_assoc, List.cons_append,
      List.nil_append, written, ne_eq, List.append_eq_nil]
    intro hcon
    exact h0 hcon.1
  · simp [legacy_emit]
  · simp [legacy_emit]

/-- The legacy parser on a well-formed record computes the decision procedure on the
record's text, pid and process name; a record that is not printed produces no output
at all. -/
theorem legacy_decision (cfg : Config) (heap : Nat → Nat) (s : Session) (w : List Nat)
    (hs : s.inv) (hlp : s.lp = 0) (hwf : well_formed w = true) :
    (printed (feed cfg heap s (w ++ [0])).2, (feed cfg heap s (w ++ [0])).1.triggered,
        (feed cfg heap s (w ++ [0])).1.quit_flag)
      = decision cfg s.triggered s.quit_flag (record_text w) (record_pid w) (record_name w)
    ∧ (printed (feed cfg heap s (w ++ [0])).2 = false → (feed cfg heap s (w ++ [0])).2 = []) := by
  obtain ⟨hw, h16, h3, h6, h15, hsp⟩ := well_formed_head w hwf
  obtain ⟨s1, junk, e1, e2, e3, e4⟩ := feed_record cfg heap s w hs hlp hw
  have hline : w ++ 0 :: junk ≠ [] := by simp
  have hblock := legacy_block_head cfg s1.triggered s1.quit_flag w junk hw h16 h3 h6 h15 hsp
  have hdne : 16 + (w.drop 16).indexOf 32 = record_dne w := rfl
  simp only [hdne, legacy_fields_well_formed cfg w junk _ _ _ hwf] at hblock
  rw [e1, ← e2, ← e3]
  unfold decision
  -- the three outcomes of the field stage
  have key : ∀ (toff trig : Bool) (q : Nat),
      legacy_block cfg s1.triggered s1.quit_flag (w ++ 0 :: junk) w.length
        = (if message_filter_matching cfg (record_text w)
              && process_filter_passes cfg (record_pid w) (record_name w) (record_name w).length
           then legacy_emit cfg (w ++ 0 :: junk) w.length toff trig q 16 (record_dne w)
              (record_dne w + 1) (record_dne w + 1 + (record_name w).length)
              (record_rbr w + 1) (record_rbr w + 1 + 1) (record_pid w)
           else Block.brk false toff trig q w.length) →
      (printed (legacy_record cfg s1 (w ++ 0 :: junk) w.length).2,
          (legacy_record cfg s1 (w ++ 0 :: junk) w.length).1.triggered,
          (legacy_record cfg s1 (w ++ 0 :: junk) w.length).1.quit_flag)
        = (if message_filter_matching cfg (record_text w)
              && process_filter_passes cfg (record_pid w) (record_name w) (record_name w).length
           then (true, (if toff then false else trig), q) else (false, trig, q))
      ∧ (printed (legacy_record cfg s1 (w ++ 0 :: junk) w.length).2 = false →
          (legacy_record cfg s1 (w ++ 0 :: junk) w.length).2 = []) := by
    intro toff trig q hb
    by_cases hpass : (message_filter_matching cfg (record_text w)
        && process_filter_passes cfg (record_pid w) (record_name w) (record_name w).length) = true
    · simp only [hpass, if_true] at hb ⊢
      obtain ⟨a1, a2, a3⟩ := legacy_record_of_emit cfg s1 _ _ _ _ _ _ _ _ _ _ _ _ hline hb
      rw [a1, a2, a3]
      exact ⟨rfl, fun h => Bool.noConfusion h⟩
    · simp only [hpass, Bool.false_eq_true, if_false] at hb ⊢
      have hnf : no_filters cfg = false := by
        rcases Bool.eq_false_or_eq_true (message_filter_matching cfg (record_text w)) with hm | hm
        · rw [hm, Bool.true_and] at hpass
          exact no_filters_false_of_process cfg _ _ _ (by simpa using hpass)
        · exact no_filters_false_of_message cfg _ hm
      obtain ⟨a1, a2, a3⟩ := legacy_record_of_brk cfg s1 _ _ _ _ _ hnf hb
      rw [a1, a2, a3]
      exact ⟨rfl, fun _ => rfl⟩
  by_cases c1 : (decide (cfg.untrigger_filters.length > 0) && s1.triggered) = true
  · simp only [c1, if_true] at hblock ⊢
    have ht : s1.triggered = true := by
      simp only [Bool.and_eq_true] at c1; exact c1.2
    obtain ⟨k1, k2⟩ := key _ _ _ hblock
    refine ⟨?_, k2⟩
    rw [k1, ht]
    by_cases hpass : (message_filter_matching cfg (record_text w)
        && process_filter_passes cfg (record_pid w) (record_name w) (record_name w).length) = true
    · simp only [hpass, if_true]
      cases cfg.untrigger_filters.any (fun f => strstr (record_text w) f) <;> rfl
    · simp only [hpass, Bool.false_eq_true, if_false]
  · simp only [c1, Bool.false_eq_true, if_false] at hblock ⊢
    by_cases c2 : (decide (cfg.trigger_filters.length > 0) && !s1.triggered) = true
    · simp only [c2, if_true] at hblock ⊢
      have ht : s1.triggered = false := by
        simp only [Bool.and_eq_true, Bool.not_eq_true'] at c2; exact c2.2
      have hnf : no_filters cfg = false :=
        no_filters_false_of_trigger cfg (by
          simp only [Bool.and_eq_true, decide_eq_true_eq] at c2; exact c2.1)
      cases hf : cfg.trigger_filters.any (fun f => strstr (record_text w) f)
      · simp only [hf, Bool.not_false, if_true, Bool.false_eq_true, if_false] at hblock ⊢
        obtain ⟨a1, a2, a3⟩ := legacy_record_of_brk cfg s1 _ _ _ _ _ hnf hblock
        rw [a1, a2, a3, ht]
        exact ⟨rfl, fun _ => rfl⟩
      · simp only [hf, Bool.not_true, Bool.false_eq_true, if_false, if_true] at hblock ⊢
        obtain ⟨k1, k2⟩ := key _ _ _ hblock
        refine ⟨?_, k2⟩
        rw [k1]
        by_cases hpass : (message_filter_matching cfg (record_text w)
            && process_filter_passes cfg (record_pid w) (record_name w)
              (record_name w).length) = true
        · simp only [hpass, if_true, Bool.false_eq_true, if_false]
        · simp only [hpass, Bool.false_eq_true, if_false]
    · simp only [c2, Bool.false_eq_true, if_false] at hblock ⊢
      by_cases c3 : (cfg.trigger_filters.length == 0
          && decide (cfg.untrigger_filters.length > 0) && !s1.triggered) = true
      · simp only [c3, if_true] at hblock ⊢
        have ht : s1.triggered = false := by
          simp only [Bool.and_eq_true, Bool.not_eq_true'] at c3; exact c3.2
        have hnf : no_filters cfg = false :=
          no_filters_false_of_untrigger cfg (by
            simp only [Bool.and_eq_true, decide_eq_true_eq] at c3; exact c3.1.2)
        obtain ⟨a1, a2, a3⟩ := legacy_record_of_brk cfg s1 _ _ _ _ _ hnf hblock
        rw [a1, a2, a3, ht]
        exact ⟨rfl, fun _ => rfl⟩
      · simp only [c3, Bool.false_eq_true, if_false] at hblock ⊢
        obtain ⟨k1, k2⟩ := key _ _ _ hblock
        refine ⟨?_, k2⟩
        rw [k1]
        by_cases hpass : (message_filter_matching cfg (record_text w)
            && process_filter_passes cfg (record_pid w) (record_name w)
              (record_name w).length) = true
        · simp only [hpass, if_true, Bool.false_eq_true, if_false]
        · simp only [hpass, Bool.false_eq_true, if_false]

/-! ## Theorems: the decision procedure of the trace parser -/

theorem trace_emit_some (hdr : ostrace_packet_header_t) (pns : List Nat)
    (ins : Option (List Nat)) (msg : List Nat) :
    ∃ out, trace_emit hdr pns ins (some msg) = some out ∧ printed out = true := by
  refine ⟨_, rfl, ?_⟩
  apply printed_of_written_ne
  simp only [written, List.cons_append, List.nil_append]
  have hb : bytes " " = [32] := by decide
  rw [hb]
  simp

theorem trace_filters_eq (cfg : Config) (st : Session) (hdr : ostrace_packet_header_t)
    (process_name : List Nat) (image_name : Option (List Nat)) (msg : List Nat)
    (toff trig : Bool) :
    trace_filters cfg st hdr process_name image_name (some msg) toff trig
      = if message_filter_matching cfg msg
            && process_filter_passes cfg (toInt32 hdr.pid)
                (trace_process_name_short process_name)
                (trace_process_name_short process_name).length
        then
          match trace_emit hdr (trace_process_name_short process_name)
              (trace_image_name_short process_name image_name) (some msg) with
          | none => none
          | some out =>
            some ({ st with triggered := if toff then false else trig }, out)
        else some ({ st with triggered := trig }, []) := by
  unfold trace_filters trace_message_filter_matching process_filter_passes
  cases hm : message_filter_matching cfg msg
  · simp only [hm, Bool.false_and, Bool.false_eq_true, if_false]
  · by_cases hpf : process_filter_matching cfg (toInt32 hdr.pid)
        (trace_process_name_short process_name)
        (trace_process_name_short process_name).length = true
    · simp only [hm, hpf, if_true, Bool.not_true, Bool.false_eq_true, if_false, Bool.and_self]
    · by_cases hfl : (decide (cfg.pid_filters.length > 0)
          || decide (cfg.proc_filters.length > 0)) = true
      · simp only [hm, hpf, hfl, if_true, Bool.not_false, Bool.and_false, Bool.false_eq_true,
          if_false, Bool.true_and]
      · simp only [hm, hpf, hfl, Bool.false_eq_true, if_false, Bool.not_true, Bool.and_self,
          if_true]

/-- The filters and the emission of the trace parser on a packet with a message. -/
theorem trace_filters_decision (cfg : Config) (st : Session) (hdr : ostrace_packet_header_t)
    (process_name : List Nat) (image_name : Option (List Nat)) (msg : List Nat)
    (toff trig : Bool) :
    ∃ r, trace_filters cfg st hdr process_name image_name (some msg) toff trig = some r
      ∧ (printed r.2, r.1.triggered, r.1.quit_flag)
          = (if message_filter_matching cfg msg
                && process_filter_passes cfg (toInt32 hdr.pid)
                    (trace_process_name_short process_name)
                    (trace_process_name_short process_name).length
             then (true, (if toff then false else trig), st.quit_flag)
             else (false, trig, st.quit_flag))
      ∧ (printed r.2 = false → r.2 = []) := by
  rw [trace_filters_eq]
  obtain ⟨out, ho, hp⟩ := trace_emit_some hdr (trace_process_name_short process_name)
    (trace_image_name_short process_name image_name) msg
  by_cases hpass : (message_filter_matching cfg msg
      && process_filter_passes cfg (toInt32 hdr.pid)
          (trace_process_name_short process_name)
          (trace_process_name_short process_name).length) = true
  · simp only [hpass, if_true, ho]
    exact ⟨_, rfl, by simp [hp], fun h => by simp [hp] at h⟩
  · simp only [hpass, Bool.false_eq_true, if_false]
    exact ⟨_, rfl, by simp [printed_nil], fun _ => rfl⟩

/-- The trace parser on a packet of at least 0x81 bytes that carries a message computes
the decision procedure on the message, the header's pid and the process short name; a
packet that is not printed produces no output at all. -/
theorem trace_decision (cfg : Config) (st : Session) (hdr : ostrace_packet_header_t)
    (buf : List Nat) (len : Nat) (hlen : 129 ≤ len) (hmsg : 0 < hdr.message_len) :
    ∃ r, ostrace_syslog_callback cfg st hdr buf len = some r
      ∧ (printed r.2, r.1.triggered, r.1.quit_flag)
          = decision cfg st.triggered st.quit_flag
              (cstr buf (hdr.header_size + hdr.procpath_len + hdr.imagepath_len))
              (toInt32 hdr.pid)
              (trace_process_name_short (cstr buf hdr.header_size))
      ∧ (printed r.2 = false → r.2 = []) := by
  have hl : ¬ len < 129 := by omega
  unfold ostrace_syslog_callback decision
  simp only [hl, if_false, hmsg, gt_iff_lt, if_true, trace_any_strstr]
  by_cases c1 : (decide (0 < cfg.untrigger_filters.length) && st.triggered) = true
  · simp only [c1, if_true]
    have ht : st.triggered = true := by
      simp only [Bool.and_eq_true] at c1; exact c1.2
    obtain ⟨r, hr, h1, h2⟩ := trace_filters_decision cfg st hdr (cstr buf hdr.header_size)
      (if 0 < hdr.imagepath_len then
        some (cstr buf (hdr.header_size + hdr.procpath_len)) else none)
      (cstr buf (hdr.header_size + hdr.procpath_len + hdr.imagepath_len))
      (cfg.untrigger_filters.any (fun f =>
        strstr (cstr buf (hdr.header_size + hdr.procpath_len + hdr.imagepath_len)) f))
      st.triggered
    refine ⟨r, hr, ?_, h2⟩
    rw [h1, ht]
    by_cases hpass : (message_filter_matching cfg
          (cstr buf (hdr.header_size + hdr.procpath_len + hdr.imagepath_len))
        && process_filter_passes cfg (toInt32 hdr.pid)
          (trace_process_name_short (cstr buf hdr.header_size))
          (trace_process_name_short (cstr buf hdr.header_size)).length) = true
    · simp only [hpass, if_true]
      cases cfg.untrigger_filters.any (fun f =>
        strstr (cstr buf (hdr.header_size + hdr.procpath_len + hdr.imagepath_len)) f) <;> rfl
    · simp only [hpass, Bool.false_eq_true, if_false]
  · simp only [c1, Bool.false_eq_true, if_false]
    by_cases c2 : (decide (0 < cfg.trigger_filters.length) && !st.triggered) = true
    · simp only [c2, if_true]
      have ht : st.triggered = false := by
        simp only [Bool.and_eq_true, Bool.not_eq_true'] at c2; exact c2.2
      cases hf : cfg.trigger_filters.any (fun f =>
          strstr (cstr buf (hdr.header_size + hdr.procpath_len + hdr.imagepath_len)) f)
      · simp only [Bool.false_eq_true, if_false]
        exact ⟨_, rfl, by simp [printed_nil, ht], fun _ => rfl⟩
      · simp only [if_true]
        obtain ⟨r, hr, h1, h2⟩ := trace_filters_decision cfg st hdr (cstr buf hdr.header_size)
          (if 0 < hdr.imagepath_len then
            some (cstr buf (hdr.header_size + hdr.procpath_len)) else none)
          (cstr buf (hdr.header_size + hdr.procpath_len + hdr.imagepath_len)) false true
        refine ⟨r, hr, ?_, h2⟩
        rw [h1]
        by_cases hpass : (message_filter_matching cfg
              (cstr buf (hdr.header_size + hdr.procpath_len + hdr.imagepath_len))
            && process_filter_passes cfg (toInt32 hdr.pid)
              (trace_process_name_short (cstr buf hdr.header_size))
              (trace_process_name_short (cstr buf hdr.header_size)).length) = true
        · simp only [hpass, if_true, Bool.false_eq_true, if_false]
        · simp only [hpass, Bool.false_eq_true, if_false]
    · simp only [c2, Bool.false_eq_true, if_false]
      by_cases c3 : (cfg.trigger_filters.length == 0
          && decide (0 < cfg.untrigger_filters.length) && !st.triggered) = true
      · simp only [c3, if_true]
        have ht : st.triggered = false := by
          simp only [Bool.and_eq_true, Bool.not_eq_true'] at c3; exact c3.2
        exact ⟨_, rfl, by simp [printed_nil, ht], fun _ => rfl⟩
      · simp only [c3, Bool.false_eq_true, if_false]
        obtain ⟨r, hr, h1, h2⟩ := trace_filters_decision cfg st hdr (cstr buf hdr.header_size)
          (if 0 < hdr.imagepath_len then
            some (cstr buf (hdr.header_size + hdr.procpath_len)) else none)
          (cstr buf (hdr.header_size + hdr.procpath_len + hdr.imagepath_len)) false
          st.triggered
        refine ⟨r, hr, ?_, h2⟩
        rw [h1]
        by_cases hpass : (message_filter_matching cfg
              (cstr buf (hdr.header_size + hdr.procpath_len + hdr.imagepath_len))
            && process_filter_passes cfg (toInt32 hdr.pid)
              (trace_process_name_short (cstr buf hdr.header_size))
              (trace_process_name_short (cstr buf hdr.header_size)).length) = true
        · simp only [hpass, if_true, Bool.false_eq_true, if_false]
        · simp only [hpass, Bool.false_eq_true, if_false]

/-! ## Theorems: untrigger without trigger, buffering, short packets -/

/-- C11. With at least one untrigger and no trigger configured and the state DISARMED,
every well-formed legacy record and every trace packet of at least 0x81 bytes is
suppressed (nothing is written for it), the quit flag is raised by one, and the state
stays DISARMED, whatever the text is. -/
theorem untrigger_only_disarmed_quits (cfg : Config) (heap : Nat → Nat) (s : Session)
    (w : List Nat) (st : Session) (hdr : ostrace_packet_header_t) (buf : List Nat) (len : Nat)
    (hT : cfg.trigger_filters = []) (hU : cfg.untrigger_filters ≠ [])
    (hs : s.inv) (hlp : s.lp = 0) (ht : s.triggered = false) (hwf : well_formed w = true)
    (hst : st.triggered = false) (hlen : 129 ≤ len) :
    ((feed cfg heap s (w ++ [0])).2 = []
      ∧ (feed cfg heap s (w ++ [0])).1.quit_flag = s.quit_flag + 1
      ∧ (feed cfg heap s (w ++ [0])).1.triggered = false)
    ∧ ostrace_syslog_callback cfg st hdr buf len
        = some ({ st with quit_flag := st.quit_flag + 1 }, []) := by
  have hUl : cfg.untrigger_filters.length > 0 := List.length_pos.2 hU
  constructor
  · obtain ⟨d1, d2⟩ := legacy_decision cfg heap s w hs hlp hwf
    have hd : decision cfg s.triggered s.quit_flag (record_text w) (record_pid w)
        (record_name w) = (false, false, s.quit_flag + 1) := by
      unfold decision
      simp [ht, hT, hUl]
    rw [hd] at d1
    simp only [Prod.mk.injEq] at d1
    exact ⟨d2 d1.1, d1.2.2, d1.2.1⟩
  · have hl : ¬ len < 129 := by omega
    unfold ostrace_syslog_callback
    simp [hl, hst, hT, hUl]

set_option maxRecDepth 100000 in
/-- Witness for C11: under `-T STOP`, in the disarmed state, the record
`Jan  1 00:00:00 iPhone kernel[0] <Notice>: boot ok` and the trace packet with the same
text are suppressed and raise the quit flag from 0 to 1. -/
theorem untrigger_only_disarmed_quits_witness :
    (cfg_untrigger_only.trigger_filters = [] ∧ cfg_untrigger_only.untrigger_filters ≠ []
      ∧ well_formed (bytes "Jan  1 00:00:00 iPhone kernel[0] <Notice>: boot ok") = true)
    ∧ ((feed cfg_untrigger_only heap_55 session_disarmed
          (bytes "Jan  1 00:00:00 iPhone kernel[0] <Notice>: boot ok" ++ [0])).2 = []
      ∧ (feed cfg_untrigger_only heap_55 session_disarmed
          (bytes "Jan  1 00:00:00 iPhone kernel[0] <Notice>: boot ok" ++ [0])).1.quit_flag
          = 0 + 1
      ∧ (feed cfg_untrigger_only heap_55 session_disarmed
          (bytes "Jan  1 00:00:00 iPhone kernel[0] <Notice>: boot ok" ++ [0])).1.triggered
          = false)
    ∧ ostrace_syslog_callback cfg_untrigger_only session_disarmed hdr_kernel packet_kernel 165
        = some ({ session_disarmed with quit_flag := 0 + 1 }, []) :=
  ⟨⟨by decide, by decide, by decide⟩,
   untrigger_only_disarmed_quits cfg_untrigger_only heap_55 session_disarmed
     (bytes "Jan  1 00:00:00 iPhone kernel[0] <Notice>: boot ok") session_disarmed hdr_kernel
     packet_kernel 165 (by decide) (by decide) (by unfold Session.inv; decide) rfl rfl
     (by decide) rfl (by decide)⟩

/-- C12. For every sequence `w` of non-NUL bytes, of any length, fed byte by byte from a
session whose cursor is at 0: no output is produced while the bytes are buffered, the
cursor counts them and the buffer holds exactly `w` before the cursor (growth keeps
every byte already buffered); the NUL then runs the record processing on a buffer
that holds `w`, the NUL at index `w.length`, and the cursor value `w.length`; and after
the record has been processed the cursor is 0 again. -/
theorem record_buffering (cfg : Config) (heap : Nat → Nat) (s : Session) (w : List Nat)
    (hs : s.inv) (hlp : s.lp = 0) (hw : 0 ∉ w) :
    ((feed cfg heap s w).2 = []
      ∧ (feed cfg heap s w).1.lp = w.length
      ∧ (feed cfg heap s w).1.line.take w.length = w
      ∧ (feed cfg heap s w).1.line.length = (feed cfg heap s w).1.line_buffer_size
      ∧ w.length < (feed cfg heap s w).1.line_buffer_size)
    ∧ (∃ (s1 : Session) (junk : List Nat),
        feed cfg heap s (w ++ [0]) = legacy_record cfg s1 (w ++ 0 :: junk) w.length
        ∧ s1.triggered = s.triggered ∧ s1.quit_flag = s.quit_flag)
    ∧ (feed cfg heap s (w ++ [0])).1.lp = 0 := by
  obtain ⟨b1, b2, b3, b4, _, _⟩ := feed_nonzero cfg heap w s hw hs
  obtain ⟨s1, junk, e1, e2, e3, e4⟩ := feed_record cfg heap s w hs hlp hw
  rw [hlp] at b3 b4
  simp only [Nat.zero_add, List.take_zero, List.nil_append] at b3 b4
  refine ⟨⟨b1, b3, b4, b2.1, ?_⟩, ⟨s1, junk, e1, e2, e3⟩, ?_⟩
  · have := b2.2
    rw [b3] at this
    exact this
  · rw [e1]
    exact (legacy_record_inv cfg s1 _ _ e4 (by simp)).2

theorem replicate_no_nul (n a : Nat) (ha : a ≠ 0) : 0 ∉ List.replicate n a := by
  intro h
  exact ha (List.mem_replicate.1 h).2.symm

/-- Witness for C12: a record of 2500 bytes `A`, which makes the 1024-byte buffer grow. -/
theorem record_buffering_witness :
    (Session.inv (Session.initial Config.initial heap_55)
      ∧ 0 ∉ List.replicate 2500 65 ∧ 1024 < (List.replicate 2500 65).length)
    ∧ (feed Config.initial heap_55 (Session.initial Config.initial heap_55)
        (List.replicate 2500 65)).1.line.take (List.replicate 2500 65).length
        = List.replicate 2500 65
    ∧ (feed Config.initial heap_55 (Session.initial Config.initial heap_55)
        (List.replicate 2500 65 ++ [0])).1.lp = 0 :=
  ⟨⟨(Session.initial_inv _ _).1, replicate_no_nul 2500 65 (by decide),
      by rw [List.length_replicate]; decide⟩,
   (record_buffering Config.initial heap_55 (Session.initial Config.initial heap_55)
      (List.replicate 2500 65) (Session.initial_inv _ _).1 rfl
      (replicate_no_nul 2500 65 (by decide))).1.2.2.1,
   (record_buffering Config.initial heap_55 (Session.initial Config.initial heap_55)
      (List.replicate 2500 65) (Session.initial_inv _ _).1 rfl
      (replicate_no_nul 2500 65 (by decide))).2.2⟩

/-- C15. A trace buffer shorter than 0x81 bytes is skipped: nothing is written, and the
session, with its trigger state and quit flag, is returned unchanged. -/
theorem short_packet_skipped (cfg : Config) (st : Session) (hdr : ostrace_packet_header_t)
    (buf : List Nat) (len : Nat) (hlen : len < 129) :
    ostrace_syslog_callback cfg st hdr buf len = some (st, []) := by
  unfold ostrace_syslog_callback
  simp [hlen]

/-- Witness for C15: a packet of 128 bytes under `-T STOP` in the disarmed state, where
a packet of 129 bytes would raise the quit flag. -/
theorem short_packet_skipped_witness :
    128 < 129
    ∧ ostrace_syslog_callback cfg_untrigger_only session_disarmed hdr_kernel packet_kernel 128
        = some (session_disarmed, []) :=
  ⟨by decide, short_packet_skipped cfg_untrigger_only session_disarmed hdr_kernel
    packet_kernel 128 (by decide)⟩

/-! ## Theorems: the level of a trace packet -/

/-- C14. For every value of the level byte the label and colour that
`ostrace_syslog_callback` writes are those of the table: 0 Notice/green, 1 Info/white,
2 Debug/magenta, 0x10 Error/red, 0x11 Fault/red, any other value Unknown/yellow; they
appear in the output as the colour followed by `<`, the label and `>:`. -/
theorem trace_level_table (hdr : ostrace_packet_header_t) (pns : List Nat)
    (ins : Option (List Nat)) (msg : List Nat) :
    trace_level hdr.level = level_of_table hdr.level
    ∧ ∃ pre post, trace_emit hdr pns ins (some msg)
        = some (pre ++ [Out.color (level_of_table hdr.level).2, Out.write (bytes "<"),
            Out.write (level_of_table hdr.level).1, Out.write (bytes ">:")] ++ post) := by
  have h : trace_level hdr.level = level_of_table hdr.level := by
    unfold trace_level level_of_table level_table_trace
    by_cases h0 : hdr.level = 0
    · rw [h0]; rfl
    · by_cases h1 : hdr.level = 1
      · rw [h1]; rfl
      · by_cases h2 : hdr.level = 2
        · rw [h2]; rfl
        · by_cases h16 : hdr.level = 16
          · rw [h16]; rfl
          · by_cases h17 : hdr.level = 17
            · rw [h17]; rfl
            · have b0 : (hdr.level == 0) = false := by simp [h0]
              have b1 : (hdr.level == 1) = false := by simp [h1]
              have b2 : (hdr.level == 2) = false := by simp [h2]
              have b16 : (hdr.level == 16) = false := by simp [h16]
              have b17 : (hdr.level == 17) = false := by simp [h17]
              simp only [h0, h1, h2, h16, h17, if_false, List.lookup, b0, b1, b2, b16, b17,
                Option.getD_none]
  refine ⟨h, ?_⟩
  rw [← h]
  refine ⟨[Out.color Color.FG_LIGHT_GRAY, Out.date hdr.time_sec hdr.time_usec,
      Out.write (bytes " "), Out.color Color.FG_BRIGHT_CYAN, Out.write pns,
      Out.color Color.FG_CYAN]
      ++ (match ins with
          | some im => [Out.write (bytes "("), Out.write im, Out.write (bytes ")")]
          | none => [])
      ++ [Out.write (bytes "["), Out.decimal (toInt32 hdr.pid), Out.write (bytes "]"),
          Out.color Color.COLOR_RESET, Out.write (bytes " ")],
    [Out.color Color.COLOR_RESET, Out.write (bytes " "), Out.color Color.FG_WHITE,
      Out.write msg, Out.color Color.COLOR_RESET, Out.write [10]], ?_⟩
  unfold trace_emit
  cases ins <;> simp

/-- The level table at each of its entries and at a byte outside it. -/
theorem level_of_table_values :
    level_of_table 0 = (bytes "Notice", Color.FG_GREEN)
    ∧ level_of_table 1 = (bytes "Info", Color.FG_WHITE)
    ∧ level_of_table 2 = (bytes "Debug", Color.FG_MAGENTA)
    ∧ level_of_table 16 = (bytes "Error", Color.FG_RED)
    ∧ level_of_table 17 = (bytes "Fault", Color.FG_RED)
    ∧ level_of_table 3 = (bytes "Unknown", Color.FG_YELLOW) := by
  refine ⟨rfl, rfl, rfl, rfl, rfl, rfl⟩

/-! ## Theorems: the quit flag -/

theorem legacy_fields_quit (cfg : Config) (line : List Nat) (lp : Nat) (toff trig : Bool)
    (q q2 dns dne p : Nat) :
    legacy_fields cfg line lp toff trig q2 dns dne p
      = { legacy_fields cfg line lp toff trig q dns dne p with quit_flag := q2 } := by
  unfold legacy_fields
  simp only []
  split_ifs <;> rfl

theorem legacy_block_quit (cfg : Config) (t : Bool) (q q2 : Nat) (line : List Nat) (lp : Nat) :
    legacy_block cfg t q2 line lp
      = { legacy_block cfg t q line lp with
          quit_flag := (legacy_block cfg t q line lp).quit_flag + q2 - q } := by
  unfold legacy_block
  simp only []
  split_ifs
  all_goals first
    | (simp only [Block.brk, Nat.add_sub_cancel_left]; done)
    | (simp only [Block.brk]; congr 1; omega)
    | (rw [legacy_fields_quit cfg line lp _ _ q q2]
       rw [(legacy_fields_state cfg line lp _ _ q _ _ _).2.2, Nat.add_sub_cancel_left])

theorem legacy_record_quit (cfg : Config) (s1 : Session) (q : Nat) (line : List Nat) (lp : Nat) :
    (legacy_record cfg { s1 with quit_flag := q } line lp).2 = (legacy_record cfg s1 line lp).2
    ∧ (legacy_record cfg { s1 with quit_flag := q } line lp).1.triggered
        = (legacy_record cfg s1 line lp).1.triggered
    ∧ (legacy_record cfg { s1 with quit_flag := q } line lp).1.lp
        = (legacy_record cfg s1 line lp).1.lp
    ∧ (legacy_record cfg { s1 with quit_flag := q } line lp).1.line
        = (legacy_record cfg s1 line lp).1.line := by
  unfold legacy_record
  simp only []
  rw [legacy_block_quit cfg s1.triggered s1.quit_flag q line lp]
  by_cases h : (no_filters cfg
      || (legacy_block cfg s1.triggered s1.quit_flag line lp).shall_print) = true
  · simp only [h, if_true, and_self]
  · simp only [h, Bool.false_eq_true, if_false, and_self]

theorem trace_filters_quit (cfg : Config) (st : Session) (q : Nat)
    (hdr : ostrace_packet_header_t) (process_name : List Nat)
    (image_name message : Option (List Nat)) (toff trig : Bool) :
    (trace_filters cfg { st with quit_flag := q } hdr process_name image_name message toff
        trig).map (fun r => (r.2, r.1.triggered))
      = (trace_filters cfg st hdr process_name image_name message toff trig).map
          (fun r => (r.2, r.1.triggered)) := by
  unfold trace_filters
  cases trace_message_filter_matching cfg message with
  | none => rfl
  | some b =>
    cases b with
    | false => rfl
    | true =>
      simp only []
      split_ifs
      all_goals first
        | rfl
        | (cases trace_emit hdr (trace_process_name_short process_name)
            (trace_image_name_short process_name image_name) message <;> rfl)

set_option maxRecDepth 100000 in
/-- C16, counterexample. With the quit flag already set, the record `short` fed to
`syslog_callback` and a trace packet given to `ostrace_syslog_callback` are still
written. -/
theorem quit_flag_counterexample :
    (feed Config.initial heap_55 ⟨false, 1, fresh heap_55 0 1024, 1024, 0⟩
        (bytes "short" ++ [0])).2
      = [Out.color Color.FG_WHITE, Out.write (bytes "short"), Out.color Color.COLOR_RESET]
    ∧ (ostrace_syslog_callback Config.initial ⟨false, 1, [], 0, 0⟩ hdr_kernel packet_kernel
        165).map (fun r => written r.2)
      = some (bytes " kernel(/kernel)[] <Notice>: kernel[0] <Notice>: boot ok\n") := by
  refine ⟨by decide, by decide⟩

/-- C16, amended. The two parsers never read the quit flag: for every session, input
and value of the flag, what `syslog_callback` writes and the trigger state, cursor and
buffer it leaves, and what `ostrace_syslog_callback` writes and the trigger state it
leaves, are the same as with any other value of the flag.  (Input stops when the
`while (!quit_flag)` loop of `main` ends and calls `stop_logging`.) -/
theorem callbacks_ignore_quit_flag (cfg : Config) (heap : Nat → Nat) (s : Session) (c q : Nat)
    (st : Session) (hdr : ostrace_packet_header_t) (buf : List Nat) (len : Nat) :
    ((syslog_callback cfg heap { s with quit_flag := q } c).2 = (syslog_callback cfg heap s c).2
      ∧ (syslog_callback cfg heap { s with quit_flag := q } c).1.triggered
          = (syslog_callback cfg heap s c).1.triggered
      ∧ (syslog_callback cfg heap { s with quit_flag := q } c).1.lp
          = (syslog_callback cfg heap s c).1.lp
      ∧ (syslog_callback cfg heap { s with quit_flag := q } c).1.line
          = (syslog_callback cfg heap s c).1.line)
    ∧ (ostrace_syslog_callback cfg { st with quit_flag := q } hdr buf len).map
          (fun r => (r.2, r.1.triggered))
        = (ostrace_syslog_callback cfg st hdr buf len).map (fun r => (r.2, r.1.triggered)) := by
  constructor
  · unfold syslog_callback
    by_cases hc : (c == 0) = true
    · by_cases hg : s.lp + 1 ≥ s.line_buffer_size
      · simp only [hg, if_true, hc]
        exact legacy_record_quit cfg
          { s with line_buffer_size := s.line_buffer_size + 1024,
                   line := s.line ++ fresh heap s.line.length 1024 } q _ _
      · simp only [hg, if_false, hc, if_true]
        exact legacy_record_quit cfg s q _ _
    · by_cases hg : s.lp + 1 ≥ s.line_buffer_size
      · simp only [hg, if_true, hc, Bool.false_eq_true, if_false, and_self]
      · simp only [hg, if_false, hc, Bool.false_eq_true, and_self]
  · unfold ostrace_syslog_callback
    simp only []
    generalize (if hdr.message_len > 0 then
        some (cstr buf (hdr.header_size + hdr.procpath_len + hdr.imagepath_len))
      else none) = message
    split_ifs
    all_goals first
      | rfl
      | exact trace_filters_quit cfg st q hdr _ _ _ _ _
      | (cases trace_any_strstr message cfg.untrigger_filters with
         | none => rfl
         | some found => exact trace_filters_quit cfg st q hdr _ _ _ _ _)
      | (cases trace_any_strstr message cfg.trigger_filters with
         | none => rfl
         | some found =>
           cases found with
           | false => rfl
           | true => exact trace_filters_quit cfg st q hdr _ _ _ _ _)

/-! ## Theorems: the disarm transition -/

set_option maxRecDepth 100000 in
/-- C17, counterexample. Under `-T STOP -M now` the session starts ARMED; the record
`record_stop`, whose text contains the untrigger `STOP`, is suppressed by the message
filter, and the state after it is still ARMED. -/
theorem disarm_counterexample :
    (Session.initial cfg_untrigger_exclude heap_55).triggered = true
    ∧ cfg_untrigger_exclude.untrigger_filters.any (fun f => strstr (record_text record_stop) f)
        = true
    ∧ (feed cfg_untrigger_exclude heap_55 (Session.initial cfg_untrigger_exclude heap_55)
        (record_stop ++ [0])).2 = []
    ∧ (feed cfg_untrigger_exclude heap_55 (Session.initial cfg_untrigger_exclude heap_55)
        (record_stop ++ [0])).1.triggered = true := by
  refine ⟨by decide, by decide, by decide, by decide⟩

/-- C17, amended. For every well-formed legacy record evaluated in state ARMED with
untriggers configured whose text contains an untrigger string: the record is printed
exactly when it passes the message filters and the process filters, the state after the
record is DISARMED exactly when the record was printed (a suppressed record leaves the
state ARMED), and a suppressed record writes nothing. -/
theorem disarm_only_when_emitted (cfg : Config) (heap : Nat → Nat) (s : Session) (w : List Nat)
    (hs : s.inv) (hlp : s.lp = 0) (hwf : well_formed w = true)
    (hU : cfg.untrigger_filters ≠ []) (ht : s.triggered = true)
    (hfound : ∃ f ∈ cfg.untrigger_filters, f <:+: record_text w) :
    printed (feed cfg heap s (w ++ [0])).2
        = (message_filter_matching cfg (record_text w)
            && process_filter_passes cfg (record_pid w) (record_name w) (record_name w).length)
    ∧ (feed cfg heap s (w ++ [0])).1.triggered = !(printed (feed cfg heap s (w ++ [0])).2)
    ∧ (printed (feed cfg heap s (w ++ [0])).2 = false → (feed cfg heap s (w ++ [0])).2 = []) := by
  have hUl : cfg.untrigger_filters.length > 0 := List.length_pos.2 hU
  have hany := (any_strstr_iff cfg.untrigger_filters (record_text w)).2 hfound
  obtain ⟨d1, d2⟩ := legacy_decision cfg heap s w hs hlp hwf
  refine ⟨?_, ?_, d2⟩
  · have h1 := congrArg Prod.fst d1
    simp only [] at h1
    rw [h1]
    unfold decision
    cases hp : (message_filter_matching cfg (record_text w)
        && process_filter_passes cfg (record_pid w) (record_name w) (record_name w).length)
    all_goals simp [ht, hUl, hp]
  · have h1 := congrArg Prod.fst d1
    have h2 := congrArg (fun t => t.2.1) d1
    simp only [] at h1 h2
    rw [h1, h2]
    unfold decision
    cases hp : (message_filter_matching cfg (record_text w)
        && process_filter_passes cfg (record_pid w) (record_name w) (record_name w).length)
    all_goals simp [ht, hUl, hp, hany]

set_option maxRecDepth 100000 in
/-- Witness for C17: under `-T STOP` the record `record_stop` is printed and the state
after it is DISARMED. -/
theorem disarm_only_when_emitted_witness :
    (well_formed record_stop = true ∧ cfg_untrigger_only.untrigger_filters ≠ []
      ∧ (Session.initial cfg_untrigger_only heap_55).triggered = true
      ∧ ∃ f ∈ cfg_untrigger_only.untrigger_filters, f <:+: record_text record_stop)
    ∧ printed (feed cfg_untrigger_only heap_55 (Session.initial cfg_untrigger_only heap_55)
        (record_stop ++ [0])).2 = true
    ∧ (feed cfg_untrigger_only heap_55 (Session.initial cfg_untrigger_only heap_55)
        (record_stop ++ [0])).1.triggered = false := by
  have hf : ∃ f ∈ cfg_untrigger_only.untrigger_filters, f <:+: record_text record_stop :=
    (any_strstr_iff _ _).1 (by decide)
  have h := disarm_only_when_emitted cfg_untrigger_only heap_55
    (Session.initial cfg_untrigger_only heap_55) record_stop
    (Session.initial_inv cfg_untrigger_only heap_55).1
    (Session.initial_inv cfg_untrigger_only heap_55).2 (by decide) (by decide) (by decide) hf
  have hp : (message_filter_matching cfg_untrigger_only (record_text record_stop)
      && process_filter_passes cfg_untrigger_only (record_pid record_stop)
          (record_name record_stop) (record_name record_stop).length) = true := by decide
  refine ⟨⟨by decide, by decide, by decide, hf⟩, h.1.trans hp, ?_⟩
  rw [h.2.1, h.1, hp]
  rfl

/-! ## Theorems: short names of trace packets -/

theorem strrchr_loop_append (c : Nat) (l : List Nat) :
    ∀ (i : Nat) (last : Option Nat) (x : Nat),
      strrchr_loop c (l ++ [x]) i last
        = if x == c then some (i + l.length) else strrchr_loop c l i last := by
  induction l with
  | nil => intro i last x; simp [strrchr_loop]
  | cons a t ih =>
    intro i last x
    have h1 : (a :: t) ++ [x] = a :: (t ++ [x]) := rfl
    rw [h1]
    simp only [strrchr_loop, List.length_cons]
    rw [ih]
    have : i + 1 + t.length = i + (t.length + 1) := by omega
    rw [this]

/-- The process short name computed with `strrchr` is the final component of the
process path. -/
theorem trace_process_name_short_eq (path : List Nat) :
    trace_process_name_short path = short_name path := by
  unfold trace_process_name_short strrchr short_name
  induction path using List.reverseRecOn with
  | nil => simp [strrchr_loop]
  | append_singleton l x ih =>
    rw [strrchr_loop_append]
    by_cases hx : x = 47
    · subst hx
      simp
    · have hb : (x == 47) = false := by simp [hx]
      have hb2 : (x != 47) = true := by simp [hx]
      have hrev : (l ++ [x]).reverse = x :: l.reverse := by simp
      rw [hrev]
      simp only [hb, Bool.false_eq_true, if_false, List.takeWhile_cons, hb2, if_true,
        List.reverse_cons]
      rw [← ih]
      cases hr : strrchr_loop 47 l 0 none with
      | none => rfl
      | some i =>
        simp only []
        have hi : i + 1 ≤ l.length := by
          have key : ∀ (m : List Nat) (j : Nat) (last : Option Nat) (k : Nat),
              strrchr_loop 47 m j last = some k →
                (last = some k ∨ (j ≤ k ∧ k < j + m.length)) := by
            intro m
            induction m with
            | nil => intro j last k h; left; simpa [strrchr_loop] using h
            | cons a t iht =>
              intro j last k h
              simp only [strrchr_loop] at h
              rcases iht _ _ _ h with h1 | h1
              · by_cases ha : (a == 47) = true
                · simp only [ha, if_true, Option.some.injEq] at h1
                  right; simp only [List.length_cons]; omega
                · simp only [ha, Bool.false_eq_true, if_false] at h1
                  left; exact h1
              · right; simp only [List.length_cons]; omega
          rcases key l 0 none i hr with h1 | h1
          · exact Option.noConfusion h1
          · omega
        rw [List.drop_append_of_le_length hi]

set_option maxRecDepth 100000 in
/-- C18, failing input. For the packet with process path `/bin/proc` and image path
`libfoo` (no `/`), the process short name is `proc` and the final component of the
image path is `libfoo`, which differs from it; the image short name computed by
`ostrace_syslog_callback` is the process path `/bin/proc`, and the record is written
with `(/bin/proc)` where the image name `(libfoo)` belongs. -/
theorem image_short_name_falls_back_to_process_path :
    trace_process_name_short (bytes "/bin/proc") = bytes "proc"
    ∧ short_name (bytes "libfoo") = bytes "libfoo"
    ∧ short_name (bytes "libfoo") ≠ short_name (bytes "/bin/proc")
    ∧ trace_image_name_short (bytes "/bin/proc") (some (bytes "libfoo"))
        = some (bytes "/bin/proc")
    ∧ (ostrace_syslog_callback Config.initial trace_session hdr_image packet_image 149).map
          (fun r => written r.2)
        = some (bytes " proc(/bin/proc)[] <Notice>: hi\n") := by
  refine ⟨by decide, by decide, by decide, by decide, by decide⟩

/-! ## Theorems: the two parsers apply the same decision procedure -/

/-- The decision procedure changes the quit flag by an amount that does not depend on
its value, and reads it for nothing else. -/
theorem decision_quit (cfg : Config) (t : Bool) (q : Nat) (text : List Nat) (pid : Int)
    (name : List Nat) :
    decision cfg t q text pid name
      = ((decision cfg t 0 text pid name).1, (decision cfg t 0 text pid name).2.1,
          q + (decision cfg t 0 text pid name).2.2) := by
  unfold decision
  split_ifs <;> simp

/-- C19. For every configuration, a trace packet of at least 0x81 bytes that carries a
message and a well-formed legacy record with the same matched text, pid and process
name, evaluated in the same trigger state, get the same verdict (printed or
suppressed), the same resulting trigger state and the same change of the quit flag from
`ostrace_syslog_callback` and from `syslog_callback`; the common value is that of the
decision procedure `decision`: trigger/untrigger evaluation, then message filters, then
process filters. -/
theorem parsers_same_decision (cfg : Config) (heap : Nat → Nat) (s : Session) (w : List Nat)
    (st : Session) (hdr : ostrace_packet_header_t) (buf : List Nat) (len : Nat)
    (hs : s.inv) (hlp : s.lp = 0) (hwf : well_formed w = true)
    (hlen : 129 ≤ len) (hmsg : 0 < hdr.message_len)
    (hstate : st.triggered = s.triggered)
    (htext : cstr buf (hdr.header_size + hdr.procpath_len + hdr.imagepath_len) = record_text w)
    (hpid : toInt32 hdr.pid = record_pid w)
    (hname : trace_process_name_short (cstr buf hdr.header_size) = record_name w) :
    ∃ r, ostrace_syslog_callback cfg st hdr buf len = some r
      ∧ printed r.2 = printed (feed cfg heap s (w ++ [0])).2
      ∧ r.1.triggered = (feed cfg heap s (w ++ [0])).1.triggered
      ∧ r.1.quit_flag + s.quit_flag = (feed cfg heap s (w ++ [0])).1.quit_flag + st.quit_flag
      ∧ (printed r.2, r.1.triggered, r.1.quit_flag)
          = decision cfg st.triggered st.quit_flag (record_text w) (record_pid w)
              (record_name w) := by
  obtain ⟨d1, _⟩ := legacy_decision cfg heap s w hs hlp hwf
  obtain ⟨r, hr, t1, _⟩ := trace_decision cfg st hdr buf len hlen hmsg
  rw [htext, hpid, hname] at t1
  refine ⟨r, hr, ?_, ?_, ?_, t1⟩
  · have a1 := congrArg Prod.fst d1
    have a2 := congrArg Prod.fst t1
    simp only [] at a1 a2
    rw [a1, a2, hstate, decision_quit cfg s.triggered st.quit_flag,
      decision_quit cfg s.triggered s.quit_flag]
  · have a1 := congrArg (fun x => x.2.1) d1
    have a2 := congrArg (fun x => x.2.1) t1
    simp only [] at a1 a2
    rw [a1, a2, hstate, decision_quit cfg s.triggered st.quit_flag,
      decision_quit cfg s.triggered s.quit_flag]
  · have a1 := congrArg (fun x => x.2.2) d1
    have a2 := congrArg (fun x => x.2.2) t1
    simp only [] at a1 a2
    rw [a1, a2, hstate, decision_quit cfg s.triggered st.quit_flag,
      decision_quit cfg s.triggered s.quit_flag]
    simp only []
    omega

set_option maxRecDepth 100000 in
/-- Witness for C19: under `-T STOP`, in the armed state, the record
`Jan  1 00:00:00 iPhone kernel[0] <Notice>: boot ok` and the trace packet of process
`/kernel`, pid 0, with the same text are both printed and leave the state armed and
the quit flag unchanged. -/
theorem parsers_same_decision_witness :
    (well_formed (bytes "Jan  1 00:00:00 iPhone kernel[0] <Notice>: boot ok") = true
      ∧ 129 ≤ 165 ∧ 0 < hdr_kernel.message_len
      ∧ cstr packet_kernel
          (hdr_kernel.header_size + hdr_kernel.procpath_len + hdr_kernel.imagepath_len)
          = record_text (bytes "Jan  1 00:00:00 iPhone kernel[0] <Notice>: boot ok")
      ∧ toInt32 hdr_kernel.pid
          = record_pid (bytes "Jan  1 00:00:00 iPhone kernel[0] <Notice>: boot ok")
      ∧ trace_process_name_short (cstr packet_kernel hdr_kernel.header_size)
          = record_name (bytes "Jan  1 00:00:00 iPhone kernel[0] <Notice>: boot ok"))
    ∧ ∃ r, ostrace_syslog_callback cfg_untrigger_only trace_session hdr_kernel packet_kernel 165
          = some r
      ∧ printed r.2 = printed (feed cfg_untrigger_only heap_55
          (Session.initial cfg_untrigger_only heap_55)
          (bytes "Jan  1 00:00:00 iPhone kernel[0] <Notice>: boot ok" ++ [0])).2
      ∧ r.1.triggered = (feed cfg_untrigger_only heap_55
          (Session.initial cfg_untrigger_only heap_55)
          (bytes "Jan  1 00:00:00 iPhone kernel[0] <Notice>: boot ok" ++ [0])).1.triggered
      ∧ r.1.quit_flag + (Session.initial cfg_untrigger_only heap_55).quit_flag
          = (feed cfg_untrigger_only heap_55 (Session.initial cfg_untrigger_only heap_55)
              (bytes "Jan  1 00:00:00 iPhone kernel[0] <Notice>: boot ok" ++ [0])).1.quit_flag
            + trace_session.quit_flag
      ∧ (printed r.2, r.1.triggered, r.1.quit_flag)
          = decision cfg_untrigger_only trace_session.triggered trace_session.quit_flag
              (record_text (bytes "Jan  1 00:00:00 iPhone kernel[0] <Notice>: boot ok"))
              (record_pid (bytes "Jan  1 00:00:00 iPhone kernel[0] <Notice>: boot ok"))
              (record_name (bytes "Jan  1 00:00:00 iPhone kernel[0] <Notice>: boot ok")) :=
  ⟨⟨by decide, by decide, by decide, by decide, by decide, by decide⟩,
   parsers_same_decision cfg_untrigger_only heap_55 (Session.initial cfg_untrigger_only heap_55)
     (bytes "Jan  1 00:00:00 iPhone kernel[0] <Notice>: boot ok") trace_session hdr_kernel
     packet_kernel 165 (Session.initial_inv cfg_untrigger_only heap_55).1
     (Session.initial_inv cfg_untrigger_only heap_55).2 (by decide) (by decide) (by decide)
     (by decide) (by decide) (by decide) (by decide)⟩

/-! ## Theorems: the level token of a legacy record -/

theorem strncmp_eq_zero_iff (tok t : List Nat) (h0 : 0 ∉ tok) :
    strncmp t tok tok.length = 0 ↔ tok <+: t := by
  induction tok generalizing t with
  | nil => simp [strncmp]
  | cons b tok ih =>
    have hb : b ≠ 0 := fun h => h0 (by simp [h])
    have ht : 0 ∉ tok := fun h => h0 (List.mem_cons_of_mem _ h)
    cases t with
    | nil =>
      simp only [List.length_cons, strncmp]
      constructor
      · intro h; omega
      · intro h; simp at h
    | cons a t =>
      simp only [List.length_cons, strncmp]
      by_cases hab : a = b
      · subst hab
        simp only [if_true, ih t ht]
        constructor
        · intro h; exact (List.prefix_cons_inj a).2 h
        · intro h; exact (List.prefix_cons_inj a).1 h
      · simp only [hab, if_false]
        constructor
        · intro h; omega
        · intro h
          obtain ⟨r, hr⟩ := h
          simp only [List.cons_append, List.cons.injEq] at hr
          exact absurd hr.1.symm hab

theorem strncmp_beq_isPrefixOf (tok t : List Nat) (h0 : 0 ∉ tok) :
    (strncmp t tok tok.length == 0) = tok.isPrefixOf t := by
  by_cases h : tok <+: t
  · have h1 := (strncmp_eq_zero_iff tok t h0).2 h
    have h2 : tok.isPrefixOf t = true := List.isPrefixOf_iff_prefix.2 h
    rw [h1, h2]; rfl
  · have h1 : strncmp t tok tok.length ≠ 0 := fun e => h ((strncmp_eq_zero_iff tok t h0).1 e)
    have h2 : tok.isPrefixOf t = false := by
      cases hp : tok.isPrefixOf t with
      | false => rfl
      | true => exact absurd (List.isPrefixOf_iff_prefix.1 hp) h
    rw [h2]
    simpa using h1

/-- The level stage of the emission: the token recognised at `p`, its colour, and the
start of the message, in terms of `level_token` of the C string at `p`. -/
theorem legacy_emit_level_token (cfg : Config) (line : List Nat) (lp : Nat) (toff trig : Bool)
    (q a b c d e p : Nat) (pid : Int) :
    (legacy_emit cfg line lp toff trig q a b c d e p pid).parsed
        = some ⟨a, b, c, d, e, pid, p, p + (level_token (cstr line p)).1.length,
            (level_token (cstr line p)).2⟩
    ∧ (legacy_emit cfg line lp toff trig q a b c d e p pid).linep
        = p + (level_token (cstr line p)).1.length
    ∧ (legacy_emit cfg line lp toff trig q a b c d e p pid).lp
        = lp - (p + (level_token (cstr line p)).1.length) := by
  have e1 := strncmp_beq_isPrefixOf (bytes "<Notice>:") (cstr line p) (by decide)
  have e2 := strncmp_beq_isPrefixOf (bytes "<Error>:") (cstr line p) (by decide)
  have e3 := strncmp_beq_isPrefixOf (bytes "<Warning>:") (cstr line p) (by decide)
  have e4 := strncmp_beq_isPrefixOf (bytes "<Debug>:") (cstr line p) (by decide)
  have l1 : (bytes "<Notice>:").length = 9 := by decide
  have l2 : (bytes "<Error>:").length = 8 := by decide
  have l3 : (bytes "<Warning>:").length = 10 := by decide
  have l4 : (bytes "<Debug>:").length = 8 := by decide
  rw [l1] at e1; rw [l2] at e2; rw [l3] at e3; rw [l4] at e4
  unfold legacy_emit level_token level_tokens
  simp only [e1, e2, e3, e4, List.find?]
  cases (bytes "<Notice>:").isPrefixOf (cstr line p) <;>
    cases (bytes "<Error>:").isPrefixOf (cstr line p) <;>
    cases (bytes "<Warning>:").isPrefixOf (cstr line p) <;>
    cases (bytes "<Debug>:").isPrefixOf (cstr line p) <;>
    simp [l1, l2, l3, l4]

theorem level_token_prefix (t : List Nat) : (level_token t).1 <+: t := by
  unfold level_token
  cases h : level_tokens.find? (fun tc => tc.1.isPrefixOf t) with
  | none => exact List.nil_prefix
  | some tc =>
    have := List.find?_some h
    exact List.isPrefixOf_iff_prefix.1 this

theorem level_token_of_prefix (t : List Nat) (tc : List Nat × Color) (h : tc ∈ level_tokens)
    (hp : tc.1 <+: t) : level_token t = tc := by
  obtain ⟨t1, t2, t3, t4⟩ := level_token_bytes
  obtain ⟨rest, hr⟩ := hp
  subst hr
  unfold level_tokens at h
  rw [t1, t2, t3, t4] at h
  unfold level_token level_tokens
  rw [t1, t2, t3, t4]
  simp only [List.mem_cons, List.mem_singleton, List.not_mem_nil, or_false] at h
  rcases h with h | h | h | h <;> subst h <;> simp [List.find?, List.isPrefixOf]

theorem level_token_of_none (t : List Nat) (h : ∀ tc ∈ level_tokens, ¬ tc.1 <+: t) :
    level_token t = ([], Color.FG_WHITE) := by
  unfold level_token
  have : level_tokens.find? (fun tc => tc.1.isPrefixOf t) = none := by
    rw [List.find?_eq_none]
    intro tc htc hp
    exact h tc htc (List.isPrefixOf_iff_prefix.1 hp)
  rw [this]

/-- The position after the `"] "` of a well-formed record lies in the record, and the
record's tail starts there. -/
theorem record_tail_drop (w : List Nat) (hwf : well_formed w = true) :
    record_rbr w + 1 + 1 ≤ w.length ∧ w.drop (record_rbr w + 1 + 1) = record_tail w := by
  obtain ⟨hw, h16, h3, h6, h15, hsp⟩ := well_formed_head w hwf
  obtain ⟨h91, h93, h32⟩ := well_formed_scans w hwf
  obtain ⟨hb1, hb2⟩ := device_name_bounds w hsp
  have hd : w.drop (record_rbr w + 1 + 1) = record_tail w := by
    unfold record_tail record_rbr record_dne
    rw [← drop_indexOf_succ 93, ← drop_indexOf_succ 91, ← hb2]
    simp only [List.drop_drop]
    congr 1
  refine ⟨?_, hd⟩
  have hne : after_first 93 (after_first 91 (record_text w)) ≠ [] := by
    intro h; rw [h] at h32; simp at h32
  have hlen : 0 < (after_first 93 (after_first 91 (record_text w))).length :=
    List.length_pos.2 hne
  have hd2 : w.drop (record_rbr w + 1) = after_first 93 (after_first 91 (record_text w)) := by
    unfold record_rbr record_dne
    rw [← drop_indexOf_succ 93, ← drop_indexOf_succ 91, ← hb2]
    simp only [List.drop_drop]
    congr 1
  rw [← hd2, List.length_drop] at hlen
  omega

/-- C20. In a well-formed legacy record that passes the trigger evaluation and the
filters, let `record_tail w` be the text right after the `"] "` that ends the
process/pid prefix.  The level token the parser writes is `level_token` of that text,
the colour it sets is the colour of that token, and the message it writes is the text
after the token: when the text starts with one of `<Notice>:`, `<Error>:`,
`<Warning>:`, `<Debug>:` the token is that one with its colour green, red, yellow or
magenta and the message starts right after it; when it starts with none of them the
token is empty, the colour is white and the message is the whole text. -/
theorem legacy_level_token (cfg : Config) (t : Bool) (q : Nat) (w junk : List Nat)
    (hwf : well_formed w = true)
    (htr : trigger_passes cfg t (record_text w) = true)
    (hm : message_filter_matching cfg (record_text w) = true)
    (hp : process_filter_passes cfg (record_pid w) (record_name w) (record_name w).length
      = true) :
    ((legacy_block cfg t q (w ++ 0 :: junk) w.length).fields (w ++ 0 :: junk)).map
        (fun f => (f.level, f.message))
      = some ((level_token (record_tail w)).1,
          (record_tail w).drop (level_token (record_tail w)).1.length)
    ∧ (legacy_block cfg t q (w ++ 0 :: junk) w.length).parsed.map (fun f => f.level_color)
      = some (level_token (record_tail w)).2
    ∧ (legacy_block cfg t q (w ++ 0 :: junk) w.length).parsed.map
        (fun f => cstr (w ++ 0 :: junk) f.level_start) = some (record_tail w)
    ∧ (∀ tc ∈ level_tokens, tc.1 <+: record_tail w → level_token (record_tail w) = tc)
    ∧ ((∀ tc ∈ level_tokens, ¬ tc.1 <+: record_tail w) →
        level_token (record_tail w) = ([], Color.FG_WHITE)) := by
  obtain ⟨hw, h16, h3, h6, h15, hsp⟩ := well_formed_head w hwf
  obtain ⟨hq1, hq2⟩ := record_tail_drop w hwf
  obtain ⟨toff, trig, hb⟩ := legacy_block_passes cfg t q w junk hw h16 h3 h6 h15 hsp htr
  have hdne : 16 + (w.drop 16).indexOf 32 = record_dne w := rfl
  rw [hdne, legacy_fields_well_formed cfg w junk _ _ _ hwf] at hb
  simp only [hm, hp, Bool.and_self, if_true] at hb
  have hc : cstr (w ++ 0 :: junk) (record_rbr w + 1 + 1) = record_tail w := by
    rw [cstr_record w junk _ hw hq1, hq2]
  obtain ⟨g1, g2, g3⟩ := legacy_emit_level_token cfg (w ++ 0 :: junk) w.length toff trig q 16
    (record_dne w) (record_dne w + 1) (record_dne w + 1 + (record_name w).length)
    (record_rbr w + 1) (record_rbr w + 1 + 1) (record_pid w)
  rw [hc] at g1 g2 g3
  obtain ⟨rest, hrest⟩ := level_token_prefix (record_tail w)
  have hlen : (record_tail w).length = w.length - (record_rbr w + 1 + 1) := by
    rw [← hq2, List.length_drop]
  have hlen2 : (record_tail w).length = (level_token (record_tail w)).1.length + rest.length := by
    conv_lhs => rw [← hrest]
    rw [List.length_append]
  have hsplit : w ++ 0 :: junk
      = w.take (record_rbr w + 1 + 1)
        ++ ((level_token (record_tail w)).1 ++ (rest ++ 0 :: junk)) := by
    rw [← List.append_assoc (level_token (record_tail w)).1, hrest, ← hq2,
      ← List.append_assoc, List.take_append_drop]
  have htk : (w.take (record_rbr w + 1 + 1)).length = record_rbr w + 1 + 1 := by
    rw [List.length_take]; omega
  have hdrop : (record_tail w).drop (level_token (record_tail w)).1.length = rest := by
    have h1 : (record_tail w).drop (level_token (record_tail w)).1.length
        = ((level_token (record_tail w)).1 ++ rest).drop (level_token (record_tail w)).1.length := by
      rw [hrest]
    rw [h1]
    exact List.drop_left _ _
  refine ⟨?_, ?_, ?_, level_token_of_prefix (record_tail w), level_token_of_none (record_tail w)⟩
  · unfold Block.fields
    rw [hb, g1]
    simp only [Option.map_some', Option.some.injEq, Prod.mk.injEq]
    rw [g2, g3, hdrop]
    constructor
    · exact slice_eq_of_append _ _ _ _ _ _ hsplit htk.symm (by omega)
    · have hsplit2 : w ++ 0 :: junk
          = (w.take (record_rbr w + 1 + 1) ++ (level_token (record_tail w)).1)
            ++ (rest ++ 0 :: junk) := by
        rw [hsplit, List.append_assoc]
      refine slice_eq_of_append _ _ _ _ _ _ hsplit2 ?_ ?_
      · rw [List.length_append, htk]
      · omega
  · rw [hb, g1]; rfl
  · rw [hb, g1]
    simp only [Option.map_some', hc]

set_option maxRecDepth 100000 in
/-- Witness for C20: in `record_notice` the token `<Notice>:` is recognised, coloured
green, and the message written is ` boot ok`; in `record_plain`, whose tail starts with
`<notice>:`, no token is recognised, the colour is white and the message written is the
whole tail. -/
theorem legacy_level_token_witness :
    (well_formed record_notice = true ∧ well_formed record_plain = true)
    ∧ (((legacy_block Config.initial false 0 (record_notice ++ 0 :: []) record_notice.length).fields
          (record_notice ++ 0 :: [])).map (fun f => (f.level, f.message))
        = some (bytes "<Notice>:", bytes " boot ok")
      ∧ (legacy_block Config.initial false 0 (record_notice ++ 0 :: [])
          record_notice.length).parsed.map (fun f => f.level_color) = some Color.FG_GREEN)
    ∧ (((legacy_block Config.initial false 0 (record_plain ++ 0 :: []) record_plain.length).fields
          (record_plain ++ 0 :: [])).map (fun f => (f.level, f.message))
        = some ([], bytes "<notice>: boot ok")
      ∧ (legacy_block Config.initial false 0 (record_plain ++ 0 :: [])
          record_plain.length).parsed.map (fun f => f.level_color) = some Color.FG_WHITE) :=
  ⟨⟨by decide, by decide⟩,
   ⟨(legacy_level_token Config.initial false 0 record_notice [] (by decide) (by decide)
      (by decide) (by decide)).1.trans (by decide),
    (legacy_level_token Config.initial false 0 record_notice [] (by decide) (by decide)
      (by decide) (by decide)).2.1.trans (by decide)⟩,
   ⟨(legacy_level_token Config.initial false 0 record_plain [] (by decide) (by decide)
      (by decide) (by decide)).1.trans (by decide),
    (legacy_level_token Config.initial false 0 record_plain [] (by decide) (by decide)
      (by decide) (by decide)).2.1.trans (by decide)⟩⟩

/-! ## Theorems: the sorted pid list -/

theorem sortedlist_insert_eq (pidval : Int) (l : List Int) :
    sortedlist_insert pidval l = l.orderedInsert (fun a b => a ≤ b) pidval := by
  induction l with
  | nil => rfl
  | cons c t ih =>
    simp only [sortedlist_insert, List.orderedInsert]
    by_cases h : pidval > c
    · have h2 : ¬ pidval ≤ c := by omega
      simp only [h, if_true, h2, if_false, ih]
    · have h2 : pidval ≤ c := by omega
      simp only [h, if_false, h2, if_true]

/-- The sorted list built from the keys is ascending and holds exactly the pids of the
keys. -/
theorem sortedlist_fold (list : List (List Nat × pid_node)) :
    ∀ acc : List Int, acc.Sorted (fun a b => a ≤ b) →
      (list.foldl (fun sortedlist item =>
          sortedlist_insert (toInt32 (strtol item.1).1) sortedlist) acc).Sorted (fun a b => a ≤ b)
      ∧ (list.foldl (fun sortedlist item =>
          sortedlist_insert (toInt32 (strtol item.1).1) sortedlist) acc).Perm
          ((list.map (fun item => toInt32 (strtol item.1).1)).reverse ++ acc) := by
  induction list with
  | nil => intro acc h; exact ⟨h, by simp⟩
  | cons e t ih =>
    intro acc h
    simp only [List.foldl_cons, List.map_cons, List.reverse_cons, List.append_assoc,
      List.singleton_append]
    have hs : (sortedlist_insert (toInt32 (strtol e.1).1) acc).Sorted (fun a b => a ≤ b) := by
      rw [sortedlist_insert_eq]
      exact h.orderedInsert _ _
    obtain ⟨i1, i2⟩ := ih _ hs
    refine ⟨i1, i2.trans ?_⟩
    apply List.Perm.append_left
    rw [sortedlist_insert_eq]
    exact List.perm_orderedInsert _ _ _

theorem printed_pids_append (a b : List Out) :
    printed_pids (a ++ b) = printed_pids a ++ printed_pids b := by
  induction a with
  | nil => rfl
  | cons x t ih => cases x <;> simp [printed_pids, ih]

/-- The pids printed by the print loop are a sublist of the list it walks. -/
theorem printed_pids_sublist (list : List (List Nat × pid_node)) (sl : List Int) :
    (printed_pids (print_sorted_pidlist_loop list sl)).Sublist sl := by
  induction sl with
  | nil => exact List.Sublist.slnil
  | cons v t ih =>
    simp only [print_sorted_pidlist_loop, printed_pids_append]
    cases plist_dict_get_item list (snprintf_d v) with
    | none => exact ih.cons v
    | some node =>
      cases node with
      | other => exact ih.cons v
      | dict pn =>
        cases pn with
        | none => exact ih.cons v
        | some name => exact ih.cons₂ v

/-- C13. For every pid dictionary whose keys denote pairwise distinct pids, the pids
printed by `print_sorted_pidlist`, in print order, are strictly ascending and contain
no duplicate; each of them is the pid of a key. -/
theorem pidlist_strictly_ascending (list : List (List Nat × pid_node))
    (hmap : (list.map (fun item => toInt32 (strtol item.1).1)).Nodup) :
    (printed_pids (print_sorted_pidlist list)).Pairwise (fun a b => a < b)
    ∧ (printed_pids (print_sorted_pidlist list)).Nodup
    ∧ ∀ pid ∈ printed_pids (print_sorted_pidlist list),
        pid ∈ list.map (fun item => toInt32 (strtol item.1).1) := by
  obtain ⟨h1, h2⟩ := sortedlist_fold list [] List.sorted_nil
  rw [List.append_nil] at h2
  have hnd : (list.foldl (fun sortedlist item =>
      sortedlist_insert (toInt32 (strtol item.1).1) sortedlist) []).Nodup :=
    h2.nodup_iff.2 (List.nodup_reverse.2 hmap)
  have hlt := h1.lt_of_le hnd
  have hsub := printed_pids_sublist list (list.foldl (fun sortedlist item =>
      sortedlist_insert (toInt32 (strtol item.1).1) sortedlist) [])
  refine ⟨?_, ?_, ?_⟩
  · exact List.Pairwise.sublist hsub hlt
  · exact hnd.sublist hsub
  · intro pid hp
    have := h2.subset (hsub.subset hp)
    exact List.mem_reverse.1 this

set_option maxRecDepth 100000 in
/-- Witness for C13: the dictionary `pidlist_sample`, reported in the order 10, 2, 7,
33, is printed as the two lines of pids 2 and 10. -/
theorem pidlist_strictly_ascending_witness :
    (pidlist_sample.map (fun item => toInt32 (strtol item.1).1)).Nodup
    ∧ printed_pids (print_sorted_pidlist pidlist_sample) = [2, 10]
    ∧ written (print_sorted_pidlist pidlist_sample) = bytes " kernel_task\n launchd\n"
    ∧ (printed_pids (print_sorted_pidlist pidlist_sample)).Pairwise (fun a b => a < b) :=
  ⟨by decide, by decide, by decide,
   (pidlist_strictly_ascending pidlist_sample (by decide)).1⟩

/-! ## Theorems: the two axes of the process filter -/

/-- C21. `process_filter_matching` returns 1 exactly when the pid list is non-empty and
membership of the pid in it differs from the excluding flag, or the process-name list
is non-empty and "the name matches some (non-null) filter" differs from the excluding
flag.  Hence, with the excluding flag set and both lists non-empty, it returns 0 only
when the pid is in the pid list and the name also matches a name filter. -/
theorem process_filter_matching_iff (cfg : Config) (pid : Int) (process_name : List Nat)
    (n : Nat) :
    (process_filter_matching cfg pid process_name n = true ↔
      ((cfg.pid_filters ≠ [] ∧ (pid ∈ cfg.pid_filters ↔ cfg.proc_filter_excluding = false))
        ∨ (cfg.proc_filters ≠ []
            ∧ ((∃ f, some f ∈ cfg.proc_filters ∧ strncmp f process_name n = 0)
                ↔ cfg.proc_filter_excluding = false))))
    ∧ (cfg.proc_filter_excluding = true → cfg.pid_filters ≠ [] → cfg.proc_filters ≠ [] →
        (process_filter_matching cfg pid process_name n = false ↔
          (pid ∈ cfg.pid_filters
            ∧ ∃ f, some f ∈ cfg.proc_filters ∧ strncmp f process_name n = 0))) := by
  have hP : cfg.pid_filters.any (fun f => pid == f) = true ↔ pid ∈ cfg.pid_filters := by
    simp [List.any_eq_true]
  have hN : cfg.proc_filters.any (fun f =>
        match f with
        | none => false
        | some s => strncmp s process_name n == 0) = true
      ↔ ∃ f, some f ∈ cfg.proc_filters ∧ strncmp f process_name n = 0 := by
    rw [List.any_eq_true]
    constructor
    · rintro ⟨x, hx, hm⟩
      cases x with
      | none => exact absurd hm (by simp)
      | some s => exact ⟨s, hx, by simpa using hm⟩
    · rintro ⟨f, hf, hm⟩
      exact ⟨some f, hf, by simpa using hm⟩
  have hPl : cfg.pid_filters.length > 0 ↔ cfg.pid_filters ≠ [] := List.length_pos
  have hNl : cfg.proc_filters.length > 0 ↔ cfg.proc_filters ≠ [] := List.length_pos
  have main : process_filter_matching cfg pid process_name n = true ↔
      ((cfg.pid_filters ≠ [] ∧ (pid ∈ cfg.pid_filters ↔ cfg.proc_filter_excluding = false))
        ∨ (cfg.proc_filters ≠ []
            ∧ ((∃ f, some f ∈ cfg.proc_filters ∧ strncmp f process_name n = 0)
                ↔ cfg.proc_filter_excluding = false))) := by
    have hdef : process_filter_matching cfg pid process_name n
        = (if decide (cfg.proc_filters.length > 0)
              && !(if cfg.pid_filters.length > 0 then
                    (if cfg.pid_filters.any (fun f => pid == f) then !cfg.proc_filter_excluding
                      else cfg.proc_filter_excluding)
                  else false) then
            (if (if cfg.proc_filters.any (fun f =>
                      match f with
                      | none => false
                      | some s => strncmp s process_name n == 0)
                  then !cfg.proc_filter_excluding else cfg.proc_filter_excluding) then true
              else (if cfg.pid_filters.length > 0 then
                    (if cfg.pid_filters.any (fun f => pid == f) then !cfg.proc_filter_excluding
                      else cfg.proc_filter_excluding)
                  else false))
          else (if cfg.pid_filters.length > 0 then
                  (if cfg.pid_filters.any (fun f => pid == f) then !cfg.proc_filter_excluding
                    else cfg.proc_filter_excluding)
                else false)) := rfl
    rw [hdef, ← hP, ← hN, ← hPl, ← hNl]
    generalize cfg.pid_filters.any (fun f => pid == f) = a
    generalize cfg.proc_filters.any (fun f =>
        match f with
        | none => false
        | some s => strncmp s process_name n == 0) = b
    generalize cfg.pid_filters.length = lp
    generalize cfg.proc_filters.length = ln
    generalize cfg.proc_filter_excluding = e
    by_cases h1 : lp > 0 <;> by_cases h2 : ln > 0 <;>
      cases a <;> cases b <;> cases e <;> simp [h1, h2]
  refine ⟨main, ?_⟩
  intro he hp hn
  rw [← Bool.not_eq_true, main]
  by_cases hpid : pid ∈ cfg.pid_filters <;>
    by_cases hm : (∃ f, some f ∈ cfg.proc_filters ∧ strncmp f process_name n = 0) <;>
    simp only [he, hp, hn, hpid, hm, ne_eq, not_false_eq_true, true_and, Bool.true_eq_false,
      iff_false, not_true_eq_false, or_self, and_self, and_false, false_and, iff_true,
      or_false, or_true, not_false_eq_true]

set_option maxRecDepth 100000 in
/-- Witness for C21: under `-e 10 -K` (excluding flag, pid filter 10, name filter
`kernel`) the process `kernel` is rejected with pid 10 and accepted with pid 0. -/
theorem process_filter_matching_iff_witness :
    (cfg_exclude_pid_and_kernel.proc_filter_excluding = true
      ∧ cfg_exclude_pid_and_kernel.pid_filters ≠ []
      ∧ cfg_exclude_pid_and_kernel.proc_filters ≠ [])
    ∧ process_filter_matching cfg_exclude_pid_and_kernel 10 (bytes "kernel") 6 = false
    ∧ process_filter_matching cfg_exclude_pid_and_kernel 0 (bytes "kernel") 6 = true
    ∧ (process_filter_matching cfg_exclude_pid_and_kernel 10 (bytes "kernel") 6 = false ↔
        ((10 : Int) ∈ cfg_exclude_pid_and_kernel.pid_filters
          ∧ ∃ f, some f ∈ cfg_exclude_pid_and_kernel.proc_filters
              ∧ strncmp f (bytes "kernel") 6 = 0)) :=
  ⟨⟨by decide, by decide, by decide⟩, by decide, by decide,
   (process_filter_matching_iff cfg_exclude_pid_and_kernel 10 (bytes "kernel") 6).2
     (by decide) (by decide) (by decide)⟩

/-! ## Theorems: how a name span matches a name filter -/

theorem strncmp_span_iff (f name : List Nat) (n : Nat) (hn : n ≤ name.length)
    (h0 : 0 ∉ name.take n) :
    strncmp f name n = 0 ↔ (n ≤ f.length ∧ f.take n = name.take n) := by
  induction n generalizing f name with
  | zero => simp [strncmp]
  | succ k ih =>
    cases name with
    | nil => simp at hn
    | cons b t =>
      have hb : b ≠ 0 := fun h => h0 (by simp [h])
      have ht : 0 ∉ t.take k := fun h => h0 (by simp [List.take_succ_cons, h])
      have hk : k ≤ t.length := by simpa using hn
      cases f with
      | nil =>
        simp only [strncmp, List.length_nil, List.take_nil]
        constructor
        · intro h; omega
        · intro h; omega
      | cons a s =>
        simp only [strncmp, List.length_cons, List.take_succ_cons, List.cons.injEq]
        by_cases hab : a = b
        · simp only [hab, if_true, true_and, ih s t hk ht]
          constructor
          · intro h; exact ⟨by omega, h.2⟩
          · intro h; exact ⟨by omega, h.2⟩
        · simp only [hab, if_false, false_and, and_false, iff_false]
          intro h; omega

/-- C22. A process-name span of length `n` without NUL (the first `n` bytes of the C
string at `process_name`) matches a filter `f`, that is `strncmp(f, process_name, n)`
is 0, exactly when `f` has at least `n` bytes and its first `n` bytes equal the span;
`process_filter_matching` with the single filter `f` returns 1 in exactly that case.
So a filter shorter than the span does not match, a span that is a prefix of the
filter matches, and the empty span matches every filter. -/
theorem name_span_matches_filter (f name : List Nat) (n : Nat) (pid : Int)
    (hn : n ≤ name.length) (h0 : 0 ∉ name.take n) :
    (strncmp f name n = 0 ↔ (n ≤ f.length ∧ f.take n = name.take n))
    ∧ (process_filter_matching (cfg_single_name f) pid name n = true
        ↔ (n ≤ f.length ∧ f.take n = name.take n))
    ∧ (f.length < n → strncmp f name n ≠ 0)
    ∧ (name.take n <+: f → strncmp f name n = 0)
    ∧ (n = 0 → strncmp f name n = 0) := by
  have h := strncmp_span_iff f name n hn h0
  refine ⟨h, ?_, ?_, ?_, ?_⟩
  · rw [← h]
    unfold process_filter_matching cfg_single_name Config.initial
    simp
  · intro hlt hz
    have := (h.1 hz).1
    omega
  · intro hp
    apply h.2
    obtain ⟨r, hr⟩ := hp
    have hl : (name.take n).length = n := by rw [List.length_take]; omega
    constructor
    · rw [← hr, List.length_append, hl]; omega
    · rw [← hr, List.take_append_of_le_length (by omega), List.take_of_length_le (by omega)]
  · intro hz
    subst hz
    exact h.2 ⟨by omega, by simp⟩

set_option maxRecDepth 100000 in
/-- Witness for C22: the span `kern` of the name `kernel[0]` matches the filter
`kernel`, while the span `kernel` does not match the filter `kern`. -/
theorem name_span_matches_filter_witness :
    (4 ≤ (bytes "kernel[0]").length ∧ 0 ∉ (bytes "kernel[0]").take 4)
    ∧ process_filter_matching (cfg_single_name (bytes "kernel")) 0 (bytes "kernel[0]") 4 = true
    ∧ process_filter_matching (cfg_single_name (bytes "kern")) 0 (bytes "kernel[0]") 6 = false
    ∧ (strncmp (bytes "kernel") (bytes "kernel[0]") 4 = 0
        ↔ (4 ≤ (bytes "kernel").length ∧ (bytes "kernel").take 4 = (bytes "kernel[0]").take 4)) :=
  ⟨⟨by decide, by decide⟩, by decide, by decide,
   (name_span_matches_filter (bytes "kernel") (bytes "kernel[0]") 4 0 (by decide)
     (by decide)).1⟩

/-! ## Theorems: the bytes written for an accepted record -/

/-- The bytes written for a record that reaches the emission stage: the six spans
written by lines 334-370, the level span being `level_token` of the C string at `p`. -/
theorem legacy_emit_written (cfg : Config) (line : List Nat) (lp : Nat) (toff trig : Bool)
    (q a b c d e p : Nat) (pid : Int) :
    written ((legacy_emit cfg line lp toff trig q a b c d e p pid).out
        ++ [Out.write (slice line (legacy_emit cfg line lp toff trig q a b c d e p pid).linep
              (legacy_emit cfg line lp toff trig q a b c d e p pid).lp),
            Out.color Color.COLOR_RESET])
      = slice line 0 16
        ++ ((if cfg.show_device_name then slice line a (b - a + 1) else [])
        ++ (slice line c (d - c)
        ++ (slice line d (e - d + 1)
        ++ (slice line p (level_token (cstr line p)).1.length
        ++ slice line (p + (level_token (cstr line p)).1.length)
            (lp - (p + (level_token (cstr line p)).1.length)))))) := by
  obtain ⟨g1, g2, g3⟩ := legacy_emit_level_token cfg line lp toff trig q a b c d e p pid
  rw [g2, g3]
  unfold legacy_emit at g1 ⊢
  simp only [Option.some.injEq, Parsed.mk.injEq, true_and] at g1
  obtain ⟨h1, h2⟩ := g1
  simp only []
  rw [h1]
  generalize (level_token (cstr line p)).1.length = k
  have hs0 : slice line p 0 = [] := by simp [slice]
  cases hsd : cfg.show_device_name <;> by_cases hk : k = 0
  · subst hk
    simp [written, hs0]
  · have hk2 : p + k > p := by omega
    simp [written, hk2]
  · subst hk
    simp [written, hs0]
  · have hk2 : p + k > p := by omega
    simp [written, hk2]

theorem slice_in_record (w junk : List Nat) (a n : Nat) (h : a + n ≤ w.length) :
    slice (w ++ 0 :: junk) a n = (w.drop a).take n := by
  unfold slice
  rw [List.drop_append_of_le_length (by omega)]
  rw [List.take_append_of_le_length (by rw [List.length_drop]; omega)]

theorem take_drop_join (w : List Nat) (a b : Nat) (h : a ≤ b) :
    (w.drop a).take (b - a) ++ w.drop b = w.drop a := by
  have h1 : w.drop b = (w.drop a).drop (b - a) := by
    rw [List.drop_drop]
    congr 1
    omega
  rw [h1, List.take_append_drop]

/-- The six spans written for a record tile it: together they are the record, or the
record without the device-name span when the device name is not shown. -/
theorem spans_join (w junk : List Nat) (sd : Bool) (dne pne e k : Nat)
    (h1 : 16 ≤ dne) (h2 : dne + 1 ≤ pne) (h3 : pne ≤ e) (h5 : e + 1 + k ≤ w.length) :
    slice (w ++ 0 :: junk) 0 16
        ++ ((if sd then slice (w ++ 0 :: junk) 16 (dne - 16 + 1) else [])
        ++ (slice (w ++ 0 :: junk) (dne + 1) (pne - (dne + 1))
        ++ (slice (w ++ 0 :: junk) pne (e - pne + 1)
        ++ (slice (w ++ 0 :: junk) (e + 1) k
        ++ slice (w ++ 0 :: junk) (e + 1 + k) (w.length - (e + 1 + k))))))
      = if sd then w else w.take 16 ++ w.drop (dne + 1) := by
  rw [slice_in_record w junk 0 16 (by omega), slice_in_record w junk 16 _ (by omega),
    slice_in_record w junk (dne + 1) _ (by omega), slice_in_record w junk pne _ (by omega),
    slice_in_record w junk (e + 1) k (by omega),
    slice_in_record w junk (e + 1 + k) _ (by omega)]
  have j5 : (w.drop (e + 1 + k)).take (w.length - (e + 1 + k)) = w.drop (e + 1 + k) :=
    List.take_of_length_le (by rw [List.length_drop])
  have j4 := take_drop_join w (e + 1) (e + 1 + k) (by omega)
  have j3 := take_drop_join w pne (e + 1) (by omega)
  have j2 := take_drop_join w (dne + 1) pne (by omega)
  have j1 := take_drop_join w 16 (dne + 1) (by omega)
  have e4 : e + 1 + k - (e + 1) = k := by omega
  have e3 : e + 1 - pne = e - pne + 1 := by omega
  have e1 : dne + 1 - 16 = dne - 16 + 1 := by omega
  rw [e4] at j4
  rw [e3] at j3
  rw [e1] at j1
  rw [j5, j4, j3, j2, List.drop_zero]
  cases sd
  · simp
  · simp only [if_true]
    rw [j1, List.take_append_drop]

/-- The verdict of the decision procedure: the record is printed when it passes the
trigger evaluation, the message filters and the process filters. -/
theorem decision_fst (cfg : Config) (t : Bool) (q : Nat) (text : List Nat) (pid : Int)
    (name : List Nat) :
    (decision cfg t q text pid name).1
      = (trigger_passes cfg t text && (message_filter_matching cfg text
          && process_filter_passes cfg pid name name.length)) := by
  unfold decision trigger_passes
  generalize (message_filter_matching cfg text
    && process_filter_passes cfg pid name name.length) = m
  generalize cfg.trigger_filters.any (fun f => strstr text f) = a
  split_ifs <;> simp_all

/-- C23. For every well-formed legacy record that is accepted (something is written for
it), the bytes written, colours left out, are exactly the record when
`show_device_name` is on, and the record without its device name and the single space
that follows it when the option is off: the timestamp `w.take 16` followed by
`record_text w`, where `w` is the timestamp, the device name, a space and
`record_text w`.  Nothing else is dropped, added or reordered, no newline is added. -/
theorem accepted_record_bytes (cfg : Config) (heap : Nat → Nat) (s : Session) (w : List Nat)
    (hs : s.inv) (hlp : s.lp = 0) (hwf : well_formed w = true)
    (hacc : printed (feed cfg heap s (w ++ [0])).2 = true) :
    written (feed cfg heap s (w ++ [0])).2
        = (if cfg.show_device_name then w else w.take 16 ++ record_text w)
    ∧ w = w.take 16 ++ ((w.drop 16).takeWhile (fun b => b != 32) ++ 32 :: record_text w)
    ∧ 32 ∉ (w.drop 16).takeWhile (fun b => b != 32) := by
  obtain ⟨hw, h16, h3, h6, h15, hsp⟩ := well_formed_head w hwf
  obtain ⟨hq1, hq2⟩ := record_tail_drop w hwf
  obtain ⟨hb1, hb2⟩ := device_name_bounds w hsp
  obtain ⟨n1, n2⟩ := record_name_take w
  obtain ⟨d1, _⟩ := legacy_decision cfg heap s w hs hlp hwf
  have hdec := congrArg Prod.fst d1
  simp only [] at hdec
  rw [hacc, decision_fst] at hdec
  have hall := hdec.symm
  simp only [Bool.and_eq_true] at hall
  obtain ⟨htr, hm, hp⟩ := hall
  obtain ⟨s1, junk, e1, e2, e3, e4⟩ := feed_record cfg heap s w hs hlp hw
  rw [← e2] at htr
  obtain ⟨toff, trig, hb⟩ :=
    legacy_block_passes cfg s1.triggered s1.quit_flag w junk hw h16 h3 h6 h15 hsp htr
  have hdne : 16 + (w.drop 16).indexOf 32 = record_dne w := rfl
  rw [hdne, legacy_fields_well_formed cfg w junk _ _ _ hwf] at hb
  simp only [hm, hp, Bool.and_self, if_true] at hb
  have hc : cstr (w ++ 0 :: junk) (record_rbr w + 1 + 1) = record_tail w := by
    rw [cstr_record w junk _ hw hq1, hq2]
  have hout : (feed cfg heap s (w ++ [0])).2
      = (legacy_emit cfg (w ++ 0 :: junk) w.length toff trig s1.quit_flag 16 (record_dne w)
            (record_dne w + 1) (record_dne w + 1 + (record_name w).length)
            (record_rbr w + 1) (record_rbr w + 1 + 1) (record_pid w)).out
        ++ [Out.write (slice (w ++ 0 :: junk)
              (legacy_emit cfg (w ++ 0 :: junk) w.length toff trig s1.quit_flag 16
                (record_dne w) (record_dne w + 1) (record_dne w + 1 + (record_name w).length)
                (record_rbr w + 1) (record_rbr w + 1 + 1) (record_pid w)).linep
              (legacy_emit cfg (w ++ 0 :: junk) w.length toff trig s1.quit_flag 16
                (record_dne w) (record_dne w + 1) (record_dne w + 1 + (record_name w).length)
                (record_rbr w + 1) (record_rbr w + 1 + 1) (record_pid w)).lp),
            Out.color Color.COLOR_RESET] := by
    rw [e1]
    unfold legacy_record
    rw [hb]
    simp [legacy_emit]
  have hseg : w.drop 16 = (w.drop 16).takeWhile (fun b => b != 32) ++ 32 :: record_text w := by
    have ha := drop_indexOf_mem 32 (w.drop 16) hsp
    have hb3 := take_indexOf_eq_takeWhile 32 (w.drop 16)
    have := (List.take_append_drop ((w.drop 16).indexOf 32) (w.drop 16)).symm
    rw [ha, hb3] at this
    exact this
  refine ⟨?_, ?_, ?_⟩
  · rw [hout, legacy_emit_written, hc]
    obtain ⟨rest, hrest⟩ := level_token_prefix (record_tail w)
    have hk : (level_token (record_tail w)).1.length ≤ (record_tail w).length := by
      have := congrArg List.length hrest
      rw [List.length_append] at this
      omega
    have hlen : (record_tail w).length = w.length - (record_rbr w + 1 + 1) := by
      rw [← hq2, List.length_drop]
    have hnl : (record_name w).length ≤ (record_text w).indexOf 91 := by
      rw [n2]
      have a1 : ((record_text w).take ((record_text w).indexOf 91)).indexOf 40
          ≤ ((record_text w).take ((record_text w).indexOf 91)).length := List.indexOf_le_length
      have a2 : ((record_text w).take ((record_text w).indexOf 91)).length
          ≤ (record_text w).indexOf 91 := by rw [List.length_take]; omega
      omega
    have hr : record_rbr w
        = record_dne w + 1 + (record_text w).indexOf 91 + 1
          + (after_first 91 (record_text w)).indexOf 93 := rfl
    have hd16 : 16 ≤ record_dne w := by unfold record_dne; omega
    have hrt : w.drop (record_dne w + 1) = record_text w := hb2
    have hj := spans_join w junk cfg.show_device_name (record_dne w)
      (record_dne w + 1 + (record_name w).length) (record_rbr w + 1)
      (level_token (record_tail w)).1.length hd16 (by omega) (by omega) (by omega)
    rw [hrt] at hj
    exact hj
  · conv_lhs => rw [← List.take_append_drop 16 w]
    rw [← hseg]
  · intro hmem
    have := List.mem_takeWhile_imp hmem
    simp at this

set_option maxRecDepth 100000 in
/-- Witness for C23: the record `record_notice` is written whole when the device name
is shown, and as `Jan  1 00:00:00 kernel[0] <Notice>: boot ok` when it is not. -/
theorem accepted_record_bytes_witness :
    (well_formed record_notice = true
      ∧ printed (feed cfg_show_device heap_55 (Session.initial cfg_show_device heap_55)
          (record_notice ++ [0])).2 = true
      ∧ printed (feed Config.initial heap_55 (Session.initial Config.initial heap_55)
          (record_notice ++ [0])).2 = true)
    ∧ written (feed cfg_show_device heap_55 (Session.initial cfg_show_device heap_55)
        (record_notice ++ [0])).2 = record_notice
    ∧ written (feed Config.initial heap_55 (Session.initial Config.initial heap_55)
        (record_notice ++ [0])).2 = bytes "Jan  1 00:00:00 kernel[0] <Notice>: boot ok" :=
  ⟨⟨by decide, by decide, by decide⟩,
   (accepted_record_bytes cfg_show_device heap_55 (Session.initial cfg_show_device heap_55)
      record_notice (Session.initial_inv cfg_show_device heap_55).1
      (Session.initial_inv cfg_show_device heap_55).2 (by decide) (by decide)).1.trans
      (by decide),
   (accepted_record_bytes Config.initial heap_55 (Session.initial Config.initial heap_55)
      record_notice (Session.initial_inv Config.initial heap_55).1
      (Session.initial_inv Config.initial heap_55).2 (by decide) (by decide)).1.trans
      (by decide)⟩

/-! ## Theorems: arming by a trigger -/

/-- The decision procedure in the state DISARMED on a text that contains a trigger: the
state becomes ARMED whatever the filters decide. -/
theorem decision_arms (cfg : Config) (q : Nat) (text : List Nat) (pid : Int) (name : List Nat)
    (hT : cfg.trigger_filters ≠ []) (hfound : ∃ f ∈ cfg.trigger_filters, f <:+: text) :
    decision cfg false q text pid name
      = (message_filter_matching cfg text && process_filter_passes cfg pid name name.length,
          true, q) := by
  have hTl : cfg.trigger_filters.length > 0 := List.length_pos.2 hT
  have hany := (any_strstr_iff cfg.trigger_filters text).2 hfound
  unfold decision
  simp [hTl, hany]

/-- C24. With at least one trigger configured and the state DISARMED, a record whose
text contains a trigger string leaves the state ARMED, whether the record is then
printed or suppressed by the message filters or the process filters: for a well-formed
legacy record fed to `syslog_callback`, and for a trace packet of at least 0x81 bytes
with a message given to `ostrace_syslog_callback`.  The record is printed exactly when
it passes both filters. -/
theorem trigger_arms_despite_suppression (cfg : Config) (heap : Nat → Nat) (s : Session)
    (w : List Nat) (st : Session) (hdr : ostrace_packet_header_t) (buf : List Nat) (len : Nat)
    (hT : cfg.trigger_filters ≠ [])
    (hs : s.inv) (hlp : s.lp = 0) (ht : s.triggered = false) (hwf : well_formed w = true)
    (hfound : ∃ f ∈ cfg.trigger_filters, f <:+: record_text w)
    (hst : st.triggered = false) (hlen : 129 ≤ len) (hmsg : 0 < hdr.message_len)
    (hfound2 : ∃ f ∈ cfg.trigger_filters,
      f <:+: cstr buf (hdr.header_size + hdr.procpath_len + hdr.imagepath_len)) :
    ((feed cfg heap s (w ++ [0])).1.triggered = true
      ∧ printed (feed cfg heap s (w ++ [0])).2
          = (message_filter_matching cfg (record_text w)
              && process_filter_passes cfg (record_pid w) (record_name w)
                  (record_name w).length))
    ∧ ∃ r, ostrace_syslog_callback cfg st hdr buf len = some r
        ∧ r.1.triggered = true
        ∧ printed r.2
            = (message_filter_matching cfg
                  (cstr buf (hdr.header_size + hdr.procpath_len + hdr.imagepath_len))
                && process_filter_passes cfg (toInt32 hdr.pid)
                    (trace_process_name_short (cstr buf hdr.header_size))
                    (trace_process_name_short (cstr buf hdr.header_size)).length) := by
  constructor
  · obtain ⟨d1, _⟩ := legacy_decision cfg heap s w hs hlp hwf
    rw [ht, decision_arms cfg _ _ _ _ hT hfound] at d1
    simp only [Prod.mk.injEq] at d1
    exact ⟨d1.2.1, d1.1⟩
  · obtain ⟨r, hr, t1, _⟩ := trace_decision cfg st hdr buf len hlen hmsg
    rw [hst, decision_arms cfg _ _ _ _ hT hfound2] at t1
    simp only [Prod.mk.injEq] at t1
    exact ⟨r, hr, t1.2.1, t1.1⟩

set_option maxRecDepth 100000 in
/-- Witness for C24: under `-t START -M now`, in the state DISARMED, the record and the
trace packet with the message `START now` are suppressed by the message filter and
leave the state ARMED. -/
theorem trigger_arms_despite_suppression_witness :
    (cfg_trigger_exclude.trigger_filters ≠ [] ∧ session_disarmed.triggered = false
      ∧ well_formed record_start = true ∧ 129 ≤ 147 ∧ 0 < hdr_start.message_len)
    ∧ ((feed cfg_trigger_exclude heap_55 session_disarmed (record_start ++ [0])).1.triggered
          = true
      ∧ (feed cfg_trigger_exclude heap_55 session_disarmed (record_start ++ [0])).2 = [])
    ∧ ostrace_syslog_callback cfg_trigger_exclude session_disarmed hdr_start packet_start 147
        = some ({ session_disarmed with triggered := true }, []) := by
  have h := trigger_arms_despite_suppression cfg_trigger_exclude heap_55 session_disarmed
    record_start session_disarmed hdr_start packet_start 147 (by decide)
    (by unfold Session.inv; decide) rfl rfl (by decide)
    ((any_strstr_iff _ _).1 (by decide)) rfl (by decide) (by decide)
    ((any_strstr_iff _ _).1 (by decide))
  exact ⟨⟨by decide, by decide, by decide, by decide, by decide⟩,
    ⟨h.1.1, by decide⟩, by decide⟩

/-! ## Theorems: the cursor stays inside the line buffer -/

theorem syslog_callback_eq_grow (cfg : Config) (heap : Nat → Nat) (s : Session) (c : Nat) :
    syslog_callback cfg heap s c
      = if c == 0 then
          legacy_record cfg (syslog_callback_grow heap s)
            ((syslog_callback_grow heap s).line.set (syslog_callback_grow heap s).lp c)
            (syslog_callback_grow heap s).lp
        else
          ({ syslog_callback_grow heap s with
              line := (syslog_callback_grow heap s).line.set (syslog_callback_grow heap s).lp c,
              lp := (syslog_callback_grow heap s).lp + 1 }, []) := rfl

theorem legacy_record_size (cfg : Config) (s1 : Session) (line : List Nat) (lp : Nat) :
    (legacy_record cfg s1 line lp).1.line_buffer_size = s1.line_buffer_size
    ∧ (legacy_record cfg s1 line lp).1.lp = 0
    ∧ (legacy_record cfg s1 line lp).1.line.length = line.length := by
  unfold legacy_record
  by_cases h : (no_filters cfg
      || (legacy_block cfg s1.triggered s1.quit_flag line lp).shall_print) = true
  · simp [h]
  · simp [h]

/-- After the growth step the cursor is at least two bytes below the capacity, which is
still the length of the buffer and a multiple of 1024. -/
theorem syslog_callback_grow_inv (heap : Nat → Nat) (s : Session)
    (hs : s.inv) (hm : 1024 ∣ s.line_buffer_size) :
    (syslog_callback_grow heap s).lp = s.lp
    ∧ (syslog_callback_grow heap s).lp + 1 < (syslog_callback_grow heap s).line_buffer_size
    ∧ (syslog_callback_grow heap s).line.length = (syslog_callback_grow heap s).line_buffer_size
    ∧ 1024 ∣ (syslog_callback_grow heap s).line_buffer_size := by
  obtain ⟨h1, h2⟩ := hs
  unfold syslog_callback_grow
  by_cases hg : s.lp + 1 ≥ s.line_buffer_size
  · simp only [hg, if_true]
    refine ⟨trivial, by omega, ?_, ?_⟩
    · simp [fresh, h1]
    · exact Dvd.dvd.add hm (dvd_refl 1024)
  · simp only [hg, if_false]
    exact ⟨trivial, by omega, h1, hm⟩

theorem syslog_callback_inv (cfg : Config) (heap : Nat → Nat) (s : Session) (c : Nat)
    (hs : s.inv) (hm : 1024 ∣ s.line_buffer_size) :
    (syslog_callback cfg heap s c).1.inv
    ∧ 1024 ∣ (syslog_callback cfg heap s c).1.line_buffer_size := by
  obtain ⟨g1, g2, g3, g4⟩ := syslog_callback_grow_inv heap s hs hm
  rw [syslog_callback_eq_grow]
  unfold Session.inv
  by_cases hc : (c == 0) = true
  · simp only [hc, if_true]
    obtain ⟨r1, r2, r3⟩ := legacy_record_size cfg (syslog_callback_grow heap s)
      ((syslog_callback_grow heap s).line.set (syslog_callback_grow heap s).lp c)
      (syslog_callback_grow heap s).lp
    rw [r1, r2, r3, List.length_set]
    exact ⟨⟨g3, by omega⟩, g4⟩
  · simp only [hc, Bool.false_eq_true, if_false, List.length_set]
    exact ⟨⟨g3, by omega⟩, g4⟩

theorem feed_inv (cfg : Config) (heap : Nat → Nat) (bs : List Nat) :
    ∀ s : Session, s.inv → 1024 ∣ s.line_buffer_size →
      (feed cfg heap s bs).1.inv ∧ 1024 ∣ (feed cfg heap s bs).1.line_buffer_size := by
  induction bs with
  | nil => intro s hs hm; exact ⟨hs, hm⟩
  | cons c t ih =>
    intro s hs hm
    obtain ⟨a1, a2⟩ := syslog_callback_inv cfg heap s c hs hm
    exact ih _ a1 a2

/-- C25. Starting from the initial line buffer (capacity 1024, cursor 0), after any
sequence of calls of `syslog_callback` the cursor satisfies `lp ≤ line_buffer_size - 1`,
`line_buffer_size` is a positive multiple of 1024 and is the length of the buffer; in
the next call, whatever the byte, the index `lp` at which the byte is stored (after
the growth step) and the index `lp` that holds the NUL when the record is processed
are strictly below the capacity, and so is the index 0 of `line[0] = 0`. -/
theorem cursor_inside_buffer (cfg : Config) (heap : Nat → Nat) (bs : List Nat) :
    ((feed cfg heap (Session.initial cfg heap) bs).1.lp
        ≤ (feed cfg heap (Session.initial cfg heap) bs).1.line_buffer_size - 1
      ∧ 0 < (feed cfg heap (Session.initial cfg heap) bs).1.line_buffer_size
      ∧ 1024 ∣ (feed cfg heap (Session.initial cfg heap) bs).1.line_buffer_size
      ∧ (feed cfg heap (Session.initial cfg heap) bs).1.line.length
          = (feed cfg heap (Session.initial cfg heap) bs).1.line_buffer_size)
    ∧ ((syslog_callback_grow heap (feed cfg heap (Session.initial cfg heap) bs).1).lp
        < (syslog_callback_grow heap
            (feed cfg heap (Session.initial cfg heap) bs).1).line_buffer_size
      ∧ (syslog_callback_grow heap (feed cfg heap (Session.initial cfg heap) bs).1).line.length
        = (syslog_callback_grow heap
            (feed cfg heap (Session.initial cfg heap) bs).1).line_buffer_size) := by
  have h0 : (Session.initial cfg heap).inv := (Session.initial_inv cfg heap).1
  have hm0 : 1024 ∣ (Session.initial cfg heap).line_buffer_size := dvd_refl 1024
  obtain ⟨⟨i1, i2⟩, i3⟩ := feed_inv cfg heap bs (Session.initial cfg heap) h0 hm0
  obtain ⟨g1, g2, g3, g4⟩ := syslog_callback_grow_inv heap
    (feed cfg heap (Session.initial cfg heap) bs).1 ⟨i1, i2⟩ i3
  exact ⟨⟨by omega, by omega, i3, i1⟩, by omega, g3⟩

end Idevicesyslog
